import Mathlib

/-!
# GeNN code generator: dispatch, memory placement, row mutation, environments

A shallow embedding of the parts of the GeNN SIMT code generator that decide

* the dispatch of lane ids to merged groups (`BackendSIMT::genGroup`) and the
  first-fit placement of merged structs in memory spaces
  (`Backend::genMergedStructArrayPush`);
* the code emitted for `add_synapse`, `remove_synapse` and the
  `for_each_synapse` row scan
  (`CustomConnectivityUpdateGroupMerged::generateUpdate`), with the fields and
  the function types registered there;
* the lookup of names and the lazy initialisers of the environments
  (`EnvironmentExternal`, `EnvironmentSubstitute`), the marker substitution
  `printSubs` and the drivers `prettyPrintExpression` and
  `prettyPrintStatements`;
* the initialisation kernels (`BackendSIMT::genSynapseVarInit`,
  `BackendSIMT::genSparseSynapseVarInit`), the access flags of `varAccess.h`
  and the rule for explicit casts.

The generator emits C text.  The text of a kernel fragment is embedded by the
function it computes on the kernel's variables, its statements taken in the
order of emission.  Kernel variables of type `unsigned int` hold values
modulo `2 ^ 32`, host variables of type `size_t` values modulo `2 ^ 64`.
-/

namespace GeNN

/-! ## Machine arithmetic -/

/-- Number of values of an `unsigned int` of the generated kernels. -/
def uintSize : Nat := 2 ^ 32

/-- Number of values of a host `size_t`. -/
def sizeTSize : Nat := 2 ^ 64

/-- Sum of two `unsigned int` values. -/
def addU32 (a b : Nat) : Nat := (a + b) % uintSize

/-- Difference of two `unsigned int` values (wraps around below zero). -/
def subU32 (a b : Nat) : Nat := (a % uintSize + (uintSize - b % uintSize)) % uintSize

/-- Product of two `unsigned int` values. -/
def mulU32 (a b : Nat) : Nat := (a * b) % uintSize

/-- Sum of two `size_t` values. -/
def addSizeT (a b : Nat) : Nat := (a + b) % sizeTSize

/-- Difference of two `size_t` values (wraps around below zero). -/
def subSizeT (a b : Nat) : Nat := (a % sizeTSize + (sizeTSize - b % sizeTSize)) % sizeTSize

/-! ## Lane dispatch: `BackendSIMT::genGroup` -/

section Dispatch

variable {G : Type}

/-- Modelled from the spec: `padSize` (behind `padKernelSize`) is declared but
not defined in the excerpt; it rounds a raw element count up to a multiple of
the kernel's block size. -/
def padSize (size blockSize : Nat) : Nat := ((size + blockSize - 1) / blockSize) * blockSize

/-- The `std::accumulate` at the head of `genGroup`: the padded sizes of the
members of a merged group, summed in a `size_t`. -/
def paddedSize (getPaddedSizeFn : G → Nat) (groups : List G) : Nat :=
  groups.foldl (fun acc g => addSizeT acc (getPaddedSizeFn g)) 0

/-- Modelled from the spec: the start-ID table `d_merged<T>GroupStartID<i>` is
read by the emitted code but filled outside the excerpt; entry `k` is the
starting lane id of member `k`, that is `idStart` plus the padded sizes of the
members before it. -/
def startIDTable (getPaddedSizeFn : G → Nat) : Nat → List G → List Nat
  | _, [] => []
  | idStart, g :: gs => idStart :: startIDTable getPaddedSizeFn (idStart + getPaddedSizeFn g) gs

/-- The guard emitted in front of a merged group's block:
`if(id < paddedSize)` for the first group and
`if(id >= idStart && id < idStart + paddedSize)` otherwise. -/
def genGroupGuard (idStart padded id : Nat) : Bool :=
  if idStart = 0 then decide (id < padded)
  else decide (idStart ≤ id) && decide (id < addSizeT idStart padded)

/-- The emitted bisect loop
`while(lo < hi) { mid = (lo + hi) / 2; if(id < startID[mid]) hi = mid; else lo = mid + 1; }`
on `unsigned int` variables.  `fuel` bounds the number of times the body runs;
the result is `none` when the fuel is used up or the table is read out of
bounds, and the final `lo` otherwise. -/
def bisect (startID : List Nat) (id : Nat) : Nat → Nat → Nat → Option Nat
  | fuel, lo, hi =>
    if lo < hi then
      match fuel with
      | 0 => none
      | fuel + 1 =>
        let mid := addU32 lo hi / 2
        match startID[mid]? with
        | none => none
        | some s =>
          if id < s then bisect startID id fuel lo mid
          else bisect startID id fuel (addU32 mid 1) hi
    else some lo

/-- The block emitted by `genGroup` under the guard: the member of the merged
group a lane belongs to and the lane's local id `lid`.  With one member the
struct `[0]` is used and `lid = id - idStart`; otherwise the bisect loop runs
from `lo = 0`, `hi = N` and the member is `lo - 1`, `lid = id - startID[lo - 1]`. -/
def genGroupBody (getPaddedSizeFn : G → Nat) (groups : List G) (idStart id fuel : Nat) :
    Option (Nat × Nat) :=
  if groups.length = 1 then
    some (0, subU32 id idStart)
  else
    let startID := startIDTable getPaddedSizeFn idStart groups
    match bisect startID id fuel 0 (groups.length % uintSize) with
    | none => none
    | some lo =>
      match startID[subU32 lo 1]? with
      | none => none
      | some groupStartID => some (subU32 lo 1, subU32 id groupStartID)

/-- The code emitted by one call of `genGroup`, run by the lane `id`: `none`
when the guard does not hold (or the block does not finish), the resolved
member and local id otherwise. -/
def genGroupResolve (getPaddedSizeFn : G → Nat) (groups : List G) (idStart id fuel : Nat) :
    Option (Nat × Nat) :=
  if genGroupGuard idStart (paddedSize getPaddedSizeFn groups) id then
    genGroupBody getPaddedSizeFn groups idStart id fuel
  else none

/-- The update `idStart += paddedSize` at the end of `genGroup`. -/
def genGroupAdvance (getPaddedSizeFn : G → Nat) (groups : List G) (idStart : Nat) : Nat :=
  addSizeT idStart (paddedSize getPaddedSizeFn groups)

/-- Reference resolution, following the specification: scan the members in
order and return the first `k` with `startID[k] ≤ id < startID[k] + pad k`,
together with `id - startID[k]`. -/
def linearScanFrom (getPaddedSizeFn : G → Nat) (id : Nat) : Nat → List (Nat × G) → Option (Nat × Nat)
  | _, [] => none
  | k, (s, g) :: rest =>
    if s ≤ id ∧ id < s + getPaddedSizeFn g then some (k, id - s)
    else linearScanFrom getPaddedSizeFn id (k + 1) rest

/-- Reference linear scan over the start-ID table of a merged group. -/
def linearScan (getPaddedSizeFn : G → Nat) (groups : List G) (idStart id : Nat) : Option (Nat × Nat) :=
  linearScanFrom getPaddedSizeFn id 0 ((startIDTable getPaddedSizeFn idStart groups).zip groups)

/-- The padded sizes of the members of a merged group, summed exactly (the
value `paddedSize` holds when the `size_t` sum does not overflow). -/
def summedPaddedSize (getPaddedSizeFn : G → Nat) (groups : List G) : Nat :=
  (groups.map getPaddedSizeFn).sum

/-- The calls of `genGroup` made by `genParallelGroup`, one for every merged
group in order, all sharing `idStart`.  The result lists, for every merged
group, the `idStart` and `paddedSize` its guard was emitted with, and gives
the value of `idStart` after the last call. -/
def genParallelGroup (getPaddedSizeFn : G → Nat) : List (List G) → Nat → List (Nat × Nat) × Nat
  | [], idStart => ([], idStart)
  | gMerge :: rest, idStart =>
    let r := genParallelGroup getPaddedSizeFn rest (genGroupAdvance getPaddedSizeFn gMerge idStart)
    ((idStart, paddedSize getPaddedSizeFn gMerge) :: r.1, r.2)

/-- Whether the guard emitted for the `k`-th merged group holds for lane `id`. -/
def guardHolds (guards : List (Nat × Nat)) (k id : Nat) : Bool :=
  match guards[k]? with
  | some (idStart, padded) => genGroupGuard idStart padded id
  | none => false

/-- The bound `S_k` of the specification: the summed padded sizes of the first
`k` merged groups, added up exactly. -/
def rangeEnd (getPaddedSizeFn : G → Nat) (merged : List (List G)) (k : Nat) : Nat :=
  summedPaddedSize (summedPaddedSize getPaddedSizeFn) (merged.take k)

end Dispatch

/-! ## Memory placement: `Backend::genMergedStructArrayPush` -/

/-- The type `MemorySpaces` of the backends: the named memory spaces with the
bytes that remain in each, in order. -/
abbrev MemorySpaces := List (String × Nat)

/-- The inner loop of `genMergedStructArrayPush` for one merged group whose
struct array takes `groupBytes` bytes: the first memory space `m` with
`m.second > groupBytes` receives the array, `m.second -= groupBytes` (in
`size_t`) and the search stops.  The result is the index of the memory space
chosen (`none` when `memorySpaceFound` stays `false`) and the memory spaces
after the loop. -/
def placeGroup (groupBytes : Nat) : MemorySpaces → Option Nat × MemorySpaces
  | [] => (none, [])
  | m :: ms =>
    if m.2 > groupBytes then (some 0, (m.1, subSizeT m.2 groupBytes) :: ms)
    else
      let r := placeGroup groupBytes ms
      (r.1.map (· + 1), m :: r.2)

/-- The loop of `genMergedStructArrayPush` over the merged groups, given by the
byte sizes of their struct arrays.  `assert(memorySpaceFound)` ends the run
with `Except.error`.  Either way the result carries the placements made so
far, as pairs (index of the memory space, bytes), and the memory spaces. -/
def genMergedStructArrayPush :
    List Nat → MemorySpaces → Except (List (Nat × Nat) × MemorySpaces) (List (Nat × Nat) × MemorySpaces)
  | [], memorySpaces => .ok ([], memorySpaces)
  | groupBytes :: rest, memorySpaces =>
    match placeGroup groupBytes memorySpaces with
    | (none, ms) => .error ([], ms)
    | (some i, ms) =>
      match genMergedStructArrayPush rest ms with
      | .ok (placed, ms2) => .ok ((i, groupBytes) :: placed, ms2)
      | .error (placed, ms2) => .error ((i, groupBytes) :: placed, ms2)

/-- The bytes of the placements that went to memory space `i`, added up exactly. -/
def placedBytes (placed : List (Nat × Nat)) (i : Nat) : Nat :=
  ((placed.filter (fun p => p.1 = i)).map (fun p => p.2)).sum

/-- The placements and memory spaces a run of `genMergedStructArrayPush` ends
with, whether it completes or stops at the assertion. -/
def pushOutcome (r : Except (List (Nat × Nat) × MemorySpaces) (List (Nat × Nat) × MemorySpaces)) :
    List (Nat × Nat) × MemorySpaces :=
  match r with
  | .ok x => x
  | .error x => x

/-! ## Row mutation: `CustomConnectivityUpdateGroupMerged::generateUpdate` -/

/-- The arrays of a merged group that hold one element per synapse: `$(_ind)`
with the postsynaptic targets, `group->` followed by the name of the `i`-th
model variable (`ccuVars[i]`) or of the `i`-th variable reference
(`ccuVarRefs[i]`), and `group->_dependentVar<i>`. -/
inductive Field
  | ind
  | var (i : Nat)
  | varRef (i : Nat)
  | dependentVar (i : Nat)
  deriving DecidableEq, Repr

/-- The contents of the arrays of a merged group. -/
abbrev Memory (V : Type) := Field → Nat → V

/-- The assignment `f[i] = v`. -/
def Memory.write {V : Type} (m : Memory V) (f : Field) (i : Nat) (v : V) : Memory V :=
  fun g k => if g = f ∧ k = i then v else m g k

/-- The array assignments the generator emits, with their indices evaluated:
`f[i] = v;` with `v` the value of an argument (or `0`), and `f[dst] = f[src];`. -/
inductive Stmt (V : Type)
  | store (f : Field) (i : Nat) (v : V)
  | copy (f : Field) (dst src : Nat)

/-- The array element a statement assigns to. -/
def Stmt.target {V : Type} : Stmt V → Field × Nat
  | .store f i _ => (f, i)
  | .copy f dst _ => (f, dst)

/-- The array element a statement reads, if any. -/
def Stmt.source {V : Type} : Stmt V → Option (Field × Nat)
  | .store _ _ _ => none
  | .copy f _ src => some (f, src)

/-- The value a statement assigns when run in memory `m`. -/
def Stmt.value {V : Type} : Stmt V → Memory V → V
  | .store _ _ v, _ => v
  | .copy f _ src, m => m f src

/-- Run one statement. -/
def Stmt.exec {V : Type} (st : Stmt V) (m : Memory V) : Memory V :=
  m.write st.target.1 st.target.2 (st.value m)

/-- Run statements one after the other. -/
def execAll {V : Type} (code : List (Stmt V)) (m : Memory V) : Memory V :=
  code.foldl (fun m st => st.exec m) m

/-- What `generateUpdate` reads from the model when it emits `add_synapse` and
`remove_synapse`: the batch size, the numbers of model variables
(`ccuVars.size()`), variable references (`ccuVarRefs.size()`) and
dependent variables (`dependentVars.size()`), and `isDuplicated()` of
every variable reference and dependent variable. -/
structure UpdateModel where
  batchSize : Nat
  numVars : Nat
  numVarRefs : Nat
  numDependentVars : Nat
  varRefDuplicated : Nat → Bool
  dependentVarDuplicated : Nat → Bool

/-- The values a lane running the emitted code sees for `$(num_pre)`,
`$(_row_stride)` and `$(id_pre)`. -/
structure Lane where
  numPre : Nat
  rowStride : Nat
  idPre : Nat

/-- The state the emitted code works on: `$(_row_length)` and the per-synapse
arrays. -/
structure GroupState (V : Type) where
  rowLength : Nat → Nat
  mem : Memory V

/-- The initialiser `const unsigned int rowStartIdx = $(id_pre) * $(_row_stride);`. -/
def rowStartIdx (l : Lane) : Nat := mulU32 l.idPre l.rowStride

/-- The initialiser `const unsigned int synStride = $(num_pre) * $(_row_stride);`. -/
def synStride (l : Lane) : Nat := mulU32 l.numPre l.rowStride

/-- The index expression `(b * $(_syn_stride)) + i` of the loops over batches. -/
def batchIdx (l : Lane) (b i : Nat) : Nat := addU32 (mulU32 b (synStride l)) i

/-- The emitted loop `for(int b = 0; b < batchSize; b++)` around
`f[(b * $(_syn_stride)) + i] = v;`, unrolled. -/
def storeBatches {V : Type} (l : Lane) (batchSize : Nat) (f : Field) (i : Nat) (v : V) :
    List (Stmt V) :=
  (List.range batchSize).map (fun b => Stmt.store f (batchIdx l b i) v)

/-- The emitted loop `for(int b = 0; b < batchSize; b++)` around
`f[(b * $(_syn_stride)) + idx] = f[(b * $(_syn_stride)) + lastIdx];`, unrolled. -/
def copyBatches {V : Type} (l : Lane) (batchSize : Nat) (f : Field) (idx lastIdx : Nat) :
    List (Stmt V) :=
  (List.range batchSize).map (fun b => Stmt.copy f (batchIdx l b idx) (batchIdx l b lastIdx))

/-- The assignments emitted for `add_synapse` after the assertion, in order:
the target `$(0)` into `$(_ind)[newIdx]`; argument `$(1 + i)` into the `i`-th
model variable; argument `$(1 + ccuVars.size() + i)` into the `i`-th variable
reference, through a register and a loop `for(int b = 0; b < batchSize; b++)`
over `[(b * $(_syn_stride)) + newIdx]` when the model is batched and the
reference is duplicated; `0` into every dependent variable, with the same
loop when the model is batched and the variable is duplicated.  Every
argument is read once, so `args k` is the value `$(k)` evaluates to. -/
def addSynapseStores {V : Type} [Zero V] (cfg : UpdateModel) (l : Lane) (newIdx : Nat)
    (args : Nat → V) : List (Stmt V) :=
  [Stmt.store Field.ind newIdx (args 0)]
  ++ (List.range cfg.numVars).map (fun i => Stmt.store (Field.var i) newIdx (args (1 + i)))
  ++ (List.range cfg.numVarRefs).flatMap (fun i =>
      if cfg.batchSize > 1 ∧ cfg.varRefDuplicated i = true then
        storeBatches l cfg.batchSize (Field.varRef i) newIdx (args (1 + cfg.numVars + i))
      else [Stmt.store (Field.varRef i) newIdx (args (1 + cfg.numVars + i))])
  ++ (List.range cfg.numDependentVars).flatMap (fun i =>
      if cfg.batchSize > 1 ∧ cfg.dependentVarDuplicated i = true then
        storeBatches l cfg.batchSize (Field.dependentVar i) newIdx 0
      else [Stmt.store (Field.dependentVar i) newIdx 0])

/-- Modelled from the spec: `genAssert` is a method of the backend, outside
the excerpt; the assertion it emits is fatal when violated, so the run stops
there, with `Except.error` carrying the state it has reached, and goes on
unchanged otherwise. -/
def genAssert {σ : Type} (cond : Bool) (s : σ) : Except σ σ :=
  if cond = true then .ok s else .error s

/-- The code emitted for `add_synapse`: first the assertion
`$(_row_length)[$(id_pre)] < $(_row_stride)`, then
`const unsigned newIdx = $(_row_start_idx) + $(_row_length)[$(id_pre)];`, the
assignments, and `$(_row_length)[$(id_pre)]++;`. -/
def addSynapse {V : Type} [Zero V] (cfg : UpdateModel) (l : Lane) (args : Nat → V)
    (s : GroupState V) : Except (GroupState V) (GroupState V) :=
  match genAssert (decide (s.rowLength l.idPre < l.rowStride)) s with
  | .error e => .error e
  | .ok s1 =>
    let newIdx := addU32 (rowStartIdx l) (s1.rowLength l.idPre)
    .ok { mem := execAll (addSynapseStores cfg l newIdx args) s1.mem
          rowLength := fun q => if q = l.idPre then addU32 (s1.rowLength q) 1 else s1.rowLength q }

/-- The assignments emitted for `remove_synapse`, in order: `[idx] = [lastIdx]`
in `$(_ind)` and in every model variable, and in every variable reference and
dependent variable, there inside `for(int b = 0; b < batchSize; b++)` from
`[(b * $(_syn_stride)) + lastIdx]` to `[(b * $(_syn_stride)) + idx]` when the
model is batched and the array is duplicated.  (For a variable reference the
braces of that loop are written to the stream of `add_synapse`, after its
text has been taken; the loop body is the one assignment with or without
them.) -/
def removeSynapseCopies {V : Type} (cfg : UpdateModel) (l : Lane) (idx lastIdx : Nat) :
    List (Stmt V) :=
  [Stmt.copy Field.ind idx lastIdx]
  ++ (List.range cfg.numVars).map (fun i => Stmt.copy (Field.var i) idx lastIdx)
  ++ (List.range cfg.numVarRefs).flatMap (fun i =>
      if cfg.batchSize > 1 ∧ cfg.varRefDuplicated i = true then
        copyBatches l cfg.batchSize (Field.varRef i) idx lastIdx
      else [Stmt.copy (Field.varRef i) idx lastIdx])
  ++ (List.range cfg.numDependentVars).flatMap (fun i =>
      if cfg.batchSize > 1 ∧ cfg.dependentVarDuplicated i = true then
        copyBatches l cfg.batchSize (Field.dependentVar i) idx lastIdx
      else [Stmt.copy (Field.dependentVar i) idx lastIdx])

/-- The code emitted for `remove_synapse`, run where `idx` and the loop counter
`j` of the enclosing row scan are in scope:
`const unsigned lastIdx = $(_row_start_idx) + $(_row_length)[$(id_pre)] - 1;`,
the copies, `$(_row_length)[$(id_pre)]--;` and `j--;`.  The result is the new
state and the new value of `j`. -/
def removeSynapse {V : Type} (cfg : UpdateModel) (l : Lane) (idx : Nat) (j : Int)
    (s : GroupState V) : GroupState V × Int :=
  let lastIdx := subU32 (addU32 (rowStartIdx l) (s.rowLength l.idPre)) 1
  ({ mem := execAll (removeSynapseCopies cfg l idx lastIdx) s.mem
     rowLength := fun q => if q = l.idPre then subU32 (s.rowLength q) 1 else s.rowLength q },
   j - 1)

/-- The array elements that make up the synapse in slot `idx`: one element of
`$(_ind)` and of every model variable, and of every variable reference and
dependent variable one element, or one per batch when the model is batched
and the array is duplicated. -/
def slotCells (cfg : UpdateModel) (l : Lane) (idx : Nat) : List (Field × Nat) :=
  [(Field.ind, idx)]
  ++ (List.range cfg.numVars).map (fun i => (Field.var i, idx))
  ++ (List.range cfg.numVarRefs).flatMap (fun i =>
      if cfg.batchSize > 1 ∧ cfg.varRefDuplicated i = true then
        (List.range cfg.batchSize).map (fun b => (Field.varRef i, batchIdx l b idx))
      else [(Field.varRef i, idx)])
  ++ (List.range cfg.numDependentVars).flatMap (fun i =>
      if cfg.batchSize > 1 ∧ cfg.dependentVarDuplicated i = true then
        (List.range cfg.batchSize).map (fun b => (Field.dependentVar i, batchIdx l b idx))
      else [(Field.dependentVar i, idx)])

/-- The synapse in slot `idx`: the values of its array elements. -/
def synapseAt {V : Type} (cfg : UpdateModel) (l : Lane) (m : Memory V) (idx : Nat) : List V :=
  (slotCells cfg l idx).map (fun c => m c.1 c.2)

/-- The value the statements of `add_synapse` carry for each array: `$(0)` for
`$(_ind)`, `$(1 + i)` for the `i`-th model variable,
`$(1 + ccuVars.size() + i)` for the `i`-th variable reference and `0` for a
dependent variable. -/
def addSynapseValue {V : Type} [Zero V] (cfg : UpdateModel) (args : Nat → V) : Field → V
  | Field.ind => args 0
  | Field.var i => args (1 + i)
  | Field.varRef i => args (1 + cfg.numVars + i)
  | Field.dependentVar _ => 0

/-! ## Environments: `EnvironmentExternal` and `EnvironmentSubstitute` -/

/-- What a call leaves behind: the value it returns or the message of the
exception it throws, and the state of the objects it works on. -/
structure Outcome (α σ : Type) where
  result : Except String α
  state : σ

/-- The members of an `EnvironmentExternal`: `m_Environment`, which maps a
name to a type and a value; the entries are kept in the order of insertion. -/
structure EnvironmentExternal (τ : Type) where
  environment : List (String × τ × String)

/-- The members of an `EnvironmentSubstitute`: `m_VarSubstitutions`, which maps
a name to a destination and the indices of the initialisers it relies on,
`m_Initialisers` with the flag and the text of every initialiser, and the
text buffered in `m_ContentsStream`. -/
structure EnvironmentSubstitute where
  varSubstitutions : List (String × String × List Nat)
  initialisers : List (Bool × String)
  contentsStream : String

/-- An environment of a chain; `getName` is virtual, so the class of the object
decides what a lookup does. -/
inductive Environment (τ : Type)
  | external (e : EnvironmentExternal τ)
  | substitute (s : EnvironmentSubstitute)

/-- `EnvironmentExternal::add`: `try_emplace` inserts the binding unless the name
is bound already, and then the redeclaration error is thrown. -/
def EnvironmentExternal.add {τ : Type} (e : EnvironmentExternal τ) (type : τ)
    (name value : String) : Outcome Unit (EnvironmentExternal τ) :=
  match e.environment.lookup name with
  | none => { result := .ok (), state := { environment := e.environment ++ [(name, type, value)] } }
  | some _ => { result := .error ("Redeclaration of \x27" ++ name ++ "\x27"), state := e }

/-- `EnvironmentSubstitute::addInitialiser`: the initialiser is appended with its
flag cleared, and its index `m_Initialisers.size() - 1` is returned. -/
def EnvironmentSubstitute.addInitialiser (s : EnvironmentSubstitute) (initialiser : String) :
    Nat × EnvironmentSubstitute :=
  (s.initialisers.length + 1 - 1,
    { s with initialisers := s.initialisers ++ [(false, initialiser)] })

/-- `EnvironmentSubstitute::addSubstitution`: the assertion that every index is
below `m_Initialisers.size()` comes first; then `try_emplace` inserts the
substitution unless the name is bound already, and then the redeclaration
error is thrown. -/
def EnvironmentSubstitute.addSubstitution (s : EnvironmentSubstitute)
    (source destination : String) (initialisers : List Nat) :
    Outcome Unit EnvironmentSubstitute :=
  if initialisers.all (fun i => decide (i < s.initialisers.length)) = true then
    match s.varSubstitutions.lookup source with
    | none =>
      { result := .ok ()
        state := { s with
          varSubstitutions := s.varSubstitutions ++ [(source, destination, initialisers)] } }
    | some _ =>
      { result := .error ("Redeclaration of substitution \x27" ++ source ++ "\x27"), state := s }
  else { result := .error "Assertion failed", state := s }

/-- The loop of `EnvironmentSubstitute::getName` over the initialisers of a
substitution, `m_Initialisers.at(i).first = true`; `at` throws for an index
that is out of range, and the flags set before that stay set. -/
def markRequired : List Nat → List (Bool × String) → Outcome Unit (List (Bool × String))
  | [], initialisers => { result := .ok (), state := initialisers }
  | i :: rest, initialisers =>
    match initialisers[i]? with
    | some (_, text) => markRequired rest (initialisers.set i (true, text))
    | none => { result := .error "out_of_range", state := initialisers }

/-- `EnvironmentExternal::getName`: the value bound to the name in
`m_Environment`; else, if the context is an enclosing environment, the
outcome `enclosing` of its `getName`; else the error `Undefined identifier`.
`context` lists the enclosing environments; it is empty when the context is
the output stream. -/
def EnvironmentExternal.getName {τ : Type} (e : EnvironmentExternal τ) (name : String)
    (context : List (Environment τ)) (enclosing : Outcome String (List (Environment τ))) :
    Outcome String (List (Environment τ)) :=
  match e.environment.lookup name with
  | some (_, value) => { result := .ok value, state := Environment.external e :: context }
  | none =>
    if context.isEmpty = true then
      { result := .error ("Undefined identifier \x27" ++ name ++ "\x27")
        state := [Environment.external e] }
    else { result := enclosing.result, state := Environment.external e :: enclosing.state }

/-- `EnvironmentSubstitute::getName`: without a substitution for the name the
outcome `enclosing` of `getContextName`; else the initialisers of the
substitution are marked as required and its destination is returned. -/
def EnvironmentSubstitute.getName {τ : Type} (s : EnvironmentSubstitute) (name : String)
    (context : List (Environment τ)) (enclosing : Outcome String (List (Environment τ))) :
    Outcome String (List (Environment τ)) :=
  match s.varSubstitutions.lookup name with
  | none => { result := enclosing.result, state := Environment.substitute s :: enclosing.state }
  | some (destination, initialisers) =>
    { result :=
        match (markRequired initialisers s.initialisers).result with
        | .ok _ => .ok destination
        | .error msg => .error msg
      state := Environment.substitute
        { s with initialisers := (markRequired initialisers s.initialisers).state } :: context }

/-- The virtual `getName` on a chain of environments, the innermost first and
the output stream after the last; at the output stream `getContextName`
throws `Identifier ... undefined`. -/
def getName {τ : Type} : List (Environment τ) → String → Outcome String (List (Environment τ))
  | [], name => { result := .error ("Identifier \x27" ++ name ++ "\x27 undefined"), state := [] }
  | Environment.external e :: context, name => e.getName name context (getName context name)
  | Environment.substitute s :: context, name => s.getName name context (getName context name)

/-- Text written to the stream of an `EnvironmentSubstitute` (`getStream()`),
which is buffered in `m_ContentsStream`. -/
def EnvironmentSubstitute.write (s : EnvironmentSubstitute) (text : String) :
    EnvironmentSubstitute :=
  { s with contentsStream := s.contentsStream ++ text }

/-- The destructor `~EnvironmentSubstitute`, as the text the context stream
holds afterwards: every initialiser whose flag is set is written with
`std::endl`, in the order of `m_Initialisers`, and then the buffered
contents. -/
def EnvironmentSubstitute.destructor (s : EnvironmentSubstitute) (contextStream : String) :
    String :=
  (s.initialisers.foldl (fun os i => if i.1 = true then os ++ i.2 ++ "\n" else os)
    contextStream) ++ s.contentsStream

/-- The destructor of an inner `EnvironmentSubstitute` whose context is the outer
one: `getContextStream` is the stream of the enclosing environment, that is
the buffer of `outer`. -/
def EnvironmentSubstitute.destructorInto (inner outer : EnvironmentSubstitute) :
    EnvironmentSubstitute :=
  { outer with contentsStream := inner.destructor outer.contentsStream }

/-- A newly constructed `EnvironmentSubstitute`: no substitution, no
initialiser, an empty buffer. -/
def EnvironmentSubstitute.new : EnvironmentSubstitute :=
  { varSubstitutions := [], initialisers := [], contentsStream := "" }

/-- The calls made on an `EnvironmentSubstitute` while code is generated. -/
inductive Call
  | addInitialiser (initialiser : String)
  | addSubstitution (source destination : String) (initialisers : List Nat)
  | getName (name : String)
  deriving DecidableEq

/-- What a call gives back: the index returned by `addInitialiser`, nothing, the
text returned by `getName`, or the message of the exception thrown. -/
inductive Reply
  | index (n : Nat)
  | done
  | text (t : String)
  | thrown (msg : String)
  deriving DecidableEq

/-- One call on the innermost environment of a chain, an
`EnvironmentSubstitute`; a call that throws leaves the state it has reached. -/
def runCall {τ : Type} : List (Environment τ) → Call → Reply × List (Environment τ)
  | Environment.substitute s :: context, Call.addInitialiser initialiser =>
    (Reply.index (s.addInitialiser initialiser).1,
      Environment.substitute (s.addInitialiser initialiser).2 :: context)
  | Environment.substitute s :: context, Call.addSubstitution source destination initialisers =>
    (match (s.addSubstitution source destination initialisers).result with
      | .ok _ => Reply.done
      | .error msg => Reply.thrown msg,
      Environment.substitute (s.addSubstitution source destination initialisers).state :: context)
  | chain, Call.getName name =>
    (match (getName chain name).result with
      | .ok t => Reply.text t
      | .error msg => Reply.thrown msg,
      (getName chain name).state)
  | chain, _ => (Reply.thrown "not an EnvironmentSubstitute", chain)

/-- A sequence of calls, one after the other, with the replies in order. -/
def runCalls {τ : Type} : List (Environment τ) → List Call → List Reply × List (Environment τ)
  | chain, [] => ([], chain)
  | chain, c :: cs =>
    ((runCall chain c).1 :: (runCalls (runCall chain c).2 cs).1,
      (runCalls (runCall chain c).2 cs).2)

/-- The initialisers of the innermost environment of a chain. -/
def headInitialisers {τ : Type} : List (Environment τ) → List (Bool × String)
  | Environment.substitute s :: _ => s.initialisers
  | _ => []

/-- The initialisers a call resolves in a state: those listed by the
substitution that `getName` finds for the name in the innermost environment. -/
def resolves {τ : Type} : List (Environment τ) → Call → List Nat
  | Environment.substitute s :: _, Call.getName name =>
    match s.varSubstitutions.lookup name with
    | some (_, initialisers) => initialisers
    | none => []
  | _, _ => []

/-- The initialisers resolved by the `k`-th call of a sequence. -/
def resolvedAt {τ : Type} (chain : List (Environment τ)) (calls : List Call) (k : Nat) :
    List Nat :=
  match calls[k]? with
  | some c => resolves (runCalls chain (calls.take k)).2 c
  | none => []

/-- Initialiser `i` is referenced by a sequence of calls: some `getName` of the
sequence resolved a substitution that lists it. -/
def Referenced {τ : Type} (chain : List (Environment τ)) (calls : List Call) (i : Nat) : Prop :=
  ∃ k, k < calls.length ∧ i ∈ resolvedAt chain calls k

/-- The position of the first call that references initialiser `i`. -/
def firstReference {τ : Type} (chain : List (Environment τ)) (calls : List Call) (i : Nat) :
    Option Nat :=
  (List.range calls.length).find? (fun k => decide (i ∈ resolvedAt chain calls k))

/-- The flag of initialiser `i`. -/
def isRequired (initialisers : List (Bool × String)) (i : Nat) : Bool :=
  match initialisers[i]? with
  | some (flag, _) => flag
  | none => false

/-- The indices of the initialisers the destructor writes, in the order it
writes them. -/
def writtenIndices (initialisers : List (Bool × String)) : List Nat :=
  (List.range initialisers.length).filter (fun i => isRequired initialisers i)

/-- Texts put one after the other. -/
def concatText (texts : List String) : String :=
  texts.foldr (fun a b => a ++ b) ""

/-- The line the destructor writes for initialiser `i`. -/
def initialiserLine (initialisers : List (Bool × String)) (i : Nat) : String :=
  match initialisers[i]? with
  | some (_, text) => text ++ "\n"
  | none => ""

/-- The substitutions of an `EnvironmentSubstitute` list indices of existing
initialisers only, as the assertion of `addSubstitution` demands. -/
def IndicesValid (s : EnvironmentSubstitute) : Prop :=
  ∀ entry ∈ s.varSubstitutions, ∀ i ∈ entry.2.2, i < s.initialisers.length

/-- The texts registered by the `addInitialiser` calls of a sequence, in order. -/
def registered : List Call → List String
  | [] => []
  | Call.addInitialiser initialiser :: cs => initialiser :: registered cs
  | _ :: cs => registered cs

/-- The indices returned by the `addInitialiser` calls of a sequence, in order. -/
def returnedIndices : List Reply → List Nat
  | [] => []
  | Reply.index n :: rs => n :: returnedIndices rs
  | _ :: rs => returnedIndices rs

/-- The destructor writes initialiser `a` before initialiser `b`. -/
def WrittenBefore (initialisers : List (Bool × String)) (a b : Nat) : Prop :=
  ∃ l1 l2 l3, writtenIndices initialisers = l1 ++ a :: l2 ++ b :: l3

/-- Emission in first-reference order, as the specification words it: an
initialiser that is first referenced before another one is written before
it. -/
def FirstReferenceOrder {τ : Type} (chain : List (Environment τ)) (calls : List Call) : Prop :=
  ∀ a b ka kb, firstReference chain calls a = some ka → firstReference chain calls b = some kb →
    ka < kb → WrittenBefore (headInitialisers (runCalls chain calls).2) a b

/-- The contents buffered by the environments of a chain. -/
def chainContents {τ : Type} : List (Environment τ) → List String
  | [] => []
  | Environment.external _ :: context => chainContents context
  | Environment.substitute s :: context => s.contentsStream :: chainContents context

/-- Two initialisers `A` and `B`, registered in this order, of which `B` is
referenced first. -/
def exampleCalls : List Call :=
  [Call.addInitialiser "A", Call.addInitialiser "B",
   Call.addSubstitution "x" "lx" [0], Call.addSubstitution "y" "ly" [1],
   Call.getName "y", Call.getName "x", Call.getName "y"]

/-! ## Code generation utilities: `printSubs` -/

/-- The character class `[a-zA-Z_]`. -/
def isIdentStart (c : Char) : Bool := c.isAlpha || c == '_'

/-- The character class `[\w]`: a letter, a digit or the underscore. -/
def isWordChar (c : Char) : Bool := c.isAlphanum || c == '_'

/-- The regular expression `\$\(([a-zA-Z_][\w]+)\)` of `printSubs` tried at the
start of a text: the text of its group 1 when it matches there. `[\w]+`
takes one word character or more, and since `)` is not a word character the
group can only end where the run of word characters ends. -/
def regexMatchAt : List Char → Option (List Char)
  | a :: b :: c :: rest =>
    if a = '$' ∧ b = '(' ∧ isIdentStart c = true ∧ rest.takeWhile isWordChar ≠ []
        ∧ (rest.dropWhile isWordChar).head? = some ')' then
      some (c :: rest.takeWhile isWordChar)
    else none
  | _ => none

/-- The matches a `std::sregex_iterator` finds going from the left, each with
the unmatched text between the end of the previous match and its start
(`m->prefix()`) and the text of its group 1, and the unmatched text after
the last match (`m->suffix()`). `skip` counts the characters of the match
just found that are still to be passed over, `pre` is the unmatched text
read since the previous match. -/
def regexIterate : List Char → Nat → List Char → List (List Char × List Char) × List Char
  | [], _, pre => ([], pre)
  | _ :: cs, skip + 1, pre => regexIterate cs skip pre
  | c :: cs, 0, pre =>
    match regexMatchAt (c :: cs) with
    | some name =>
      ((pre, name) :: (regexIterate cs (name.length + 2) []).1,
        (regexIterate cs (name.length + 2) []).2)
    | none => regexIterate cs 0 (pre ++ [c])

/-- The loop of `printSubs` over the matches: the unmatched text before the
match is copied to the output, then the text the environment gives for the
matched name is added (`env[(*m)[1]]`, taken as `getName` on the chain of
environments: a lookup that may throw and that marks initialisers), and
after the last match the rest of the format is copied and the output
returned. -/
def printSubsLoop {τ : Type} : List (List Char × List Char) → List Char → String →
    List (Environment τ) → Outcome String (List (Environment τ))
  | [], suffix, output, env => { result := .ok (output ++ String.mk suffix), state := env }
  | (pre, name) :: ms, suffix, output, env =>
    match (getName env (String.mk name)).result with
    | .ok value =>
      printSubsLoop ms suffix (output ++ String.mk pre ++ value)
        (getName env (String.mk name)).state
    | .error msg => { result := .error msg, state := (getName env (String.mk name)).state }

/-- The function `printSubs`: a format without a match is returned as it is;
otherwise the output is built by the loop over the matches. -/
def printSubs {τ : Type} (format : String) (env : List (Environment τ)) :
    Outcome String (List (Environment τ)) :=
  if (regexIterate format.data 0 []).1.isEmpty = true then { result := .ok format, state := env }
  else printSubsLoop (regexIterate format.data 0 []).1 (regexIterate format.data 0 []).2 "" env

/-- The format string a list of matches and the final unmatched text come
from: every match is `$(`, its group 1 and `)`, after its unmatched text. -/
def renderMarkers (ms : List (List Char × List Char)) (suffix : List Char) : List Char :=
  (ms.flatMap (fun m => m.1 ++ '$' :: '(' :: m.2 ++ [')'])) ++ suffix

/-- The matches with every marker replaced by the text `val` gives for its
name, the unmatched text kept. -/
def renderValues (val : String → String) (ms : List (List Char × List Char))
    (suffix : List Char) : List Char :=
  (ms.flatMap (fun m => m.1 ++ (val (String.mk m.2)).data)) ++ suffix

/-- An identifier as the regular expression of `printSubs` takes it: a letter
or underscore followed by at least one word character. -/
def isMatchedName (name : List Char) : Bool :=
  match name with
  | c :: run => isIdentStart c && !run.isEmpty && run.all isWordChar
  | [] => false

/-- The names of all the places of a text at which the regular expression of
`printSubs` matches, from the left. -/
def allMatches : List Char → List (List Char)
  | [] => []
  | c :: cs => (regexMatchAt (c :: cs)).toList ++ allMatches cs

/-! ## Code generation utilities: `prettyPrintExpression` and `prettyPrintStatements` -/

/-- The transpiler as `prettyPrintExpression` and `prettyPrintStatements` use it:
the types of its data, and the stages the two functions call. A stage gets
the error handler or the environment it works on and leaves it changed; a
stage may throw. `hasError` is the error flag of the handler. -/
structure Transpiler where
  Token : Type
  TypeContext : Type
  ErrorHandlerBase : Type
  EnvironmentExternalBase : Type
  Expression : Type
  StatementList : Type
  ResolvedTypeMap : Type
  TypeCheckHandler : Type
  PrettyPrintHandler : Type
  parseExpression : List Token → TypeContext → ErrorHandlerBase →
    Outcome Expression ErrorHandlerBase
  parseBlockItemList : List Token → TypeContext → ErrorHandlerBase →
    Outcome StatementList ErrorHandlerBase
  typeCheckExpression : Expression → EnvironmentExternalBase → TypeContext → ErrorHandlerBase →
    Outcome ResolvedTypeMap (EnvironmentExternalBase × ErrorHandlerBase)
  typeCheckStatements : StatementList → EnvironmentExternalBase → TypeContext →
    ErrorHandlerBase → TypeCheckHandler →
    Outcome ResolvedTypeMap (EnvironmentExternalBase × ErrorHandlerBase)
  printExpression : Expression → EnvironmentExternalBase → TypeContext → ResolvedTypeMap →
    Outcome Unit EnvironmentExternalBase
  printStatements : StatementList → EnvironmentExternalBase → TypeContext → ResolvedTypeMap →
    PrettyPrintHandler → Outcome Unit EnvironmentExternalBase
  hasError : ErrorHandlerBase → Bool

/-- The function `prettyPrintExpression`: the tokens are parsed as an expression,
the types are resolved, and the expression is printed; nothing but an
exception of a stage ends the function early. The state is the environment
and the error handler. -/
def prettyPrintExpression (T : Transpiler) (tokens : List T.Token) (typeContext : T.TypeContext)
    (env : T.EnvironmentExternalBase) (errorHandler : T.ErrorHandlerBase) :
    Outcome Unit (T.EnvironmentExternalBase × T.ErrorHandlerBase) :=
  match (T.parseExpression tokens typeContext errorHandler).result with
  | .error msg =>
    { result := .error msg, state := (env, (T.parseExpression tokens typeContext errorHandler).state) }
  | .ok expression =>
    match (T.typeCheckExpression expression env typeContext
        (T.parseExpression tokens typeContext errorHandler).state).result with
    | .error msg =>
      { result := .error msg
        state := (T.typeCheckExpression expression env typeContext
          (T.parseExpression tokens typeContext errorHandler).state).state }
    | .ok resolvedTypes =>
      { result := (T.printExpression expression
          (T.typeCheckExpression expression env typeContext
            (T.parseExpression tokens typeContext errorHandler).state).state.1
          typeContext resolvedTypes).result
        state := ((T.printExpression expression
          (T.typeCheckExpression expression env typeContext
            (T.parseExpression tokens typeContext errorHandler).state).state.1
          typeContext resolvedTypes).state,
          (T.typeCheckExpression expression env typeContext
            (T.parseExpression tokens typeContext errorHandler).state).state.2) }

/-- The function `prettyPrintStatements`: the tokens are parsed as a block item
list, the types are resolved, and the statements are printed; nothing but
an exception of a stage ends the function early. -/
def prettyPrintStatements (T : Transpiler) (tokens : List T.Token) (typeContext : T.TypeContext)
    (env : T.EnvironmentExternalBase) (errorHandler : T.ErrorHandlerBase)
    (forEachSynapseTypeCheckHandler : T.TypeCheckHandler)
    (forEachSynapsePrettyPrintHandler : T.PrettyPrintHandler) :
    Outcome Unit (T.EnvironmentExternalBase × T.ErrorHandlerBase) :=
  match (T.parseBlockItemList tokens typeContext errorHandler).result with
  | .error msg =>
    { result := .error msg
      state := (env, (T.parseBlockItemList tokens typeContext errorHandler).state) }
  | .ok updateStatements =>
    match (T.typeCheckStatements updateStatements env typeContext
        (T.parseBlockItemList tokens typeContext errorHandler).state
        forEachSynapseTypeCheckHandler).result with
    | .error msg =>
      { result := .error msg
        state := (T.typeCheckStatements updateStatements env typeContext
          (T.parseBlockItemList tokens typeContext errorHandler).state
          forEachSynapseTypeCheckHandler).state }
    | .ok resolvedTypes =>
      { result := (T.printStatements updateStatements
          (T.typeCheckStatements updateStatements env typeContext
            (T.parseBlockItemList tokens typeContext errorHandler).state
            forEachSynapseTypeCheckHandler).state.1
          typeContext resolvedTypes forEachSynapsePrettyPrintHandler).result
        state := ((T.printStatements updateStatements
          (T.typeCheckStatements updateStatements env typeContext
            (T.parseBlockItemList tokens typeContext errorHandler).state
            forEachSynapseTypeCheckHandler).state.1
          typeContext resolvedTypes forEachSynapsePrettyPrintHandler).state,
          (T.typeCheckStatements updateStatements env typeContext
            (T.parseBlockItemList tokens typeContext errorHandler).state
            forEachSynapseTypeCheckHandler).state.2) }

/-- The error handler of the unit tests, `TestErrorHandler`: the flag `m_Error`,
which `report` sets; the text `report` writes to `std::cerr` is left out. -/
structure TestErrorHandler where
  m_Error : Bool
deriving DecidableEq

/-- `TestErrorHandler::hasError`. -/
def TestErrorHandler.hasError (h : TestErrorHandler) : Bool := h.m_Error

/-- `TestErrorHandler::report`, which both `error` methods call. -/
def TestErrorHandler.report (_h : TestErrorHandler) : TestErrorHandler := { m_Error := true }

/-- Modelled from the spec: a parser for a fragment of the statement grammar, in
which a statement is one name (word characters only) followed by `;`. A
group of tokens before a `;` that is not one name is a parse error: it is reported and parsing goes
on after the `;` (the next statement boundary). The result is the
statements parsed and whether an error was reported; `current` holds the
tokens read since the last `;`. -/
def exampleParseItems : List String → List String → List String × Bool
  | [], current => ([], !current.isEmpty)
  | t :: rest, current =>
    if t = ";" then
      match current with
      | [name] =>
        if (!name.data.isEmpty && name.data.all isWordChar) = true then
          (name :: (exampleParseItems rest []).1, (exampleParseItems rest []).2)
        else ((exampleParseItems rest []).1, true)
      | _ => ((exampleParseItems rest []).1, true)
    else exampleParseItems rest (current ++ [t])

/-- Modelled from the spec: the parser of the fragment with its error handler;
it reports the errors and returns the statements it parsed. -/
def exampleParse (tokens : List String) (errorHandler : TestErrorHandler) :
    Outcome (List String) TestErrorHandler :=
  { result := .ok (exampleParseItems tokens []).1
    state := if (exampleParseItems tokens []).2 = true then errorHandler.report else errorHandler }

/-- Modelled from the spec: the type checker of the fragment. Every name of a
statement has to be bound in the environment; otherwise the error is
reported and a `TypeCheckError` raised. -/
def exampleTypeCheck (statements : List String) (env : EnvironmentExternal Unit × String)
    (errorHandler : TestErrorHandler) :
    Outcome (List Unit) ((EnvironmentExternal Unit × String) × TestErrorHandler) :=
  if statements.all (fun name => (env.1.environment.lookup name).isSome) = true then
    { result := .ok (statements.map (fun _ => ())), state := (env, errorHandler) }
  else { result := .error "TypeCheckError", state := (env, errorHandler.report) }

/-- Modelled from the spec: the pretty printer of the fragment, which writes
every statement to the stream of the environment, with the name replaced
by the value the environment binds it to. -/
def examplePrint (statements : List String) (env : EnvironmentExternal Unit × String) :
    Outcome Unit (EnvironmentExternal Unit × String) :=
  { result := .ok ()
    state := (env.1, statements.foldl
      (fun os name =>
        match env.1.environment.lookup name with
        | some (_, value) => os ++ value ++ ";\n"
        | none => os)
      env.2) }

/-- Modelled from the spec: the stages of the fragment as a transpiler; an
expression is a block item list here, and the handlers carry nothing. -/
def exampleTranspiler : Transpiler :=
  { Token := String
    TypeContext := Unit
    ErrorHandlerBase := TestErrorHandler
    EnvironmentExternalBase := EnvironmentExternal Unit × String
    Expression := List String
    StatementList := List String
    ResolvedTypeMap := List Unit
    TypeCheckHandler := Unit
    PrettyPrintHandler := Unit
    parseExpression := fun tokens _ errorHandler => exampleParse tokens errorHandler
    parseBlockItemList := fun tokens _ errorHandler => exampleParse tokens errorHandler
    typeCheckExpression := fun expression env _ errorHandler =>
      exampleTypeCheck expression env errorHandler
    typeCheckStatements := fun statements env _ errorHandler _ =>
      exampleTypeCheck statements env errorHandler
    printExpression := fun expression env _ _ => examplePrint expression env
    printStatements := fun statements env _ _ _ => examplePrint statements env
    hasError := TestErrorHandler.hasError }

/-- The tokens of `x; +; y;`, in which the statement `+;` is a parse error. -/
def exampleTokens : List String := ["x", ";", "+", ";", "y", ";"]

/-- An environment that binds `x` and `y`, with an empty stream. -/
def exampleEnv : EnvironmentExternal Unit × String :=
  ({ environment := [("x", (), "lx"), ("y", (), "ly")] }, "")

/-! ## Initialisation RNG: `BackendSIMT::genSynapseVarInit` -/

/-- The calls `genGroup` makes on `groupEnv` before it launches the handler, for
the merged group `index` of the kind `name`: with one member `id` is bound to
`lid`, declared as `id - idStart`, and `_group_start_id` to `idStart`; with
several members `_group_start_id` is bound to `groupStartID`, read from the
start-ID table at `lo - 1`, and `id` to `lid`, declared as
`id - $(_group_start_id)`.  A call `add(type, name, value, initialisers)` is
the `addSubstitution` of `name` by `value` with these initialisers. -/
def genGroupCalls (name : String) (index idStart : Nat) (single : Bool) : List Call :=
  if single = true then
    [Call.addInitialiser ("const unsigned int lid = id - " ++ toString idStart ++ ";"),
     Call.addSubstitution "id" "lid" [0],
     Call.addSubstitution "_group_start_id" (toString idStart) []]
  else
    [Call.addInitialiser ("const unsigned int groupStartID = d_merged" ++ name ++ "GroupStartID"
        ++ toString index ++ "[lo - 1];"),
     Call.addSubstitution "_group_start_id" "groupStartID" [0],
     Call.addInitialiser "const unsigned int lid = id - $(_group_start_id);",
     Call.addSubstitution "id" "lid" [1]]

/-- The variables of the kernel a lane sees inside the block of its merged
group: `id`, the lane's id in the whole kernel, and `lid`, its id within
the member of the merged group it belongs to. -/
structure LaneScope where
  id : Nat
  lid : Nat

/-- The value of a variable of the kernel, by its name in the emitted code. -/
def LaneScope.value (scope : LaneScope) (varName : String) : Option Nat :=
  if varName = "id" then some scope.id
  else if varName = "lid" then some scope.lid
  else none

/-- The scope of lane `id` in the block `genGroup` emits for a merged group:
`lid` is the local id the emitted code resolves. -/
def laneScope {G : Type} (getPaddedSizeFn : G → Nat) (groups : List G) (idStart id fuel : Nat) :
    Option LaneScope :=
  match genGroupResolve getPaddedSizeFn groups idStart id fuel with
  | some (_, lid) => some { id := id, lid := lid }
  | none => none

/-- The `sequence` argument `genSynapseVarInit` passes to `genGlobalRNGSkipAhead`
when `initRNGRequired` holds: the text `id`, written as it is (it is not
printed through the environment, which would replace `$(id)`). -/
def genSynapseVarInitSequence (initRNGRequired : Bool) : Option String :=
  if initRNGRequired = true then some "id" else none

/-- Modelled from the spec: `genGlobalRNGSkipAhead` is a virtual of the backend
without a body here; it emits the code that copies the global RNG and skips
the copy ahead to the sub-stream given by the expression `sequence`, which
the lane evaluates in its scope.  The result is the number of the
sub-stream the lane draws from. -/
def genGlobalRNGSkipAhead (scope : LaneScope) (sequence : String) : Option Nat :=
  scope.value sequence

/-- The sub-stream lane `id` draws its initial values from, in the block of the
merged group `groups` that starts at `idStart`. -/
def initRNGSubStream {G : Type} (getPaddedSizeFn : G → Nat) (groups : List G)
    (idStart id fuel : Nat) : Option Nat :=
  match laneScope getPaddedSizeFn groups idStart id fuel,
      genSynapseVarInitSequence true with
  | some scope, some sequence => genGlobalRNGSkipAhead scope sequence
  | _, _ => none

/-! ## Variable access: `varAccess.h` -/

/-- The enumeration `VarAccessMode`, by its `unsigned int` values: the
combinations of the `VarAccessModeAttribute` flags `READ_ONLY = 1 << 0`,
`READ_WRITE = 1 << 1`, `REDUCE = 1 << 2`, `SUM = 1 << 3`, `MAX = 1 << 4`. -/
inductive VarAccessMode
  | READ_WRITE
  | READ_ONLY
  | REDUCE_SUM
  | REDUCE_MAX
  deriving DecidableEq

/-- The `unsigned int` value of a `VarAccessMode`. -/
def VarAccessMode.toUInt : VarAccessMode → Nat
  | READ_WRITE => 1 <<< 1
  | READ_ONLY => 1 <<< 0
  | REDUCE_SUM => (1 <<< 2) ||| (1 <<< 3)
  | REDUCE_MAX => (1 <<< 2) ||| (1 <<< 4)

/-- The enumeration `VarAccessDim`: a set of the flags `ELEMENT = 1 << 5` and
`BATCH = 1 << 6`, kept as its `unsigned int` value. -/
abbrev VarAccessDim := Nat

/-- The flag `VarAccessDim::ELEMENT`. -/
def VarAccessDim.ELEMENT : VarAccessDim := 1 <<< 5

/-- The flag `VarAccessDim::BATCH`. -/
def VarAccessDim.BATCH : VarAccessDim := 1 <<< 6

/-- The enumeration `CustomUpdateVarAccess`. -/
inductive CustomUpdateVarAccess
  | READ_WRITE
  | READ_ONLY
  | READ_ONLY_SHARED
  | READ_ONLY_SHARED_NEURON
  | REDUCE_BATCH_SUM
  | REDUCE_BATCH_MAX
  | REDUCE_NEURON_SUM
  | REDUCE_NEURON_MAX
  deriving DecidableEq

/-- The `unsigned int` value of a `CustomUpdateVarAccess`: its access mode with
the dimensions to remove. -/
def CustomUpdateVarAccess.toUInt : CustomUpdateVarAccess → Nat
  | READ_WRITE => VarAccessMode.READ_WRITE.toUInt
  | READ_ONLY => VarAccessMode.READ_ONLY.toUInt
  | READ_ONLY_SHARED => VarAccessMode.READ_ONLY.toUInt ||| VarAccessDim.BATCH
  | READ_ONLY_SHARED_NEURON => VarAccessMode.READ_ONLY.toUInt ||| VarAccessDim.ELEMENT
  | REDUCE_BATCH_SUM => VarAccessMode.REDUCE_SUM.toUInt ||| VarAccessDim.BATCH
  | REDUCE_BATCH_MAX => VarAccessMode.REDUCE_MAX.toUInt ||| VarAccessDim.BATCH
  | REDUCE_NEURON_SUM => VarAccessMode.REDUCE_SUM.toUInt ||| VarAccessDim.ELEMENT
  | REDUCE_NEURON_MAX => VarAccessMode.REDUCE_MAX.toUInt ||| VarAccessDim.ELEMENT

/-- The complement `~x` of an `unsigned int`. -/
def notU32 (x : Nat) : Nat := (uintSize - 1) - x % uintSize

/-- The constant `~0x1F` converted to `unsigned int` for `&`: the `int` value
`-32`, that is `2 ^ 32 - 32`. -/
def dimMask : Nat := notU32 0x1F

/-- The function `clearVarAccessDim`: `a & ~b`. -/
def clearVarAccessDim (a b : VarAccessDim) : VarAccessDim := a &&& notU32 b

/-- The function `getVarAccessDim(CustomUpdateVarAccess, VarAccessDim)`: the
dimensions of the population without those named in `v`. -/
def getVarAccessDim (v : CustomUpdateVarAccess) (popDims : VarAccessDim) : VarAccessDim :=
  clearVarAccessDim popDims (v.toUInt &&& dimMask)

/-- The function `getVarAccessMode(CustomUpdateVarAccess)`, as the
`unsigned int` value of the `VarAccessMode` it casts to: `v & 0x1F`. -/
def getVarAccessMode (v : CustomUpdateVarAccess) : Nat := v.toUInt &&& 0x1F

/-- The access mode a `CustomUpdateVarAccess` is named after. -/
def CustomUpdateVarAccess.namedMode : CustomUpdateVarAccess → VarAccessMode
  | READ_WRITE => VarAccessMode.READ_WRITE
  | READ_ONLY => VarAccessMode.READ_ONLY
  | READ_ONLY_SHARED => VarAccessMode.READ_ONLY
  | READ_ONLY_SHARED_NEURON => VarAccessMode.READ_ONLY
  | REDUCE_BATCH_SUM => VarAccessMode.REDUCE_SUM
  | REDUCE_BATCH_MAX => VarAccessMode.REDUCE_MAX
  | REDUCE_NEURON_SUM => VarAccessMode.REDUCE_SUM
  | REDUCE_NEURON_MAX => VarAccessMode.REDUCE_MAX

/-- The dimension flags set in a `CustomUpdateVarAccess`, as its name says. -/
def CustomUpdateVarAccess.namedDims : CustomUpdateVarAccess → List VarAccessDim
  | READ_WRITE => []
  | READ_ONLY => []
  | READ_ONLY_SHARED => [VarAccessDim.BATCH]
  | READ_ONLY_SHARED_NEURON => [VarAccessDim.ELEMENT]
  | REDUCE_BATCH_SUM => [VarAccessDim.BATCH]
  | REDUCE_BATCH_MAX => [VarAccessDim.BATCH]
  | REDUCE_NEURON_SUM => [VarAccessDim.ELEMENT]
  | REDUCE_NEURON_MAX => [VarAccessDim.ELEMENT]

/-- The population dimension sets: every combination of `ELEMENT` and `BATCH`. -/
def popDimSets : List VarAccessDim :=
  [0, VarAccessDim.ELEMENT, VarAccessDim.BATCH, VarAccessDim.ELEMENT ||| VarAccessDim.BATCH]

/-- All values of `CustomUpdateVarAccess`. -/
def CustomUpdateVarAccess.all : List CustomUpdateVarAccess :=
  [READ_WRITE, READ_ONLY, READ_ONLY_SHARED, READ_ONLY_SHARED_NEURON,
   REDUCE_BATCH_SUM, REDUCE_BATCH_MAX, REDUCE_NEURON_SUM, REDUCE_NEURON_MAX]

/-! ## Fields and function types of `CustomConnectivityUpdateGroupMerged` -/

/-- What the field callbacks read of a member group's synapse group: the
numbers of neurons of its source and of its target population
(`getSrcNeuronGroup()->getNumNeurons()`, `getTrgNeuronGroup()->getNumNeurons()`). -/
structure SynapseGroupInternal where
  srcNumNeurons : Nat
  trgNumNeurons : Nat

/-- The fields the constructor of `CustomConnectivityUpdateGroupMergedBase`
registers with `addField`, each with the number its callback passes to
`std::to_string` for a member group. -/
def constructorFields (sg : SynapseGroupInternal) : List (String × Nat) :=
  [("numSrcNeurons", sg.srcNumNeurons), ("numTrgNeurons", sg.trgNumNeurons)]

/-- The identifiers `generateUpdate` binds with `updateEnv.addField`: the name in
the environment, the name of the field, and the number the callback passes
to `std::to_string` for a member group.  Both callbacks read
`getSrcNeuronGroup()`. -/
def generateUpdateFields (sg : SynapseGroupInternal) : List (String × String × Nat) :=
  [("num_pre", "numSrcNeurons", sg.srcNumNeurons),
   ("num_post", "numTrgNeurons", sg.srcNumNeurons)]

/-- The parameter types `generateUpdate` collects in `addSynapseTypes` for the
function type of `add_synapse`: `Uint32` first, then one `push_back` in each
round of the loops over the model variables, the variable references and the
dependent variables. -/
def addSynapseTypes {τ : Type} (Uint32 : τ) (ccuVars ccuVarRefs dependentVars : List τ) :
    List τ :=
  [Uint32] ++ ccuVars ++ ccuVarRefs ++ dependentVars

/-- The positional arguments `$(k)` the text emitted for `add_synapse` holds, in
the order of emission: `$(0)`, `$(1 + i)` for the `i`-th model variable and
`$(1 + ccuVars.size() + i)` for the `i`-th variable reference; the loop over
the dependent variables writes `0`. -/
def addSynapseArguments (cfg : UpdateModel) : List Nat :=
  [0] ++ (List.range cfg.numVars).map (fun i => 1 + i)
    ++ (List.range cfg.numVarRefs).map (fun i => 1 + cfg.numVars + i)

/-! ## The `for_each_synapse` handler of `generateUpdate` -/

/-- The lines `generateUpdate` writes to the stream of `remove_synapse`, in
order (the braces of the scopes left out): `lastIdx`, then the copies from
`[lastIdx]` to `[idx]` in `$(_ind)`, in the model variables `ccuVars`, in the
variable references `ccuVarRefs` (with `isDuplicated()`) and in the dependent
variables, inside a loop over the batches when the model is batched and the
array is duplicated, then the decrements.  `idx` is written as it is. -/
def removeSynapseLines (batchSize : Nat) (ccuVars : List String)
    (ccuVarRefs : List (String × Bool)) (dependentVars : List Bool) : List String :=
  ["const unsigned lastIdx = $(_row_start_idx) + $(_row_length)[$(id_pre)] - 1;",
   "$(_ind)[idx] = $(_ind)[lastIdx];"]
  ++ ccuVars.map (fun v => "group->" ++ v ++ "[idx] = group->" ++ v ++ "[lastIdx];")
  ++ ccuVarRefs.flatMap (fun v =>
      if batchSize > 1 ∧ v.2 = true then
        ["for(int b = 0; b < " ++ toString batchSize ++ "; b++)",
         "group->" ++ v.1 ++ "[(b * $(_syn_stride)) + idx] = "
           ++ "group->" ++ v.1 ++ "[(b * $(_syn_stride)) + lastIdx];"]
      else ["group->" ++ v.1 ++ "[idx] = group->" ++ v.1 ++ "[lastIdx];"])
  ++ dependentVars.enum.flatMap (fun d =>
      if batchSize > 1 ∧ d.2 = true then
        ["for(int b = 0; b < " ++ toString batchSize ++ "; b++)",
         "group->_dependentVar" ++ toString d.1 ++ "[(b * $(_syn_stride)) + idx] = "
           ++ "group->_dependentVar" ++ toString d.1 ++ "[(b * $(_syn_stride)) + lastIdx];"]
      else ["group->_dependentVar" ++ toString d.1 ++ "[idx] = group->_dependentVar"
              ++ toString d.1 ++ "[lastIdx];"])
  ++ ["$(_row_length)[$(id_pre)]--;", "j--;"]

/-- The calls the `for_each_synapse` handler makes on `bodyEnv`, an environment
with lazy initialisers: `id_post` is bound to the text `idPost` printed for
`$(_ind)[$(_row_start_idx) + j]`; the initialiser of `idx` is registered and
`id_syn` bound to `idx` with it; the per-synapse variables and variable
references `synVars` (`addVars`, `addVarRefs`) are indexed by the lazy
`id_syn`, so a reference to one of them resolves `id_syn`: each is a
substitution that relies on the initialiser of `idx`; then `generateBody`
prints the statements of the loop body and looks up the names `body` they
reference, in order.  A call `add(type, name, value, initialisers)` is the
`addSubstitution` of `name` by `value` with these initialisers. -/
def forEachSynapseCalls (idPost : String) (synVars : List (String × String))
    (body : List String) : List Call :=
  [Call.addSubstitution "id_post" idPost [],
   Call.addInitialiser "const unsigned int idx = $(_row_start_idx) + j;",
   Call.addSubstitution "id_syn" "idx" [0]]
  ++ synVars.map (fun v => Call.addSubstitution v.1 v.2 [0])
  ++ body.map Call.getName

/-- The format of the loop header the `for_each_synapse` handler prints. -/
def forEachSynapseHeader : String := "for(int j = 0; j < $(_row_length)[$(id_pre)]; j++)"

/-- Text written to the stream of the innermost environment of a chain, an
`EnvironmentSubstitute` (`bodyEnv.getStream() << text`): it goes to the
buffer of that environment. -/
def writeStream {τ : Type} (chain : List (Environment τ)) (text : String) :
    List (Environment τ) :=
  match chain with
  | Environment.substitute s :: context => Environment.substitute (s.write text) :: context
  | chain => chain

/-- A sequence of calls in a function that does not catch: the first call that
throws ends it, with the state that call has reached. -/
def runCallsChecked {τ : Type} :
    List (Environment τ) → List Call → Outcome Unit (List (Environment τ))
  | chain, [] => { result := .ok (), state := chain }
  | chain, c :: cs =>
    match (runCall chain c).1 with
    | Reply.thrown msg => { result := .error msg, state := (runCall chain c).2 }
    | _ => runCallsChecked (runCall chain c).2 cs

/-- The `for_each_synapse` handler of `generateUpdate`, up to the point where
`bodyEnv` goes out of scope; the state is the chain of environments with
`bodyEnv` innermost.  `bodyEnv` is constructed on `env`; the loop header
printed by `printSubs` is written to the stream of `bodyEnv`, and so is the
opening of the `CodeStream::Scope`; then come the calls of
`forEachSynapseCalls` on `bodyEnv`, of which the last are the lookups of
`generateBody`; the text `bodyText` that `generateBody` prints for the
statements of the loop body goes to the stream of `bodyEnv` as well, and the
scope is closed on that stream.  `scopeOpen` and `scopeClose` are the texts
a `CodeStream::Scope` writes when it is constructed and when it is
destroyed.  An exception leaves the handler. -/
def forEachSynapseHandler {τ : Type} (scopeOpen scopeClose idPost : String)
    (synVars : List (String × String)) (body : List String) (bodyText : String)
    (env : List (Environment τ)) : Outcome Unit (List (Environment τ)) :=
  match (printSubs forEachSynapseHeader
      (Environment.substitute EnvironmentSubstitute.new :: env)).result with
  | .error msg =>
    { result := .error msg
      state := (printSubs forEachSynapseHeader
        (Environment.substitute EnvironmentSubstitute.new :: env)).state }
  | .ok header =>
    match (runCallsChecked
        (writeStream (writeStream (printSubs forEachSynapseHeader
          (Environment.substitute EnvironmentSubstitute.new :: env)).state header) scopeOpen)
        (forEachSynapseCalls idPost synVars body)).result with
    | .error msg =>
      { result := .error msg
        state := (runCallsChecked
          (writeStream (writeStream (printSubs forEachSynapseHeader
            (Environment.substitute EnvironmentSubstitute.new :: env)).state header) scopeOpen)
          (forEachSynapseCalls idPost synVars body)).state }
    | .ok _ =>
      { result := .ok ()
        state := writeStream (writeStream (runCallsChecked
          (writeStream (writeStream (printSubs forEachSynapseHeader
            (Environment.substitute EnvironmentSubstitute.new :: env)).state header) scopeOpen)
          (forEachSynapseCalls idPost synVars body)).state bodyText) scopeClose }

/-- An `updateEnv` in which `remove_synapse` is bound to the lines emitted for a
model without variables, and `_row_start_idx` to `rowStartIdx` with its
initialiser. -/
def exampleUpdateEnv : EnvironmentSubstitute :=
  { varSubstitutions :=
      [("_row_start_idx", "rowStartIdx", [0]),
       ("remove_synapse", concatText ((removeSynapseLines 1 [] [] []).map (fun l => l ++ "\n")),
         [])]
    initialisers := [(false, "const unsigned int rowStartIdx = $(id_pre) * $(_row_stride);")]
    contentsStream := "" }

/-- An `updateEnv` as `exampleUpdateEnv`, for a model with the per-synapse
variable `g`. -/
def exampleVarUpdateEnv : EnvironmentSubstitute :=
  { varSubstitutions :=
      [("_row_start_idx", "rowStartIdx", [0]),
       ("remove_synapse",
         concatText ((removeSynapseLines 1 ["g"] [] []).map (fun l => l ++ "\n")), [])]
    initialisers := [(false, "const unsigned int rowStartIdx = $(id_pre) * $(_row_stride);")]
    contentsStream := "" }

/-- The environment of a kernel that binds `id_pre` and the fields `_row_length`
and `_ind`. -/
def exampleGroupEnv : EnvironmentExternal Unit :=
  { environment := [("id_pre", (), "id"), ("_row_length", (), "group->rowLength"),
      ("_ind", (), "group->ind")] }

/-- The statements printed for the loop body `if(g < 0.0f) remove_synapse();` of a
model with the per-synapse variable `g`, the names replaced by their
texts. -/
def exampleLoopBody : String :=
  "if(group->g[idx] < 0.0f)\n\x7b\n"
    ++ "const unsigned lastIdx = rowStartIdx + group->rowLength[id] - 1;\n"
    ++ "group->ind[idx] = group->ind[lastIdx];\n"
    ++ "group->g[idx] = group->g[lastIdx];\n"
    ++ "group->rowLength[id]--;\nj--;\n\x7d\n"

/-! ## Type checking of explicit casts -/

/-- The types of the type checker the cast rule tells apart: a numeric type, by
its name, and a pointer to a type. -/
inductive BaseType
  | numeric (name : String)
  | pointer (valueType : BaseType)
  deriving DecidableEq

/-- A `Type::QualifiedType`, as the unit tests read it: the type, `constValue`
(for a pointer: it points to `const`) and `constPointer`. -/
structure QualifiedType where
  type : BaseType
  constValue : Bool
  constPointer : Bool
  deriving DecidableEq

/-- Modelled from the spec: the rule of the type checker for an explicit cast
(`typeChecker.cc` is not among the sources; its unit test `TEST(TypeChecker, Cast)`
is).  `const` cannot be cast away, neither from the value nor from the
pointer; a numeric type casts to every numeric type; a pointer casts to a
pointer to the same type only; a pointer and a numeric type do not cast to
each other.  A cast that is allowed has the type written in the cast;
every other one raises `TypeCheckError`. -/
def typeCheckCast (target operand : QualifiedType) : Except String QualifiedType :=
  if (operand.constValue = true ∧ target.constValue = false)
      ∨ (operand.constPointer = true ∧ target.constPointer = false) then
    .error "TypeCheckError"
  else
    match target.type, operand.type with
    | BaseType.numeric _, BaseType.numeric _ => .ok target
    | BaseType.pointer a, BaseType.pointer b =>
      if a = b then .ok target else .error "TypeCheckError"
    | _, _ => .error "TypeCheckError"

/-- Whether a type is numeric. -/
def BaseType.isNumeric : BaseType → Bool
  | BaseType.numeric _ => true
  | BaseType.pointer _ => false

/-- The type `int` of the unit tests (`Type::Int32`). -/
def BaseType.int32 : BaseType := BaseType.numeric "int"

/-- The type `float` of the unit tests (`Type::Float`). -/
def BaseType.float : BaseType := BaseType.numeric "float"

/-! ## Kernel indices: `BackendSIMT::genSynapseVarInit` -/

/-- The divisor emitted in the initialiser of `kernelID<i>`: the kernel sizes
from the last dimension down to dimension `i + 1`, multiplied from the left
in `unsigned int`.  (No divisor is emitted for the last dimension.) -/
def kernelDivisor (sizes : List Nat) (i : Nat) : Nat :=
  match (sizes.drop (i + 1)).reverse with
  | [] => 1
  | n :: rest => rest.foldl mulU32 n

/-- The initialiser emitted for `kernelID<i>`:
`($(id) / (n_(D-1) * ... * n_(i+1))) % n_i`, without the division for the last
dimension and without the modulus for the first one. -/
def kernelID (sizes : List Nat) (i id : Nat) : Nat :=
  let quotient := if i < sizes.length - 1 then id / kernelDivisor sizes i else id
  if i > 0 then quotient % sizes.getD i 0 else quotient

/-- The kernel indices of a lane, dimension by dimension. -/
def kernelIndices (sizes : List Nat) (id : Nat) : List Nat :=
  (List.range sizes.length).map (fun i => kernelID sizes i id)

/-- The product `n_(i+1) * ... * n_(D-1)` of the sizes of the dimensions after
dimension `i`, as a number. -/
def kernelStride (sizes : List Nat) (i : Nat) : Nat := (sizes.drop (i + 1)).prod

/-- The digits of `id` in the mixed radix system of the kernel sizes. -/
def kernelDigits : List Nat → Nat → List Nat
  | [], _ => []
  | n :: ns, id => (id / ns.prod) % n :: kernelDigits ns id

/-- The id whose digits in the mixed radix system of the kernel sizes are the
index tuple `t`. -/
def kernelEncode : List Nat → List Nat → Nat
  | _ :: ns, x :: xs => x * ns.prod + kernelEncode ns xs
  | _, _ => 0

/-! ## Sparse initialisation: `BackendSIMT::genSparseSynapseVarInit` -/

/-- The emitted `const unsigned int numBlocks = ($(num_pre) + B - 1) / B;`, with
`B` the block size of the kernel. -/
def numBlocks (numPre blockSize : Nat) : Nat :=
  subU32 (addU32 numPre blockSize) 1 / blockSize

/-- The emitted `numRowsInBlock`:
`(r == (numBlocks - 1)) ? ((num_pre - 1) % B) + 1 : B`. -/
def numRowsInBlock (numPre blockSize r : Nat) : Nat :=
  if r = subU32 (numBlocks numPre blockSize) 1 then
    addU32 (subU32 numPre 1 % blockSize) 1
  else blockSize

/-- The index `(r * B) + i` of a row, which the emitted code uses for the read
of `$(_row_length)` while staging (with the thread id for `i`) and for
`id_pre`. -/
def sparseRow (blockSize r i : Nat) : Nat := addU32 (mulU32 r blockSize) i

/-- The emitted loop `for(unsigned int i = 0; i < numRowsInBlock; i++)` of block
`r`: every round visits the row `(r * B) + i` with the current `idx` and ends
with `idx += $(_row_stride);`.  The state is the rows visited so far, each
with the value of `idx` at the visit, and `idx`. -/
def sparseRowLoop (blockSize rowStride r rows : Nat) (state : List (Nat × Nat) × Nat) :
    List (Nat × Nat) × Nat :=
  (List.range rows).foldl
    (fun st i => (st.1 ++ [(sparseRow blockSize r i, st.2)], addU32 st.2 rowStride)) state

/-- The loops emitted by `genSparseSynapseVarInit`, run by the lane `id`:
`unsigned int idx = $(id);`, then `for(unsigned int r = 0; r < numBlocks; r++)`
around the loop over the rows of the block. -/
def genSparseSynapseVarInit (numPre blockSize rowStride id : Nat) : List (Nat × Nat) × Nat :=
  (List.range (numBlocks numPre blockSize)).foldl
    (fun st r => sparseRowLoop blockSize rowStride r (numRowsInBlock numPre blockSize r) st)
    ([], id)

/-! ## A small instance -/

/-- A model with batch size 2, one model variable, two variable references of
which the first is duplicated, and one duplicated dependent variable. -/
def exampleModel : UpdateModel :=
  { batchSize := 2, numVars := 1, numVarRefs := 2, numDependentVars := 1
    varRefDuplicated := fun i => decide (i = 0)
    dependentVarDuplicated := fun _ => true }

/-- The lane of source index 1 among 3, with rows of stride 4. -/
def exampleLane : Lane := { numPre := 3, rowStride := 4, idPre := 1 }

/-- A state in which the row of source index 1 holds two synapses. -/
def exampleState : GroupState Nat :=
  { rowLength := fun q => if q = 1 then 2 else 0
    mem := fun f k =>
      match f with
      | Field.ind => 100 + k
      | Field.var i => 200 + 10 * i + k
      | Field.varRef i => 300 + 20 * i + k
      | Field.dependentVar _ => 400 + k }

/-- A state in which the row of source index 1 is full. -/
def exampleFullState : GroupState Nat :=
  { rowLength := fun q => if q = 1 then 4 else 0
    mem := fun _ k => k }

/-- The arguments `$(k)` of a call of `add_synapse`. -/
def exampleArgs : Nat → Nat := fun k => 1000 + k

/-! # Theorems -/

/-! ## Machine arithmetic -/

theorem addU32_eq (a b : Nat) (h : a + b < 2 ^ 32) : addU32 a b = a + b := by
  unfold addU32 uintSize
  exact Nat.mod_eq_of_lt h

theorem mulU32_eq (a b : Nat) (h : a * b < 2 ^ 32) : mulU32 a b = a * b := by
  unfold mulU32 uintSize
  exact Nat.mod_eq_of_lt h

theorem subU32_eq (a b : Nat) (ha : a < 2 ^ 32) (hb : b ≤ a) : subU32 a b = a - b := by
  unfold subU32 uintSize
  rw [Nat.mod_eq_of_lt ha, Nat.mod_eq_of_lt (lt_of_le_of_lt hb ha)]
  omega

theorem addSizeT_eq (a b : Nat) (h : a + b < 2 ^ 64) : addSizeT a b = a + b := by
  unfold addSizeT sizeTSize
  exact Nat.mod_eq_of_lt h

theorem subSizeT_eq (a b : Nat) (ha : a < 2 ^ 64) (hb : b ≤ a) : subSizeT a b = a - b := by
  unfold subSizeT sizeTSize
  rw [Nat.mod_eq_of_lt ha, Nat.mod_eq_of_lt (lt_of_le_of_lt hb ha)]
  omega

/-! ## Lane dispatch -/

section DispatchProofs

variable {G : Type}

theorem summedPaddedSize_cons (pad : G → Nat) (g : G) (gs : List G) :
    summedPaddedSize pad (g :: gs) = pad g + summedPaddedSize pad gs := by
  simp [summedPaddedSize]

theorem summedPaddedSize_nil (pad : G → Nat) : summedPaddedSize pad [] = 0 := rfl

theorem summedPaddedSize_take_le (pad : G → Nat) (gs : List G) (i j : Nat) (h : i ≤ j) :
    summedPaddedSize pad (gs.take i) ≤ summedPaddedSize pad (gs.take j) := by
  induction gs generalizing i j with
  | nil => simp
  | cons g gs ih =>
    cases i with
    | zero => simp [summedPaddedSize_nil]
    | succ i =>
      cases j with
      | zero => omega
      | succ j =>
        simp only [List.take_succ_cons, summedPaddedSize_cons]
        have := ih i j (by omega)
        omega

theorem summedPaddedSize_take_succ (pad : G → Nat) (gs : List G) (k : Nat) (hk : k < gs.length) :
    summedPaddedSize pad (gs.take (k + 1)) =
      summedPaddedSize pad (gs.take k) + pad (gs.get ⟨k, hk⟩) := by
  induction gs generalizing k with
  | nil => simp at hk
  | cons g gs ih =>
    cases k with
    | zero => simp [summedPaddedSize]
    | succ k =>
      simp only [List.take_succ_cons, summedPaddedSize_cons]
      have := ih k (by simpa using hk)
      simp only [List.get_eq_getElem, List.getElem_cons_succ] at this ⊢
      omega

theorem paddedSize_foldl_eq (pad : G → Nat) (gs : List G) (a : Nat)
    (h : a + summedPaddedSize pad gs < 2 ^ 64) :
    gs.foldl (fun acc g => addSizeT acc (pad g)) a = a + summedPaddedSize pad gs := by
  induction gs generalizing a with
  | nil => simp [summedPaddedSize]
  | cons g gs ih =>
    rw [summedPaddedSize_cons] at h
    rw [List.foldl_cons, addSizeT_eq _ _ (by omega), ih _ (by omega), summedPaddedSize_cons]
    omega

theorem paddedSize_eq (pad : G → Nat) (gs : List G) (h : summedPaddedSize pad gs < 2 ^ 64) :
    paddedSize pad gs = summedPaddedSize pad gs := by
  unfold paddedSize
  rw [paddedSize_foldl_eq pad gs 0 (by omega)]
  omega

theorem startIDTable_length (pad : G → Nat) (gs : List G) (a : Nat) :
    (startIDTable pad a gs).length = gs.length := by
  induction gs generalizing a with
  | nil => rfl
  | cons g gs ih => simp [startIDTable, ih]

theorem startIDTable_getElem? (pad : G → Nat) (gs : List G) (a k : Nat) (hk : k < gs.length) :
    (startIDTable pad a gs)[k]? = some (a + summedPaddedSize pad (gs.take k)) := by
  induction gs generalizing a k with
  | nil => simp at hk
  | cons g gs ih =>
    cases k with
    | zero => simp [startIDTable, summedPaddedSize]
    | succ k =>
      simp only [startIDTable, List.getElem?_cons_succ, List.take_succ_cons,
        summedPaddedSize_cons]
      rw [ih _ k (by simpa using hk)]
      congr 1
      omega

theorem bisect_spec (t : List Nat) (T : Nat → Nat) (id : Nat)
    (hT : ∀ k, k < t.length → t[k]? = some (T k))
    (hmono : ∀ i j, i ≤ j → j < t.length → T i ≤ T j)
    (hn : t.length < 2 ^ 31) :
    ∀ fuel lo hi, lo ≤ hi → hi ≤ t.length → hi - lo ≤ fuel →
      (∀ k, k < lo → T k ≤ id) → (∀ k, hi ≤ k → k < t.length → id < T k) →
      ∃ r, bisect t id fuel lo hi = some r ∧ r ≤ t.length ∧
        (∀ k, k < r → T k ≤ id) ∧ (∀ k, r ≤ k → k < t.length → id < T k) := by
  intro fuel
  induction fuel with
  | zero =>
    intro lo hi hle hhi hfuel hlow hhigh
    have : lo = hi := by omega
    subst this
    refine ⟨lo, ?_, hhi, hlow, hhigh⟩
    simp [bisect]
  | succ fuel ih =>
    intro lo hi hle hhi hfuel hlow hhigh
    by_cases hlt : lo < hi
    · have hsum : addU32 lo hi = lo + hi := addU32_eq _ _ (by omega)
      have hmid1 : lo ≤ (lo + hi) / 2 := by omega
      have hmid2 : (lo + hi) / 2 < hi := by omega
      have hmidn : (lo + hi) / 2 < t.length := by omega
      have hsucc : addU32 ((lo + hi) / 2) 1 = (lo + hi) / 2 + 1 := addU32_eq _ _ (by omega)
      rw [bisect]
      simp only [hlt, if_true, hsum, hT _ hmidn, hsucc]
      by_cases hcmp : id < T ((lo + hi) / 2)
      · simp only [hcmp, if_true]
        apply ih lo ((lo + hi) / 2) hmid1 (by omega) (by omega) hlow
        intro k hk1 hk2
        exact lt_of_lt_of_le hcmp (hmono _ _ hk1 hk2)
      · simp only [hcmp, if_false]
        apply ih ((lo + hi) / 2 + 1) hi (by omega) hhi (by omega) _ hhigh
        intro k hk
        exact le_trans (hmono _ _ (by omega) hmidn) (by omega)
    · have : lo = hi := by omega
      subst this
      refine ⟨lo, ?_, hhi, hlow, hhigh⟩
      rw [bisect]
      simp

theorem linearScanFrom_spec (pad : G → Nat) (id : Nat) (gs : List G) :
    ∀ (a k0 m : Nat), m < gs.length →
      a + summedPaddedSize pad (gs.take m) ≤ id →
      id < a + summedPaddedSize pad (gs.take (m + 1)) →
      linearScanFrom pad id k0 ((startIDTable pad a gs).zip gs) =
        some (k0 + m, id - (a + summedPaddedSize pad (gs.take m))) := by
  induction gs with
  | nil => intro a k0 m hm; simp at hm
  | cons g gs ih =>
    intro a k0 m hm hlo hhi
    cases m with
    | zero =>
      simp only [List.take_zero, summedPaddedSize_nil, List.take_succ_cons,
        summedPaddedSize_cons, Nat.add_zero] at hlo hhi ⊢
      rw [show (startIDTable pad a (g :: gs)).zip (g :: gs)
          = (a, g) :: (startIDTable pad (a + pad g) gs).zip gs from rfl]
      simp only [linearScanFrom]
      rw [if_pos ⟨hlo, by omega⟩]
    | succ m =>
      simp only [List.take_succ_cons, summedPaddedSize_cons] at hlo hhi ⊢
      rw [show (startIDTable pad a (g :: gs)).zip (g :: gs)
          = (a, g) :: (startIDTable pad (a + pad g) gs).zip gs from rfl]
      simp only [linearScanFrom]
      rw [if_neg (by omega)]
      rw [ih (a + pad g) (k0 + 1) m (by simpa using hm) (by omega) (by omega)]
      congr 2
      · omega
      · omega

theorem genGroupGuard_iff (idStart padded id : Nat) (h : idStart + padded < 2 ^ 64) :
    genGroupGuard idStart padded id = true ↔ idStart ≤ id ∧ id < idStart + padded := by
  unfold genGroupGuard
  by_cases h0 : idStart = 0
  · subst h0
    simp
  · rw [if_neg h0, addSizeT_eq _ _ h]
    simp

/-- C1: for a merged group with `N ≥ 1` members of sizes `s_1..s_N`, a block
size `B > 0` and a lane id in `[idStart, idStart + Σ pad(s_i, B))`, the code
emitted by `genGroup` (direct path for `N = 1`, bisect loop over the start-ID
table otherwise) resolves the same (member, local id) pair as the linear
reference scan, which finds one.  The kernel's `unsigned int` variables are
32 bit wide (`id < 2 ^ 32`, `N < 2 ^ 31`), the host sum fits a `size_t`, and
the bisect loop needs at most `N` rounds. -/
theorem genGroup_resolve_eq_linearScan (sizes : List Nat) (B idStart id fuel : Nat)
    (hN : 1 ≤ sizes.length) (hB : 0 < B) (hN31 : sizes.length < 2 ^ 31)
    (hfit : idStart + summedPaddedSize (fun s => padSize s B) sizes < 2 ^ 64)
    (hid : id < 2 ^ 32) (hlo : idStart ≤ id)
    (hhi : id < idStart + summedPaddedSize (fun s => padSize s B) sizes)
    (hfuel : sizes.length ≤ fuel) :
    genGroupResolve (fun s => padSize s B) sizes idStart id fuel
        = linearScan (fun s => padSize s B) sizes idStart id
      ∧ (linearScan (fun s => padSize s B) sizes idStart id).isSome = true := by
  have _hB := hB
  set pad : Nat → Nat := fun s => padSize s B with hpad
  set T : Nat → Nat := fun k => idStart + summedPaddedSize pad (sizes.take k) with hTdef
  have hlen := startIDTable_length pad sizes idStart
  have hT : ∀ k, k < (startIDTable pad idStart sizes).length →
      (startIDTable pad idStart sizes)[k]? = some (T k) := by
    intro k hk
    exact startIDTable_getElem? pad sizes idStart k (by omega)
  have hmono : ∀ i j, i ≤ j → j < (startIDTable pad idStart sizes).length → T i ≤ T j := by
    intro i j hij _
    have := summedPaddedSize_take_le pad sizes i j hij
    simp only [hTdef]
    omega
  have hguard : genGroupGuard idStart (paddedSize pad sizes) id = true := by
    rw [paddedSize_eq pad sizes (by omega)]
    exact (genGroupGuard_iff _ _ _ hfit).2 ⟨hlo, hhi⟩
  -- the member found by the bisect loop
  obtain ⟨r, hr, hrle, hbelow, habove⟩ :=
    bisect_spec (startIDTable pad idStart sizes) T id hT hmono (by omega) fuel 0 sizes.length
      (by omega) (by omega) (by omega) (by intro k hk; omega) (by intro k hk1 hk2; omega)
  have hr1 : 1 ≤ r := by
    by_contra hr0
    have h0 : r = 0 := by omega
    have := habove 0 (by omega) (by omega)
    simp [hTdef, summedPaddedSize_nil] at this
    omega
  have hTm : T (r - 1) ≤ id := hbelow (r - 1) (by omega)
  have hnext : id < idStart + summedPaddedSize pad (sizes.take (r - 1 + 1)) := by
    by_cases hrn : r < sizes.length
    · have := habove r le_rfl (by omega)
      have e : r - 1 + 1 = r := by omega
      rw [e]
      exact this
    · have e : r - 1 + 1 = sizes.length := by omega
      rw [e, List.take_length]
      exact hhi
  have hscan := linearScanFrom_spec pad id sizes idStart 0 (r - 1) (by omega) hTm hnext
  have hlin : linearScan pad sizes idStart id = some (r - 1, id - T (r - 1)) := by
    unfold linearScan
    rw [hscan]
    simp
  refine ⟨?_, by rw [hlin]; rfl⟩
  rw [hlin]
  unfold genGroupResolve
  rw [hguard, if_pos rfl]
  unfold genGroupBody
  by_cases h1 : sizes.length = 1
  · rw [if_pos h1]
    have hr' : r = 1 := by omega
    subst hr'
    have hT0 : T (1 - 1) = idStart := by simp [hTdef, summedPaddedSize_nil]
    rw [hT0, subU32_eq _ _ hid hlo]
  · rw [if_neg h1]
    have hmod : sizes.length % uintSize = sizes.length := by
      unfold uintSize
      exact Nat.mod_eq_of_lt (by omega)
    have hsub : subU32 r 1 = r - 1 := subU32_eq _ _ (by omega) hr1
    simp only [hmod, hr, hsub, hT (r - 1) (by omega)]
    rw [subU32_eq _ _ hid hTm]

/-- Witness for C1: sizes `[40, 130]` with `B = 32` are padded to `[64, 160]`,
and lane id `100` resolves to member `1` with local id `36`. -/
theorem genGroup_resolve_eq_linearScan_witness :
    genGroupResolve (fun s => padSize s 32) [40, 130] 0 100 2
        = linearScan (fun s => padSize s 32) [40, 130] 0 100
      ∧ (linearScan (fun s => padSize s 32) [40, 130] 0 100).isSome = true
      ∧ [40, 130].map (fun s => padSize s 32) = [64, 160]
      ∧ genGroupResolve (fun s => padSize s 32) [40, 130] 0 100 2 = some (1, 36) :=
  ⟨(genGroup_resolve_eq_linearScan [40, 130] 32 0 100 2 (by decide) (by decide) (by decide)
      (by decide) (by decide) (by decide) (by decide) (by decide)).1,
   (genGroup_resolve_eq_linearScan [40, 130] 32 0 100 2 (by decide) (by decide) (by decide)
      (by decide) (by decide) (by decide) (by decide) (by decide)).2,
   by decide, by decide⟩

theorem genParallelGroup_spec (pad : G → Nat) (merged : List (List G)) :
    ∀ a, a + rangeEnd pad merged merged.length < 2 ^ 64 →
      (genParallelGroup pad merged a).2 = a + rangeEnd pad merged merged.length ∧
      ∀ k (hk : k < merged.length), (genParallelGroup pad merged a).1[k]? =
        some (a + rangeEnd pad merged k, summedPaddedSize pad (merged.get ⟨k, hk⟩)) := by
  induction merged with
  | nil =>
    intro a _
    refine ⟨by simp [genParallelGroup, rangeEnd, summedPaddedSize_nil], ?_⟩
    intro k hk
    simp at hk
  | cons g gs ih =>
    intro a ha
    simp only [rangeEnd, List.length_cons, List.take_succ_cons, summedPaddedSize_cons] at ha
    have hps : paddedSize pad g = summedPaddedSize pad g := paddedSize_eq pad g (by omega)
    have hadv : genGroupAdvance pad g a = a + summedPaddedSize pad g := by
      unfold genGroupAdvance
      rw [hps, addSizeT_eq _ _ (by omega)]
    obtain ⟨ih1, ih2⟩ := ih (a + summedPaddedSize pad g) (by simp only [rangeEnd]; omega)
    simp only [genParallelGroup, hadv, hps]
    refine ⟨?_, ?_⟩
    · rw [ih1]
      simp only [rangeEnd, List.length_cons, List.take_succ_cons, summedPaddedSize_cons]
      omega
    · intro k hk
      cases k with
      | zero => simp [rangeEnd, summedPaddedSize_nil]
      | succ k =>
        simp only [List.getElem?_cons_succ]
        rw [ih2 k (by simpa using hk)]
        simp only [rangeEnd, List.take_succ_cons, summedPaddedSize_cons, List.get_eq_getElem,
          List.getElem_cons_succ]
        congr 2
        omega

theorem rangeEnd_mono (pad : G → Nat) (merged : List (List G)) (i j : Nat) (h : i ≤ j) :
    rangeEnd pad merged i ≤ rangeEnd pad merged j :=
  summedPaddedSize_take_le _ merged i j h

theorem exists_range_of_lt (f : Nat → Nat) (id : Nat) :
    ∀ n, f 0 ≤ id → id < f n → ∃ k, k < n ∧ f k ≤ id ∧ id < f (k + 1) := by
  intro n
  induction n with
  | zero => intro h0 hn; omega
  | succ n ih =>
    intro h0 hn
    by_cases h : id < f n
    · obtain ⟨k, hk, h1, h2⟩ := ih h0 h
      exact ⟨k, by omega, h1, h2⟩
    · exact ⟨n, by omega, by omega, hn⟩

/-- C2: running `genGroup` over an ordered list of merged groups from
`idStart = 0` (the sums fitting a `size_t`), the guard emitted for the `k`-th
group holds for a lane id exactly when `S_k ≤ id < S_(k+1)`, with `S_k` the
summed padded sizes of the groups before the `k`-th (counting from 0) and
`S_0 = 0`; so the ranges are contiguous and disjoint, exactly one guard holds
for every id below `S_n`, and `idStart` ends at `S_n`. -/
theorem genParallelGroup_guard_ranges (pad : G → Nat) (merged : List (List G))
    (hfit : rangeEnd pad merged merged.length < 2 ^ 64) :
    (genParallelGroup pad merged 0).2 = rangeEnd pad merged merged.length
    ∧ (genParallelGroup pad merged 0).1.length = merged.length
    ∧ rangeEnd pad merged 0 = 0
    ∧ (∀ k id, k < merged.length →
        (guardHolds (genParallelGroup pad merged 0).1 k id = true ↔
          rangeEnd pad merged k ≤ id ∧ id < rangeEnd pad merged (k + 1)))
    ∧ (∀ id, id < rangeEnd pad merged merged.length →
        ∃! k, guardHolds (genParallelGroup pad merged 0).1 k id = true) := by
  obtain ⟨hend, hguards⟩ := genParallelGroup_spec pad merged 0 (by omega)
  have hlen : ∀ (ms : List (List G)) (a : Nat), (genParallelGroup pad ms a).1.length = ms.length := by
    intro ms
    induction ms with
    | nil => intro a; rfl
    | cons g gs ih => intro a; simp [genParallelGroup, ih]
  have h0 : rangeEnd pad merged 0 = 0 := by simp [rangeEnd, summedPaddedSize_nil]
  have hiff : ∀ k id, k < merged.length →
      (guardHolds (genParallelGroup pad merged 0).1 k id = true ↔
        rangeEnd pad merged k ≤ id ∧ id < rangeEnd pad merged (k + 1)) := by
    intro k id hk
    have hsucc : rangeEnd pad merged (k + 1) =
        rangeEnd pad merged k + summedPaddedSize pad (merged.get ⟨k, hk⟩) :=
      summedPaddedSize_take_succ _ merged k hk
    have hle := rangeEnd_mono pad merged (k + 1) merged.length (by omega)
    unfold guardHolds
    rw [hguards k hk]
    simp only [Nat.zero_add]
    rw [genGroupGuard_iff _ _ _ (by omega), hsucc]
  refine ⟨by simpa using hend, hlen merged 0, h0, hiff, ?_⟩
  intro id hid
  obtain ⟨k, hk, hk1, hk2⟩ := exists_range_of_lt (rangeEnd pad merged) id merged.length
    (by omega) hid
  refine ⟨k, (hiff k id hk).2 ⟨hk1, hk2⟩, ?_⟩
  intro k2 hk2guard
  have hk2lt : k2 < merged.length := by
    by_contra hge
    unfold guardHolds at hk2guard
    rw [List.getElem?_eq_none (by rw [hlen]; omega)] at hk2guard
    simp at hk2guard
  obtain ⟨h21, h22⟩ := (hiff k2 id hk2lt).1 hk2guard
  by_contra hne
  rcases Nat.lt_or_gt_of_ne hne with hlt | hgt
  · have := rangeEnd_mono pad merged (k2 + 1) k (by omega)
    omega
  · have := rangeEnd_mono pad merged (k + 1) k2 (by omega)
    omega

/-- Witness for C2: three merged groups with members of sizes `[40, 130]`,
`[]` and `[7]` under block size 32 occupy `[0, 224)`, `[224, 224)` and
`[224, 256)`. -/
theorem genParallelGroup_guard_ranges_witness :
    rangeEnd (fun s => padSize s 32) [[40, 130], [], [7]] 3 = 256
    ∧ (genParallelGroup (fun s => padSize s 32) [[40, 130], [], [7]] 0).2 = 256
    ∧ (genParallelGroup (fun s => padSize s 32) [[40, 130], [], [7]] 0).1
        = [(0, 224), (224, 0), (224, 32)] :=
  ⟨by decide,
   (genParallelGroup_guard_ranges (fun s => padSize s 32) [[40, 130], [], [7]]
      (by decide)).1.trans (by decide),
   by decide⟩

end DispatchProofs

/-! ## Memory placement -/

theorem placeGroup_none (r : Nat) (ms : MemorySpaces) (h : ∀ m ∈ ms, ¬ r < m.2) :
    placeGroup r ms = (none, ms) := by
  induction ms with
  | nil => rfl
  | cons m ms ih =>
    have hm : ¬ m.2 > r := h m (List.mem_cons_self _ _)
    have := ih (fun x hx => h x (List.mem_cons_of_mem _ hx))
    simp [placeGroup, hm, this]

theorem placeGroup_first_fit (r : Nat) (ms : MemorySpaces) (hfit : ∀ m ∈ ms, m.2 < 2 ^ 64) :
    ∀ (i : Nat) (name : String) (budget : Nat), ms[i]? = some (name, budget) → r < budget →
      (∀ j n b, j < i → ms[j]? = some (n, b) → ¬ r < b) →
      placeGroup r ms = (some i, ms.set i (name, budget - r)) := by
  induction ms with
  | nil => intro i name budget h; simp at h
  | cons m ms ih =>
    intro i name budget hi hr hfirst
    cases i with
    | zero =>
      simp only [List.getElem?_cons_zero, Option.some.injEq] at hi
      subst hi
      have hb : budget < 2 ^ 64 := hfit (name, budget) (List.mem_cons_self _ _)
      simp only [placeGroup]
      rw [if_pos hr, subSizeT_eq _ _ hb (le_of_lt hr)]
      rfl
    | succ i =>
      have hm : ¬ m.2 > r := hfirst 0 m.1 m.2 (by omega) (by simp)
      simp only [List.getElem?_cons_succ] at hi
      have := ih (fun x hx => hfit x (List.mem_cons_of_mem _ hx)) i name budget hi hr
        (fun j n b hj hjb => hfirst (j + 1) n b (by omega) (by simpa using hjb))
      simp [placeGroup, hm, this]

theorem placeGroup_cases (r : Nat) (ms : MemorySpaces) :
    (∀ m ∈ ms, ¬ r < m.2) ∨
    ∃ (i : Nat) (name : String) (budget : Nat), ms[i]? = some (name, budget) ∧ r < budget ∧
      ∀ j n b, j < i → ms[j]? = some (n, b) → ¬ r < b := by
  induction ms with
  | nil => left; simp
  | cons m ms ih =>
    by_cases hm : r < m.2
    · right
      exact ⟨0, m.1, m.2, by simp, hm, by intro j n b hj; omega⟩
    · rcases ih with h | ⟨i, name, budget, hi, hr, hfirst⟩
      · left
        intro x hx
        rcases List.mem_cons.1 hx with rfl | hx
        · exact hm
        · exact h x hx
      · right
        refine ⟨i + 1, name, budget, by simpa using hi, hr, ?_⟩
        intro j n b hj hjb
        cases j with
        | zero =>
          simp only [List.getElem?_cons_zero, Option.some.injEq] at hjb
          subst hjb
          exact hm
        | succ j => exact hfirst j n b (by omega) (by simpa using hjb)

/-- C3: `genMergedStructArrayPush` places a struct of `r` bytes in the first
memory space, in list order, whose remaining bytes are strictly greater than
`r`, takes exactly `r` from that space and leaves every other one as it was;
when no space has more than `r` bytes left the assertion `memorySpaceFound`
fails and no space has changed.  The budgets are `size_t` values. -/
theorem genMergedStructArrayPush_first_fit (r : Nat) (rest : List Nat) (ms : MemorySpaces)
    (hfit : ∀ m ∈ ms, m.2 < 2 ^ 64) :
    (∀ (i : Nat) (name : String) (budget : Nat), ms[i]? = some (name, budget) → r < budget →
        (∀ j n b, j < i → ms[j]? = some (n, b) → ¬ r < b) →
        placeGroup r ms = (some i, ms.set i (name, budget - r))
        ∧ genMergedStructArrayPush [r] ms = .ok ([(i, r)], ms.set i (name, budget - r)))
    ∧ ((∀ m ∈ ms, ¬ r < m.2) →
        placeGroup r ms = (none, ms)
        ∧ genMergedStructArrayPush (r :: rest) ms = .error ([], ms)) := by
  refine ⟨?_, ?_⟩
  · intro i name budget hi hr hfirst
    have h := placeGroup_first_fit r ms hfit i name budget hi hr hfirst
    refine ⟨h, ?_⟩
    simp [genMergedStructArrayPush, h]
  · intro hnone
    have h := placeGroup_none r ms hnone
    refine ⟨h, ?_⟩
    simp [genMergedStructArrayPush, h]

/-- Witness for C3: with spaces of 100, 500 and 900 bytes a struct of 100 bytes
goes to the second space (100 is not greater than 100), and one of 900 bytes
fits nowhere. -/
theorem genMergedStructArrayPush_first_fit_witness :
    genMergedStructArrayPush [100] [("a", 100), ("b", 500), ("c", 900)]
        = .ok ([(1, 100)], [("a", 100), ("b", 400), ("c", 900)])
    ∧ genMergedStructArrayPush [900, 1] [("a", 100), ("b", 500), ("c", 900)]
        = .error ([], [("a", 100), ("b", 500), ("c", 900)]) :=
  ⟨((genMergedStructArrayPush_first_fit 100 [] [("a", 100), ("b", 500), ("c", 900)]
      (by decide)).1 1 "b" 500 (by decide) (by decide)
      (by
        intro j n b hj h
        obtain rfl : j = 0 := by omega
        simp only [List.getElem?_cons_zero, Option.some.injEq, Prod.mk.injEq] at h
        omega)).2,
   ((genMergedStructArrayPush_first_fit 900 [1] [("a", 100), ("b", 500), ("c", 900)]
      (by decide)).2 (by decide)).2⟩

theorem pushOutcome_cons (r i : Nat) (rest : List Nat) (ms ms1 : MemorySpaces)
    (h : placeGroup r ms = (some i, ms1)) :
    pushOutcome (genMergedStructArrayPush (r :: rest) ms) =
      ((i, r) :: (pushOutcome (genMergedStructArrayPush rest ms1)).1,
        (pushOutcome (genMergedStructArrayPush rest ms1)).2) := by
  simp only [genMergedStructArrayPush, h]
  cases hrec : genMergedStructArrayPush rest ms1 with
  | ok x => rfl
  | error x => rfl

theorem placedBytes_cons (i r : Nat) (placed : List (Nat × Nat)) (k : Nat) :
    placedBytes ((i, r) :: placed) k = (if i = k then r else 0) + placedBytes placed k := by
  unfold placedBytes
  by_cases h : i = k
  · simp [List.filter_cons, h]
  · simp [List.filter_cons, h]

/-- C4: whatever the memory spaces (with `size_t` budgets) and the sequence of
struct sizes, in the state the first-fit loop reaches (at its end or at the
failed assertion) every memory space keeps its name, and its remaining bytes
plus the bytes of the structs placed in it are exactly its initial budget: no
`size_t` subtraction has wrapped around, the remaining budget is the
non-negative difference, and the structs placed in a space never take more
than its initial budget. -/
theorem genMergedStructArrayPush_budget (sizes : List Nat) (ms : MemorySpaces)
    (hfit : ∀ m ∈ ms, m.2 < 2 ^ 64) :
    (pushOutcome (genMergedStructArrayPush sizes ms)).2.length = ms.length
    ∧ ∀ (i : Nat) (name : String) (budget : Nat), ms[i]? = some (name, budget) →
        ∃ remaining,
          (pushOutcome (genMergedStructArrayPush sizes ms)).2[i]? = some (name, remaining)
          ∧ remaining + placedBytes (pushOutcome (genMergedStructArrayPush sizes ms)).1 i = budget
          ∧ placedBytes (pushOutcome (genMergedStructArrayPush sizes ms)).1 i ≤ budget := by
  induction sizes generalizing ms with
  | nil =>
    refine ⟨rfl, ?_⟩
    intro i name budget hi
    exact ⟨budget, hi, by simp [pushOutcome, genMergedStructArrayPush, placedBytes], by
      simp [pushOutcome, genMergedStructArrayPush, placedBytes]⟩
  | cons r rest ih =>
    rcases placeGroup_cases r ms with hnone | ⟨i0, name0, budget0, hi0, hr0, hfirst⟩
    · have h := placeGroup_none r ms hnone
      have hout : pushOutcome (genMergedStructArrayPush (r :: rest) ms) = ([], ms) := by
        simp [genMergedStructArrayPush, h, pushOutcome]
      rw [hout]
      refine ⟨rfl, ?_⟩
      intro i name budget hi
      exact ⟨budget, hi, by simp [placedBytes], by simp [placedBytes]⟩
    · have h := placeGroup_first_fit r ms hfit i0 name0 budget0 hi0 hr0 hfirst
      have hfit1 : ∀ m ∈ ms.set i0 (name0, budget0 - r), m.2 < 2 ^ 64 := by
        intro m hm
        rcases List.mem_or_eq_of_mem_set hm with hm | rfl
        · exact hfit m hm
        · have := hfit (name0, budget0) (List.getElem?_mem hi0)
          simp only at this ⊢
          omega
      obtain ⟨ihlen, ihcons⟩ := ih (ms.set i0 (name0, budget0 - r)) hfit1
      rw [pushOutcome_cons r i0 rest ms _ h]
      refine ⟨by simpa using ihlen, ?_⟩
      intro i name budget hi
      have hi0len : i0 < ms.length := by
        by_contra hge
        rw [List.getElem?_eq_none (by omega)] at hi0
        simp at hi0
      by_cases hii : i0 = i
      · subst hii
        rw [hi0] at hi
        simp only [Option.some.injEq, Prod.mk.injEq] at hi
        obtain ⟨rfl, rfl⟩ := hi
        obtain ⟨rem, h1, h2, h3⟩ := ihcons i0 name0 (budget0 - r)
          (by rw [List.getElem?_set_self hi0len])
        refine ⟨rem, h1, ?_, ?_⟩
        · rw [placedBytes_cons, if_pos rfl]
          omega
        · rw [placedBytes_cons, if_pos rfl]
          omega
      · obtain ⟨rem, h1, h2, h3⟩ := ihcons i name budget
          (by rw [List.getElem?_set_ne hii]; exact hi)
        refine ⟨rem, h1, ?_, ?_⟩
        · rw [placedBytes_cons, if_neg hii]
          omega
        · rw [placedBytes_cons, if_neg hii]
          omega

/-- Witness for C4: three structs placed in two spaces; the fourth fits
nowhere, and at the failed assertion the budgets still add up. -/
theorem genMergedStructArrayPush_budget_witness :
    genMergedStructArrayPush [60, 30, 50, 70] [("a", 100), ("b", 80)]
        = .error ([(0, 60), (0, 30), (1, 50)], [("a", 10), ("b", 30)])
    ∧ (pushOutcome (genMergedStructArrayPush [60, 30, 50, 70] [("a", 100), ("b", 80)])).2.length
        = 2 :=
  ⟨rfl,
   (genMergedStructArrayPush_budget [60, 30, 50, 70] [("a", 100), ("b", 80)] (by decide)).1⟩

/-! ## Row mutation -/

section RowProofs

variable {V : Type}

theorem execAll_nil (m : Memory V) : execAll [] m = m := rfl

theorem execAll_cons (st : Stmt V) (code : List (Stmt V)) (m : Memory V) :
    execAll (st :: code) m = execAll code (st.exec m) := rfl

theorem exec_other (st : Stmt V) (m : Memory V) (f : Field) (k : Nat) (h : st.target ≠ (f, k)) :
    st.exec m f k = m f k := by
  unfold Stmt.exec Memory.write
  rw [if_neg]
  rintro ⟨rfl, rfl⟩
  exact h rfl

theorem exec_target (st : Stmt V) (m : Memory V) :
    st.exec m st.target.1 st.target.2 = st.value m := by
  unfold Stmt.exec Memory.write
  rw [if_pos ⟨rfl, rfl⟩]

/-- An array element no statement assigns to keeps its value. -/
theorem execAll_other (code : List (Stmt V)) (m : Memory V) (f : Field) (k : Nat)
    (h : ∀ st ∈ code, st.target ≠ (f, k)) : execAll code m f k = m f k := by
  induction code generalizing m with
  | nil => rfl
  | cons st code ih =>
    rw [execAll_cons, ih _ (fun x hx => h x (List.mem_cons_of_mem _ hx)),
      exec_other st m f k (h st (List.mem_cons_self _ _))]

/-- When no statement overwrites an element another one reads, and all
statements with the target of `st` assign the same value, that value is what
the target of `st` holds at the end. -/
theorem execAll_target (code : List (Stmt V)) :
    ∀ (m : Memory V), (∀ st ∈ code, ∀ st2 ∈ code, st.source ≠ some st2.target) →
      ∀ st ∈ code, (∀ st2 ∈ code, st2.target = st.target → st2.value m = st.value m) →
        execAll code m st.target.1 st.target.2 = st.value m := by
  induction code with
  | nil => intro m _ st hst; simp at hst
  | cons s0 rest ih =>
    intro m hsrc st hst hsame
    have hval : ∀ x ∈ s0 :: rest, x.value (s0.exec m) = x.value m := by
      intro x hx
      cases x with
      | store f i v => rfl
      | copy f dst src =>
        have := hsrc _ hx s0 (List.mem_cons_self _ _)
        simp only [Stmt.source, ne_eq, Option.some.injEq] at this
        simp only [Stmt.value]
        exact exec_other s0 m f src (fun h => this h.symm)
    rw [execAll_cons]
    by_cases hex : ∃ x ∈ rest, x.target = st.target
    · obtain ⟨x, hx, hxt⟩ := hex
      have hxm : x ∈ s0 :: rest := List.mem_cons_of_mem _ hx
      have := ih (s0.exec m)
        (fun a ha b hb => hsrc a (List.mem_cons_of_mem _ ha) b (List.mem_cons_of_mem _ hb))
        x hx (by
          intro y hy hyt
          have hym : y ∈ s0 :: rest := List.mem_cons_of_mem _ hy
          rw [hval y hym, hval x hxm, hsame y hym (hyt.trans hxt), hsame x hxm hxt])
      rw [hxt] at this
      rw [this, hval x hxm, hsame x hxm hxt]
    · have hno : ∀ x ∈ rest, x.target ≠ (st.target.1, st.target.2) := by
        intro x hx hxt
        exact hex ⟨x, hx, hxt⟩
      rw [execAll_other rest _ _ _ hno]
      rcases List.mem_cons.1 hst with rfl | hst
      · exact exec_target _ m
      · exact absurd ⟨st, hst, rfl⟩ hex

/-- Copying every element onto itself changes nothing. -/
theorem execAll_self_copies (code : List (Stmt V)) (m : Memory V)
    (h : ∀ st ∈ code, st.source = some st.target) : execAll code m = m := by
  induction code generalizing m with
  | nil => rfl
  | cons st code ih =>
    have hst : st.exec m = m := by
      have := h st (List.mem_cons_self _ _)
      cases st with
      | store f i v => simp [Stmt.source] at this
      | copy f dst src =>
        simp only [Stmt.source, Stmt.target, Option.some.injEq, Prod.mk.injEq, true_and] at this
        subst this
        funext g k
        simp only [Stmt.exec, Stmt.target, Stmt.value, Memory.write]
        split_ifs with hc
        · rw [hc.1, hc.2]
        · rfl
    rw [execAll_cons, hst]
    exact ih m (fun x hx => h x (List.mem_cons_of_mem _ hx))

theorem mem_flatMap_range_ite {α : Type} (n : Nat) (c : Nat → Prop) [DecidablePred c]
    (A B : Nat → List α) (x : α) :
    x ∈ (List.range n).flatMap (fun i => if c i then A i else B i) ↔
      ∃ i, i < n ∧ ((c i ∧ x ∈ A i) ∨ (¬ c i ∧ x ∈ B i)) := by
  simp only [List.mem_flatMap, List.mem_range]
  constructor
  · rintro ⟨i, hi, h⟩
    refine ⟨i, hi, ?_⟩
    by_cases hc : c i
    · rw [if_pos hc] at h
      exact Or.inl ⟨hc, h⟩
    · rw [if_neg hc] at h
      exact Or.inr ⟨hc, h⟩
  · rintro ⟨i, hi, ⟨hc, h⟩ | ⟨hc, h⟩⟩
    · exact ⟨i, hi, by rw [if_pos hc]; exact h⟩
    · exact ⟨i, hi, by rw [if_neg hc]; exact h⟩

theorem mem_storeBatches (l : Lane) (B : Nat) (f : Field) (i : Nat) (v : V) (st : Stmt V) :
    st ∈ storeBatches l B f i v ↔ ∃ b, b < B ∧ st = Stmt.store f (batchIdx l b i) v := by
  simp only [storeBatches, List.mem_map, List.mem_range]
  constructor
  · rintro ⟨b, hb, rfl⟩
    exact ⟨b, hb, rfl⟩
  · rintro ⟨b, hb, rfl⟩
    exact ⟨b, hb, rfl⟩

theorem mem_copyBatches (l : Lane) (B : Nat) (f : Field) (idx lastIdx : Nat) (st : Stmt V) :
    st ∈ (copyBatches l B f idx lastIdx : List (Stmt V)) ↔
      ∃ b, b < B ∧ st = Stmt.copy f (batchIdx l b idx) (batchIdx l b lastIdx) := by
  simp only [copyBatches, List.mem_map, List.mem_range]
  constructor
  · rintro ⟨b, hb, rfl⟩
    exact ⟨b, hb, rfl⟩
  · rintro ⟨b, hb, rfl⟩
    exact ⟨b, hb, rfl⟩

theorem mem_addSynapseStores [Zero V] (cfg : UpdateModel) (l : Lane) (n : Nat) (args : Nat → V)
    (st : Stmt V) :
    st ∈ addSynapseStores cfg l n args ↔
      st = Stmt.store Field.ind n (args 0)
      ∨ (∃ i, i < cfg.numVars ∧ st = Stmt.store (Field.var i) n (args (1 + i)))
      ∨ (∃ i, i < cfg.numVarRefs ∧
          (((cfg.batchSize > 1 ∧ cfg.varRefDuplicated i = true) ∧ ∃ b, b < cfg.batchSize ∧
              st = Stmt.store (Field.varRef i) (batchIdx l b n) (args (1 + cfg.numVars + i)))
           ∨ (¬ (cfg.batchSize > 1 ∧ cfg.varRefDuplicated i = true) ∧
              st = Stmt.store (Field.varRef i) n (args (1 + cfg.numVars + i)))))
      ∨ (∃ i, i < cfg.numDependentVars ∧
          (((cfg.batchSize > 1 ∧ cfg.dependentVarDuplicated i = true) ∧ ∃ b, b < cfg.batchSize ∧
              st = Stmt.store (Field.dependentVar i) (batchIdx l b n) 0)
           ∨ (¬ (cfg.batchSize > 1 ∧ cfg.dependentVarDuplicated i = true) ∧
              st = Stmt.store (Field.dependentVar i) n 0))) := by
  unfold addSynapseStores
  simp only [List.mem_append, mem_flatMap_range_ite, mem_storeBatches, List.mem_singleton,
    List.mem_map, List.mem_range, or_assoc]
  constructor
  · rintro (h | ⟨i, hi, rfl⟩ | h | h)
    · exact Or.inl h
    · exact Or.inr (Or.inl ⟨i, hi, rfl⟩)
    · exact Or.inr (Or.inr (Or.inl h))
    · exact Or.inr (Or.inr (Or.inr h))
  · rintro (h | ⟨i, hi, rfl⟩ | h | h)
    · exact Or.inl h
    · exact Or.inr (Or.inl ⟨i, hi, rfl⟩)
    · exact Or.inr (Or.inr (Or.inl h))
    · exact Or.inr (Or.inr (Or.inr h))

theorem mem_removeSynapseCopies (cfg : UpdateModel) (l : Lane) (idx lastIdx : Nat)
    (st : Stmt V) :
    st ∈ (removeSynapseCopies cfg l idx lastIdx : List (Stmt V)) ↔
      st = Stmt.copy Field.ind idx lastIdx
      ∨ (∃ i, i < cfg.numVars ∧ st = Stmt.copy (Field.var i) idx lastIdx)
      ∨ (∃ i, i < cfg.numVarRefs ∧
          (((cfg.batchSize > 1 ∧ cfg.varRefDuplicated i = true) ∧ ∃ b, b < cfg.batchSize ∧
              st = Stmt.copy (Field.varRef i) (batchIdx l b idx) (batchIdx l b lastIdx))
           ∨ (¬ (cfg.batchSize > 1 ∧ cfg.varRefDuplicated i = true) ∧
              st = Stmt.copy (Field.varRef i) idx lastIdx)))
      ∨ (∃ i, i < cfg.numDependentVars ∧
          (((cfg.batchSize > 1 ∧ cfg.dependentVarDuplicated i = true) ∧ ∃ b, b < cfg.batchSize ∧
              st = Stmt.copy (Field.dependentVar i) (batchIdx l b idx) (batchIdx l b lastIdx))
           ∨ (¬ (cfg.batchSize > 1 ∧ cfg.dependentVarDuplicated i = true) ∧
              st = Stmt.copy (Field.dependentVar i) idx lastIdx))) := by
  unfold removeSynapseCopies
  simp only [List.mem_append, mem_flatMap_range_ite, mem_copyBatches, List.mem_singleton,
    List.mem_map, List.mem_range, or_assoc]
  constructor
  · rintro (h | ⟨i, hi, rfl⟩ | h | h)
    · exact Or.inl h
    · exact Or.inr (Or.inl ⟨i, hi, rfl⟩)
    · exact Or.inr (Or.inr (Or.inl h))
    · exact Or.inr (Or.inr (Or.inr h))
  · rintro (h | ⟨i, hi, rfl⟩ | h | h)
    · exact Or.inl h
    · exact Or.inr (Or.inl ⟨i, hi, rfl⟩)
    · exact Or.inr (Or.inr (Or.inl h))
    · exact Or.inr (Or.inr (Or.inr h))

theorem addSynapseStores_value [Zero V] (cfg : UpdateModel) (l : Lane) (n : Nat)
    (args : Nat → V) (st : Stmt V) (h : st ∈ addSynapseStores cfg l n args) (m : Memory V) :
    st.source = none ∧ st.value m = addSynapseValue cfg args st.target.1 := by
  rw [mem_addSynapseStores] at h
  rcases h with rfl | ⟨i, _, rfl⟩ | ⟨i, _, ⟨_, b, _, rfl⟩ | ⟨_, rfl⟩⟩ | ⟨i, _, ⟨_, b, _, rfl⟩ | ⟨_, rfl⟩⟩
  all_goals exact ⟨rfl, rfl⟩

theorem batchIdx_zero (l : Lane) (i : Nat) (h : i < 2 ^ 32) : batchIdx l 0 i = i := by
  unfold batchIdx mulU32
  simp only [Nat.zero_mul, Nat.zero_mod]
  rw [addU32_eq _ _ (by omega)]
  omega

theorem addSynapseStores_exec [Zero V] (cfg : UpdateModel) (l : Lane) (n : Nat)
    (args : Nat → V) (m : Memory V) (st : Stmt V) (h : st ∈ addSynapseStores cfg l n args) :
    execAll (addSynapseStores cfg l n args) m st.target.1 st.target.2
      = addSynapseValue cfg args st.target.1 := by
  rw [execAll_target _ m ?_ st h ?_]
  · exact (addSynapseStores_value cfg l n args st h m).2
  · intro a ha b _
    rw [(addSynapseStores_value cfg l n args a ha m).1]
    simp
  · intro st2 h2 ht
    rw [(addSynapseStores_value cfg l n args st2 h2 m).2,
      (addSynapseStores_value cfg l n args st h m).2, ht]

theorem rowStartIdx_eq (l : Lane) (h : l.idPre * l.rowStride < 2 ^ 32) :
    rowStartIdx l = l.idPre * l.rowStride := mulU32_eq _ _ h

theorem addSynapse_eq [Zero V] (cfg : UpdateModel) (l : Lane) (args : Nat → V)
    (s : GroupState V) (hL : s.rowLength l.idPre < l.rowStride)
    (hrow : l.idPre * l.rowStride + l.rowStride < 2 ^ 32) :
    addSynapse cfg l args s = .ok
      { mem := execAll (addSynapseStores cfg l (l.idPre * l.rowStride + s.rowLength l.idPre) args)
          s.mem
        rowLength := fun q => if q = l.idPre then s.rowLength l.idPre + 1 else s.rowLength q } := by
  unfold addSynapse
  have h1 : addU32 (rowStartIdx l) (s.rowLength l.idPre)
      = l.idPre * l.rowStride + s.rowLength l.idPre := by
    rw [rowStartIdx_eq l (by omega), addU32_eq _ _ (by omega)]
  have h2 : (fun q => if q = l.idPre then addU32 (s.rowLength q) 1 else s.rowLength q)
      = fun q => if q = l.idPre then s.rowLength l.idPre + 1 else s.rowLength q := by
    funext q
    by_cases hq : q = l.idPre
    · subst hq
      rw [if_pos rfl, if_pos rfl, addU32_eq _ _ (by omega)]
    · rw [if_neg hq, if_neg hq]
  unfold genAssert
  simp only [decide_eq_true hL, if_true, h1, h2]

/-- C5: run on a row `id_pre` whose length `L` is below the row stride (the
row ending below `2 ^ 32`), the code emitted for `add_synapse` succeeds and
leaves at slot `newIdx = id_pre * rowStride + L` argument 0 in the target
array, argument `1 + i` in the `i`-th model variable, argument
`1 + |vars| + i` in the `i`-th variable reference and `0` in every
dependent variable, and the row length is `L + 1`. -/
theorem addSynapse_new_slot [Zero V] (cfg : UpdateModel) (l : Lane) (args : Nat → V)
    (s : GroupState V) (hL : s.rowLength l.idPre < l.rowStride)
    (hfit : l.idPre * l.rowStride + l.rowStride < 2 ^ 32) :
    ∃ s2, addSynapse cfg l args s = .ok s2
      ∧ s2.mem Field.ind (l.idPre * l.rowStride + s.rowLength l.idPre) = args 0
      ∧ (∀ i, i < cfg.numVars →
          s2.mem (Field.var i) (l.idPre * l.rowStride + s.rowLength l.idPre) = args (1 + i))
      ∧ (∀ i, i < cfg.numVarRefs →
          s2.mem (Field.varRef i) (l.idPre * l.rowStride + s.rowLength l.idPre)
            = args (1 + cfg.numVars + i))
      ∧ (∀ i, i < cfg.numDependentVars →
          s2.mem (Field.dependentVar i) (l.idPre * l.rowStride + s.rowLength l.idPre) = 0)
      ∧ s2.rowLength l.idPre = s.rowLength l.idPre + 1 := by
  have hn32 : l.idPre * l.rowStride + s.rowLength l.idPre < 2 ^ 32 := by omega
  refine ⟨_, addSynapse_eq cfg l args s hL hfit, ?_, ?_, ?_, ?_, ?_⟩
  · have := addSynapseStores_exec cfg l (l.idPre * l.rowStride + s.rowLength l.idPre) args s.mem
      (Stmt.store Field.ind _ (args 0)) ((mem_addSynapseStores ..).2 (Or.inl rfl))
    simpa [Stmt.target, addSynapseValue] using this
  · intro i hi
    have := addSynapseStores_exec cfg l (l.idPre * l.rowStride + s.rowLength l.idPre) args s.mem
      (Stmt.store (Field.var i) _ (args (1 + i)))
      ((mem_addSynapseStores ..).2 (Or.inr (Or.inl ⟨i, hi, rfl⟩)))
    simpa [Stmt.target, addSynapseValue] using this
  · intro i hi
    by_cases hd : cfg.batchSize > 1 ∧ cfg.varRefDuplicated i = true
    · have := addSynapseStores_exec cfg l (l.idPre * l.rowStride + s.rowLength l.idPre) args
        s.mem (Stmt.store (Field.varRef i) (batchIdx l 0 _) (args (1 + cfg.numVars + i)))
        ((mem_addSynapseStores ..).2 (Or.inr (Or.inr (Or.inl
          ⟨i, hi, Or.inl ⟨hd, 0, by omega, rfl⟩⟩))))
      simpa [Stmt.target, addSynapseValue, batchIdx_zero l _ hn32] using this
    · have := addSynapseStores_exec cfg l (l.idPre * l.rowStride + s.rowLength l.idPre) args
        s.mem (Stmt.store (Field.varRef i) _ (args (1 + cfg.numVars + i)))
        ((mem_addSynapseStores ..).2 (Or.inr (Or.inr (Or.inl ⟨i, hi, Or.inr ⟨hd, rfl⟩⟩))))
      simpa [Stmt.target, addSynapseValue] using this
  · intro i hi
    by_cases hd : cfg.batchSize > 1 ∧ cfg.dependentVarDuplicated i = true
    · have := addSynapseStores_exec cfg l (l.idPre * l.rowStride + s.rowLength l.idPre) args
        s.mem (Stmt.store (Field.dependentVar i) (batchIdx l 0 _) 0)
        ((mem_addSynapseStores ..).2 (Or.inr (Or.inr (Or.inr
          ⟨i, hi, Or.inl ⟨hd, 0, by omega, rfl⟩⟩))))
      simpa [Stmt.target, addSynapseValue, batchIdx_zero l _ hn32] using this
    · have := addSynapseStores_exec cfg l (l.idPre * l.rowStride + s.rowLength l.idPre) args
        s.mem (Stmt.store (Field.dependentVar i) _ 0)
        ((mem_addSynapseStores ..).2 (Or.inr (Or.inr (Or.inr ⟨i, hi, Or.inr ⟨hd, rfl⟩⟩))))
      simpa [Stmt.target, addSynapseValue] using this
  · simp only [if_true]

/-- Witness for C5: a synapse added to the row of source index 1, which holds
two synapses, lands in slot `1 * 4 + 2 = 6`. -/
theorem addSynapse_new_slot_witness :
    ∃ s2, addSynapse exampleModel exampleLane exampleArgs exampleState = .ok s2
      ∧ s2.mem Field.ind 6 = 1000 ∧ s2.mem (Field.var 0) 6 = 1001
      ∧ s2.mem (Field.varRef 0) 6 = 1002 ∧ s2.mem (Field.varRef 1) 6 = 1003
      ∧ s2.mem (Field.dependentVar 0) 6 = 0 ∧ s2.rowLength 1 = 3 := by
  obtain ⟨s2, h, h1, h2, h3, h4, h5⟩ :=
    addSynapse_new_slot exampleModel exampleLane exampleArgs exampleState (by decide) (by decide)
  exact ⟨s2, h, h1, h2 0 (by decide), h3 0 (by decide), h3 1 (by decide), h4 0 (by decide), h5⟩

/-- C9: run on a row whose length is not below the row stride, the code
emitted for `add_synapse` stops at its assertion, which comes before every
assignment and before the increment of the row length: the run ends in the
error state, and that state is the one the code was started in. -/
theorem addSynapse_full_row [Zero V] (cfg : UpdateModel) (l : Lane) (args : Nat → V)
    (s : GroupState V) (hfull : l.rowStride ≤ s.rowLength l.idPre) :
    addSynapse cfg l args s = .error s := by
  have hnot : ¬ s.rowLength l.idPre < l.rowStride := by omega
  unfold addSynapse genAssert
  simp only [decide_eq_false hnot, Bool.false_eq_true, if_false]

/-- Witness for C9: `add_synapse` on a full row of stride 4. -/
theorem addSynapse_full_row_witness :
    addSynapse exampleModel exampleLane exampleArgs exampleFullState = .error exampleFullState :=
  addSynapse_full_row exampleModel exampleLane exampleArgs exampleFullState (by decide)

/-! ### Index arithmetic without wrap-around -/

theorem mul_add_lt_mul (b B S x : Nat) (hb : b < B) (hx : x < S) : b * S + x < B * S := by
  calc b * S + x < b * S + S := by omega
    _ = (b + 1) * S := by ring
    _ ≤ B * S := Nat.mul_le_mul_right S hb

theorem batch_unique (S b1 b2 x y : Nat) (hx : x < S) (hy : y < S)
    (h : b1 * S + x = b2 * S + y) : b1 = b2 ∧ x = y := by
  have hS : 0 < S := by omega
  have h1 : (b1 * S + x) / S = b1 := by
    rw [Nat.add_comm, Nat.add_mul_div_right _ _ hS, Nat.div_eq_of_lt hx, Nat.zero_add]
  have h2 : (b2 * S + y) / S = b2 := by
    rw [Nat.add_comm, Nat.add_mul_div_right _ _ hS, Nat.div_eq_of_lt hy, Nat.zero_add]
  have hb : b1 = b2 := by rw [← h1, ← h2, h]
  subst hb
  exact ⟨rfl, by omega⟩

theorem synStride_lt (cfg : UpdateModel) (l : Lane) (hB : 1 ≤ cfg.batchSize)
    (hfit : cfg.batchSize * (l.numPre * l.rowStride) < 2 ^ 32) :
    l.numPre * l.rowStride < 2 ^ 32 :=
  lt_of_le_of_lt (Nat.le_mul_of_pos_left _ hB) hfit

theorem synStride_eq (cfg : UpdateModel) (l : Lane) (hB : 1 ≤ cfg.batchSize)
    (hfit : cfg.batchSize * (l.numPre * l.rowStride) < 2 ^ 32) :
    synStride l = l.numPre * l.rowStride :=
  mulU32_eq _ _ (synStride_lt cfg l hB hfit)

theorem row_end_le (l : Lane) (hpre : l.idPre < l.numPre) :
    l.idPre * l.rowStride + l.rowStride ≤ l.numPre * l.rowStride := by
  calc l.idPre * l.rowStride + l.rowStride = (l.idPre + 1) * l.rowStride := by ring
    _ ≤ l.numPre * l.rowStride := Nat.mul_le_mul_right _ hpre

theorem batchIdx_eq (cfg : UpdateModel) (l : Lane) (hB : 1 ≤ cfg.batchSize)
    (hfit : cfg.batchSize * (l.numPre * l.rowStride) < 2 ^ 32) (b x : Nat)
    (hb : b < cfg.batchSize) (hx : x < l.numPre * l.rowStride) :
    batchIdx l b x = b * (l.numPre * l.rowStride) + x := by
  have h1 := mul_add_lt_mul b cfg.batchSize (l.numPre * l.rowStride) x hb hx
  unfold batchIdx
  rw [synStride_eq cfg l hB hfit, mulU32_eq _ _ (by omega), addU32_eq _ _ (by omega)]

/-- Every statement of `remove_synapse` copies, in one array and for one batch
`b`, the element of the last slot to the element of slot `idx`. -/
theorem removeSynapseCopies_form (cfg : UpdateModel) (l : Lane) (hB : 1 ≤ cfg.batchSize)
    (hfit : cfg.batchSize * (l.numPre * l.rowStride) < 2 ^ 32) (idx lastIdx : Nat)
    (hidx : idx < l.numPre * l.rowStride) (hlast : lastIdx < l.numPre * l.rowStride)
    (st : Stmt V) (h : st ∈ (removeSynapseCopies cfg l idx lastIdx : List (Stmt V))) :
    ∃ f b, b < cfg.batchSize ∧
      st = Stmt.copy f (b * (l.numPre * l.rowStride) + idx)
        (b * (l.numPre * l.rowStride) + lastIdx) := by
  rw [mem_removeSynapseCopies] at h
  rcases h with rfl | ⟨i, _, rfl⟩ | ⟨i, _, ⟨_, b, hb, rfl⟩ | ⟨_, rfl⟩⟩ |
    ⟨i, _, ⟨_, b, hb, rfl⟩ | ⟨_, rfl⟩⟩
  · exact ⟨Field.ind, 0, by omega, by simp⟩
  · exact ⟨Field.var i, 0, by omega, by simp⟩
  · exact ⟨Field.varRef i, b, hb, by
      rw [batchIdx_eq cfg l hB hfit b idx hb hidx, batchIdx_eq cfg l hB hfit b lastIdx hb hlast]⟩
  · exact ⟨Field.varRef i, 0, by omega, by simp⟩
  · exact ⟨Field.dependentVar i, b, hb, by
      rw [batchIdx_eq cfg l hB hfit b idx hb hidx, batchIdx_eq cfg l hB hfit b lastIdx hb hlast]⟩
  · exact ⟨Field.dependentVar i, 0, by omega, by simp⟩

/-- Every statement of `add_synapse` stores, in one array and for one batch
`b`, into the element of slot `newIdx`. -/
theorem addSynapseStores_form [Zero V] (cfg : UpdateModel) (l : Lane) (hB : 1 ≤ cfg.batchSize)
    (hfit : cfg.batchSize * (l.numPre * l.rowStride) < 2 ^ 32) (n : Nat)
    (hn : n < l.numPre * l.rowStride) (args : Nat → V)
    (st : Stmt V) (h : st ∈ addSynapseStores cfg l n args) :
    ∃ f b v, b < cfg.batchSize ∧ st = Stmt.store f (b * (l.numPre * l.rowStride) + n) v := by
  rw [mem_addSynapseStores] at h
  rcases h with rfl | ⟨i, _, rfl⟩ | ⟨i, _, ⟨_, b, hb, rfl⟩ | ⟨_, rfl⟩⟩ |
    ⟨i, _, ⟨_, b, hb, rfl⟩ | ⟨_, rfl⟩⟩
  · exact ⟨Field.ind, 0, args 0, by omega, by simp⟩
  · exact ⟨Field.var i, 0, args (1 + i), by omega, by simp⟩
  · exact ⟨Field.varRef i, b, args (1 + cfg.numVars + i), hb, by
      rw [batchIdx_eq cfg l hB hfit b n hb hn]⟩
  · exact ⟨Field.varRef i, 0, args (1 + cfg.numVars + i), by omega, by simp⟩
  · exact ⟨Field.dependentVar i, b, 0, hb, by rw [batchIdx_eq cfg l hB hfit b n hb hn]⟩
  · exact ⟨Field.dependentVar i, 0, 0, by omega, by simp⟩

/-- What the code of `remove_synapse` leaves in the target of each of its
statements is the value the statement read in the memory it started from. -/
theorem removeSynapseCopies_exec (cfg : UpdateModel) (l : Lane) (hB : 1 ≤ cfg.batchSize)
    (hfit : cfg.batchSize * (l.numPre * l.rowStride) < 2 ^ 32) (idx lastIdx : Nat)
    (hidx : idx < l.numPre * l.rowStride) (hlast : lastIdx < l.numPre * l.rowStride)
    (m : Memory V) (st : Stmt V)
    (h : st ∈ (removeSynapseCopies cfg l idx lastIdx : List (Stmt V))) :
    execAll (removeSynapseCopies cfg l idx lastIdx) m st.target.1 st.target.2 = st.value m := by
  by_cases hne : idx = lastIdx
  · subst hne
    rw [execAll_self_copies]
    · obtain ⟨f, b, _, rfl⟩ := removeSynapseCopies_form cfg l hB hfit idx idx hidx hidx st h
      rfl
    · intro x hx
      obtain ⟨f, b, _, rfl⟩ := removeSynapseCopies_form cfg l hB hfit idx idx hidx hidx x hx
      rfl
  · apply execAll_target _ m _ st h
    · intro st2 h2 ht
      obtain ⟨f, b, _, rfl⟩ := removeSynapseCopies_form cfg l hB hfit idx lastIdx hidx hlast st h
      obtain ⟨f2, b2, _, rfl⟩ :=
        removeSynapseCopies_form cfg l hB hfit idx lastIdx hidx hlast st2 h2
      simp only [Stmt.target, Prod.mk.injEq] at ht
      obtain ⟨rfl, hb⟩ := ht
      obtain ⟨rfl, _⟩ := batch_unique _ _ _ _ _ hidx hidx hb
      rfl
    · intro a ha b hb hab
      obtain ⟨f, b1, _, rfl⟩ := removeSynapseCopies_form cfg l hB hfit idx lastIdx hidx hlast a ha
      obtain ⟨f2, b2, _, rfl⟩ :=
        removeSynapseCopies_form cfg l hB hfit idx lastIdx hidx hlast b hb
      simp only [Stmt.source, Stmt.target, Option.some.injEq, Prod.mk.injEq] at hab
      obtain ⟨_, hb⟩ := hab
      obtain ⟨_, hx⟩ := batch_unique _ _ _ _ _ hlast hidx hb
      exact hne hx.symm

theorem removeSynapseCopies_targets (cfg : UpdateModel) (l : Lane) (idx lastIdx : Nat) :
    (removeSynapseCopies cfg l idx lastIdx : List (Stmt V)).map Stmt.target
      = slotCells cfg l idx := by
  unfold removeSynapseCopies slotCells copyBatches
  simp only [List.map_append, List.map_cons, List.map_nil, List.map_map, List.map_flatMap]
  congr 1
  · congr 1
    apply List.flatMap_congr
    intro i _
    split_ifs
    · simp [Function.comp_def, Stmt.target]
    · rfl
  · apply List.flatMap_congr
    intro i _
    split_ifs
    · simp [Function.comp_def, Stmt.target]
    · rfl

theorem removeSynapseCopies_values (cfg : UpdateModel) (l : Lane) (idx lastIdx : Nat)
    (m : Memory V) :
    (removeSynapseCopies cfg l idx lastIdx : List (Stmt V)).map (fun st => st.value m)
      = synapseAt cfg l m lastIdx := by
  unfold removeSynapseCopies synapseAt slotCells copyBatches
  simp only [List.map_append, List.map_cons, List.map_nil, List.map_map, List.map_flatMap]
  congr 1
  · congr 1
    apply List.flatMap_congr
    intro i _
    split_ifs
    · simp [Function.comp_def, Stmt.value]
    · rfl
  · apply List.flatMap_congr
    intro i _
    split_ifs
    · simp [Function.comp_def, Stmt.value]
    · rfl

theorem slotCells_form (cfg : UpdateModel) (l : Lane) (hB : 1 ≤ cfg.batchSize)
    (hfit : cfg.batchSize * (l.numPre * l.rowStride) < 2 ^ 32) (x : Nat)
    (hx : x < l.numPre * l.rowStride) (c : Field × Nat) (hc : c ∈ slotCells cfg l x) :
    ∃ b, b < cfg.batchSize ∧ c.2 = b * (l.numPre * l.rowStride) + x := by
  rw [← @removeSynapseCopies_targets Unit cfg l x x] at hc
  obtain ⟨st, hst, rfl⟩ := List.mem_map.1 hc
  obtain ⟨f, b, hb, rfl⟩ := removeSynapseCopies_form cfg l hB hfit x x hx hx st hst
  exact ⟨b, hb, rfl⟩

/-- The code of `remove_synapse` only assigns to elements of slot `idx`. -/
theorem removeSynapseCopies_frame (cfg : UpdateModel) (l : Lane) (hB : 1 ≤ cfg.batchSize)
    (hfit : cfg.batchSize * (l.numPre * l.rowStride) < 2 ^ 32) (idx lastIdx : Nat)
    (hidx : idx < l.numPre * l.rowStride) (hlast : lastIdx < l.numPre * l.rowStride)
    (m : Memory V) (f : Field) (k : Nat)
    (hk : ∀ b, b < cfg.batchSize → k ≠ b * (l.numPre * l.rowStride) + idx) :
    execAll (removeSynapseCopies cfg l idx lastIdx) m f k = m f k := by
  apply execAll_other
  intro st hst heq
  obtain ⟨g, b, hb, rfl⟩ := removeSynapseCopies_form cfg l hB hfit idx lastIdx hidx hlast st hst
  simp only [Stmt.target, Prod.mk.injEq] at heq
  exact hk b hb heq.2.symm

theorem removeSynapse_eq (cfg : UpdateModel) (l : Lane) (s : GroupState V) (idx : Nat) (jj : Int)
    (hL : 1 ≤ s.rowLength l.idPre)
    (hrow : l.idPre * l.rowStride + s.rowLength l.idPre < 2 ^ 32) :
    removeSynapse cfg l idx jj s =
      ({ mem := execAll (removeSynapseCopies cfg l idx
            (l.idPre * l.rowStride + s.rowLength l.idPre - 1)) s.mem
         rowLength := fun q => if q = l.idPre then s.rowLength l.idPre - 1 else s.rowLength q },
        jj - 1) := by
  unfold removeSynapse
  have h1 : subU32 (addU32 (rowStartIdx l) (s.rowLength l.idPre)) 1
      = l.idPre * l.rowStride + s.rowLength l.idPre - 1 := by
    rw [rowStartIdx_eq l (by omega), addU32_eq _ _ hrow, subU32_eq _ _ hrow (by omega)]
  have h2 : (fun q => if q = l.idPre then subU32 (s.rowLength q) 1 else s.rowLength q)
      = fun q => if q = l.idPre then s.rowLength l.idPre - 1 else s.rowLength q := by
    funext q
    by_cases hq : q = l.idPre
    · subst hq
      rw [if_pos rfl, if_pos rfl, subU32_eq _ _ (by omega) hL]
    · rw [if_neg hq, if_neg hq]
  simp only [h1, h2]

/-- After `remove_synapse` on slot `j` of the row, slot `j` holds the synapse
that was in the last slot and the other slots hold what they held. -/
theorem removeSynapse_synapseAt (cfg : UpdateModel) (l : Lane) (hB : 1 ≤ cfg.batchSize)
    (hfit : cfg.batchSize * (l.numPre * l.rowStride) < 2 ^ 32) (hpre : l.idPre < l.numPre)
    (s : GroupState V) (j : Nat) (jj : Int) (hlen : s.rowLength l.idPre ≤ l.rowStride)
    (hj : j < s.rowLength l.idPre) (k : Nat) (hk : k < l.rowStride) :
    synapseAt cfg l (removeSynapse cfg l (l.idPre * l.rowStride + j) jj s).1.mem
        (l.idPre * l.rowStride + k)
      = if k = j then synapseAt cfg l s.mem (l.idPre * l.rowStride + s.rowLength l.idPre - 1)
        else synapseAt cfg l s.mem (l.idPre * l.rowStride + k) := by
  have hS := synStride_lt cfg l hB hfit
  have hend := row_end_le l hpre
  rw [removeSynapse_eq cfg l s _ jj (by omega) (by omega)]
  simp only
  have hidx : l.idPre * l.rowStride + j < l.numPre * l.rowStride := by omega
  have hlast : l.idPre * l.rowStride + s.rowLength l.idPre - 1 < l.numPre * l.rowStride := by
    omega
  by_cases hkj : k = j
  · subst hkj
    rw [if_pos rfl, ← removeSynapseCopies_values cfg l (l.idPre * l.rowStride + k) _ s.mem]
    unfold synapseAt
    rw [← @removeSynapseCopies_targets V cfg l (l.idPre * l.rowStride + k)
      (l.idPre * l.rowStride + s.rowLength l.idPre - 1), List.map_map]
    apply List.map_congr_left
    intro st hst
    exact removeSynapseCopies_exec cfg l hB hfit _ _ hidx hlast s.mem st hst
  · rw [if_neg hkj]
    unfold synapseAt
    apply List.map_congr_left
    intro c hc
    obtain ⟨b, hb, hcb⟩ := slotCells_form cfg l hB hfit _ (by omega) c hc
    apply removeSynapseCopies_frame cfg l hB hfit _ _ hidx hlast
    intro b2 hb2 heq
    rw [hcb] at heq
    have := (batch_unique _ _ _ _ _ (by omega) hidx heq).2
    omega

/-- C6: run on a row `id_pre` of length `L ≥ 1` at slot `idx = id_pre * rowStride + j`
of that row (`j < L ≤ rowStride`, the arrays of all batches indexable by an
`unsigned int`), the code emitted for `remove_synapse` copies the element at
`lastIdx = id_pre * rowStride + L - 1` into slot `idx` in the target array and
in every model variable, variable reference and dependent variable (for every
batch where the array is replicated), so slot `idx` holds the synapse that
was in the last slot; no other array element changes; the row length becomes
`L - 1` and the loop counter `j - 1`; and for `idx = lastIdx` the arrays are
unchanged. -/
theorem removeSynapse_moves_last (cfg : UpdateModel) (l : Lane) (s : GroupState V)
    (j : Nat) (jj : Int) (hB : 1 ≤ cfg.batchSize)
    (hfit : cfg.batchSize * (l.numPre * l.rowStride) < 2 ^ 32) (hpre : l.idPre < l.numPre)
    (hlen : s.rowLength l.idPre ≤ l.rowStride) (hj : j < s.rowLength l.idPre) :
    (∀ st ∈ (removeSynapseCopies cfg l (l.idPre * l.rowStride + j)
          (l.idPre * l.rowStride + s.rowLength l.idPre - 1) : List (Stmt V)),
        (removeSynapse cfg l (l.idPre * l.rowStride + j) jj s).1.mem st.target.1 st.target.2
          = st.value s.mem)
    ∧ (removeSynapse cfg l (l.idPre * l.rowStride + j) jj s).1.mem Field.ind
          (l.idPre * l.rowStride + j)
        = s.mem Field.ind (l.idPre * l.rowStride + s.rowLength l.idPre - 1)
    ∧ (∀ i, i < cfg.numVars →
        (removeSynapse cfg l (l.idPre * l.rowStride + j) jj s).1.mem (Field.var i)
            (l.idPre * l.rowStride + j)
          = s.mem (Field.var i) (l.idPre * l.rowStride + s.rowLength l.idPre - 1))
    ∧ (∀ i, i < cfg.numVarRefs →
        (removeSynapse cfg l (l.idPre * l.rowStride + j) jj s).1.mem (Field.varRef i)
            (l.idPre * l.rowStride + j)
          = s.mem (Field.varRef i) (l.idPre * l.rowStride + s.rowLength l.idPre - 1))
    ∧ (∀ i, i < cfg.numDependentVars →
        (removeSynapse cfg l (l.idPre * l.rowStride + j) jj s).1.mem (Field.dependentVar i)
            (l.idPre * l.rowStride + j)
          = s.mem (Field.dependentVar i) (l.idPre * l.rowStride + s.rowLength l.idPre - 1))
    ∧ synapseAt cfg l (removeSynapse cfg l (l.idPre * l.rowStride + j) jj s).1.mem
          (l.idPre * l.rowStride + j)
        = synapseAt cfg l s.mem (l.idPre * l.rowStride + s.rowLength l.idPre - 1)
    ∧ (∀ f k, (∀ b, b < cfg.batchSize →
          k ≠ b * (l.numPre * l.rowStride) + (l.idPre * l.rowStride + j)) →
        (removeSynapse cfg l (l.idPre * l.rowStride + j) jj s).1.mem f k = s.mem f k)
    ∧ (removeSynapse cfg l (l.idPre * l.rowStride + j) jj s).1.rowLength l.idPre
        = s.rowLength l.idPre - 1
    ∧ (removeSynapse cfg l (l.idPre * l.rowStride + j) jj s).2 = jj - 1
    ∧ (j + 1 = s.rowLength l.idPre →
        (removeSynapse cfg l (l.idPre * l.rowStride + j) jj s).1.mem = s.mem) := by
  have hS := synStride_lt cfg l hB hfit
  have hend := row_end_le l hpre
  have hidx : l.idPre * l.rowStride + j < l.numPre * l.rowStride := by omega
  have hlast : l.idPre * l.rowStride + s.rowLength l.idPre - 1 < l.numPre * l.rowStride := by
    omega
  have hsyn := removeSynapse_synapseAt cfg l hB hfit hpre s j jj hlen hj j (by omega)
  rw [if_pos rfl] at hsyn
  have hall : ∀ st ∈ (removeSynapseCopies cfg l (l.idPre * l.rowStride + j)
      (l.idPre * l.rowStride + s.rowLength l.idPre - 1) : List (Stmt V)),
      execAll (removeSynapseCopies cfg l (l.idPre * l.rowStride + j)
        (l.idPre * l.rowStride + s.rowLength l.idPre - 1)) s.mem st.target.1 st.target.2
        = st.value s.mem :=
    fun st hst => removeSynapseCopies_exec cfg l hB hfit _ _ hidx hlast s.mem st hst
  have hbatch0 : batchIdx l 0 (l.idPre * l.rowStride + j) = l.idPre * l.rowStride + j :=
    batchIdx_zero l _ (by omega)
  have hbatch0l : batchIdx l 0 (l.idPre * l.rowStride + s.rowLength l.idPre - 1)
      = l.idPre * l.rowStride + s.rowLength l.idPre - 1 := batchIdx_zero l _ (by omega)
  rw [removeSynapse_eq cfg l s _ jj (by omega) (by omega)] at hsyn ⊢
  simp only at hsyn ⊢
  refine ⟨hall, ?_, ?_, ?_, ?_, hsyn, ?_, by simp, trivial, ?_⟩
  · exact hall (Stmt.copy Field.ind _ _) ((mem_removeSynapseCopies ..).2 (Or.inl rfl))
  · intro i hi
    exact hall (Stmt.copy (Field.var i) _ _)
      ((mem_removeSynapseCopies ..).2 (Or.inr (Or.inl ⟨i, hi, rfl⟩)))
  · intro i hi
    by_cases hd : cfg.batchSize > 1 ∧ cfg.varRefDuplicated i = true
    · have := hall (Stmt.copy (Field.varRef i) (batchIdx l 0 _) (batchIdx l 0 _))
        ((mem_removeSynapseCopies ..).2 (Or.inr (Or.inr (Or.inl
          ⟨i, hi, Or.inl ⟨hd, 0, by omega, rfl⟩⟩))))
      simpa only [Stmt.target, Stmt.value, hbatch0, hbatch0l] using this
    · exact hall (Stmt.copy (Field.varRef i) _ _)
        ((mem_removeSynapseCopies ..).2 (Or.inr (Or.inr (Or.inl ⟨i, hi, Or.inr ⟨hd, rfl⟩⟩))))
  · intro i hi
    by_cases hd : cfg.batchSize > 1 ∧ cfg.dependentVarDuplicated i = true
    · have := hall (Stmt.copy (Field.dependentVar i) (batchIdx l 0 _) (batchIdx l 0 _))
        ((mem_removeSynapseCopies ..).2 (Or.inr (Or.inr (Or.inr
          ⟨i, hi, Or.inl ⟨hd, 0, by omega, rfl⟩⟩))))
      simpa only [Stmt.target, Stmt.value, hbatch0, hbatch0l] using this
    · exact hall (Stmt.copy (Field.dependentVar i) _ _)
        ((mem_removeSynapseCopies ..).2 (Or.inr (Or.inr (Or.inr ⟨i, hi, Or.inr ⟨hd, rfl⟩⟩))))
  · intro f k hk
    exact removeSynapseCopies_frame cfg l hB hfit _ _ hidx hlast s.mem f k hk
  · intro hjl
    have he : l.idPre * l.rowStride + s.rowLength l.idPre - 1 = l.idPre * l.rowStride + j := by
      omega
    rw [he]
    apply execAll_self_copies
    intro x hx
    obtain ⟨f, b, _, rfl⟩ := removeSynapseCopies_form cfg l hB hfit _ _ hidx hidx x hx
    rfl

/-- Witness for C6: removing slot 4 of the row `[4, 5]` of source index 1 moves
the synapse of slot 5 to slot 4. -/
theorem removeSynapse_moves_last_witness :
    (removeSynapse exampleModel exampleLane 4 0 exampleState).1.mem Field.ind 4 = 105
    ∧ synapseAt exampleModel exampleLane
        (removeSynapse exampleModel exampleLane 4 0 exampleState).1.mem 4
        = [105, 205, 305, 317, 325, 405, 417]
    ∧ (removeSynapse exampleModel exampleLane 4 0 exampleState).1.rowLength 1 = 1 :=
  ⟨(removeSynapse_moves_last exampleModel exampleLane exampleState 0 0 (by decide) (by decide)
      (by decide) (by decide) (by decide)).2.1,
   (removeSynapse_moves_last exampleModel exampleLane exampleState 0 0 (by decide) (by decide)
      (by decide) (by decide) (by decide)).2.2.2.2.2.1.trans (by decide),
   (removeSynapse_moves_last exampleModel exampleLane exampleState 0 0 (by decide) (by decide)
      (by decide) (by decide) (by decide)).2.2.2.2.2.2.2.1⟩

theorem addSynapseStores_varRef_single [Zero V] (cfg : UpdateModel) (l : Lane) (n : Nat)
    (args : Nat → V) (i : Nat) (hd : ¬ (cfg.batchSize > 1 ∧ cfg.varRefDuplicated i = true))
    (st : Stmt V) (h : st ∈ addSynapseStores cfg l n args) (hf : st.target.1 = Field.varRef i) :
    st.target.2 = n := by
  rw [mem_addSynapseStores] at h
  rcases h with rfl | ⟨i2, _, rfl⟩ | ⟨i2, _, ⟨hd2, b, hb, rfl⟩ | ⟨_, rfl⟩⟩ |
    ⟨i2, _, ⟨_, b, hb, rfl⟩ | ⟨_, rfl⟩⟩
  · simp [Stmt.target] at hf
  · simp [Stmt.target] at hf
  · simp only [Stmt.target, Field.varRef.injEq] at hf
    subst hf
    exact absurd hd2 hd
  · rfl
  · simp [Stmt.target] at hf
  · simp [Stmt.target] at hf

theorem addSynapseStores_dependentVar_single [Zero V] (cfg : UpdateModel) (l : Lane) (n : Nat)
    (args : Nat → V) (i : Nat)
    (hd : ¬ (cfg.batchSize > 1 ∧ cfg.dependentVarDuplicated i = true))
    (st : Stmt V) (h : st ∈ addSynapseStores cfg l n args)
    (hf : st.target.1 = Field.dependentVar i) : st.target.2 = n := by
  rw [mem_addSynapseStores] at h
  rcases h with rfl | ⟨i2, _, rfl⟩ | ⟨i2, _, ⟨_, b, hb, rfl⟩ | ⟨_, rfl⟩⟩ |
    ⟨i2, _, ⟨hd2, b, hb, rfl⟩ | ⟨_, rfl⟩⟩
  · simp [Stmt.target] at hf
  · simp [Stmt.target] at hf
  · simp [Stmt.target] at hf
  · simp [Stmt.target] at hf
  · simp only [Stmt.target, Field.dependentVar.injEq] at hf
    subst hf
    exact absurd hd2 hd
  · rfl

theorem removeSynapseCopies_varRef_single (cfg : UpdateModel) (l : Lane) (idx lastIdx : Nat)
    (i : Nat) (hd : ¬ (cfg.batchSize > 1 ∧ cfg.varRefDuplicated i = true))
    (st : Stmt V) (h : st ∈ (removeSynapseCopies cfg l idx lastIdx : List (Stmt V)))
    (hf : st.target.1 = Field.varRef i) : st.target.2 = idx := by
  rw [mem_removeSynapseCopies] at h
  rcases h with rfl | ⟨i2, _, rfl⟩ | ⟨i2, _, ⟨hd2, b, hb, rfl⟩ | ⟨_, rfl⟩⟩ |
    ⟨i2, _, ⟨_, b, hb, rfl⟩ | ⟨_, rfl⟩⟩
  · simp [Stmt.target] at hf
  · simp [Stmt.target] at hf
  · simp only [Stmt.target, Field.varRef.injEq] at hf
    subst hf
    exact absurd hd2 hd
  · rfl
  · simp [Stmt.target] at hf
  · simp [Stmt.target] at hf

theorem removeSynapseCopies_dependentVar_single (cfg : UpdateModel) (l : Lane)
    (idx lastIdx : Nat) (i : Nat)
    (hd : ¬ (cfg.batchSize > 1 ∧ cfg.dependentVarDuplicated i = true))
    (st : Stmt V) (h : st ∈ (removeSynapseCopies cfg l idx lastIdx : List (Stmt V)))
    (hf : st.target.1 = Field.dependentVar i) : st.target.2 = idx := by
  rw [mem_removeSynapseCopies] at h
  rcases h with rfl | ⟨i2, _, rfl⟩ | ⟨i2, _, ⟨_, b, hb, rfl⟩ | ⟨_, rfl⟩⟩ |
    ⟨i2, _, ⟨hd2, b, hb, rfl⟩ | ⟨_, rfl⟩⟩
  · simp [Stmt.target] at hf
  · simp [Stmt.target] at hf
  · simp [Stmt.target] at hf
  · simp [Stmt.target] at hf
  · simp only [Stmt.target, Field.dependentVar.injEq] at hf
    subst hf
    exact absurd hd2 hd
  · rfl

/-- The code of `add_synapse` only assigns to elements of slot `newIdx`. -/
theorem addSynapseStores_frame [Zero V] (cfg : UpdateModel) (l : Lane) (hB : 1 ≤ cfg.batchSize)
    (hfit : cfg.batchSize * (l.numPre * l.rowStride) < 2 ^ 32) (n : Nat)
    (hn : n < l.numPre * l.rowStride) (args : Nat → V) (m : Memory V) (f : Field) (k : Nat)
    (hk : ∀ b, b < cfg.batchSize → k ≠ b * (l.numPre * l.rowStride) + n) :
    execAll (addSynapseStores cfg l n args) m f k = m f k := by
  apply execAll_other
  intro st hst heq
  obtain ⟨g, b, v, hb, rfl⟩ := addSynapseStores_form cfg l hB hfit n hn args st hst
  simp only [Stmt.target, Prod.mk.injEq] at heq
  exact hk b hb heq.2.symm

/-- C8: with `synStride = num_pre * rowStride` (the arrays of all batches
indexable by an `unsigned int`): when the batch size `B` is above 1 and
a variable reference or dependent variable is duplicated, `add_synapse`
stores the one value (the argument, or `0` for a dependent variable) at index
`b * synStride + newIdx` for every batch `b < B` and nowhere else in that
array, and `remove_synapse` copies index `b * synStride + lastIdx` to
`b * synStride + idx` for every such `b` and changes nothing else in it;
when `B = 1` or the array is not duplicated only index `newIdx` (or `idx`)
of it is assigned; and the replicated loop for `B = 1` is that single
assignment. -/
theorem batch_replication [Zero V] (cfg : UpdateModel) (l : Lane) (args : Nat → V)
    (s : GroupState V) (j : Nat) (jj : Int) (hB : 1 ≤ cfg.batchSize)
    (hfit : cfg.batchSize * (l.numPre * l.rowStride) < 2 ^ 32) (hpre : l.idPre < l.numPre) :
    synStride l = l.numPre * l.rowStride
    ∧ (s.rowLength l.idPre < l.rowStride →
        ∃ s2, addSynapse cfg l args s = .ok s2 ∧
          ∀ newIdx, newIdx = l.idPre * l.rowStride + s.rowLength l.idPre →
            (∀ i, i < cfg.numVarRefs →
              ((cfg.batchSize > 1 ∧ cfg.varRefDuplicated i = true) →
                (∀ b, b < cfg.batchSize →
                  s2.mem (Field.varRef i) (b * (l.numPre * l.rowStride) + newIdx)
                    = args (1 + cfg.numVars + i))
                ∧ (∀ k, (∀ b, b < cfg.batchSize → k ≠ b * (l.numPre * l.rowStride) + newIdx) →
                  s2.mem (Field.varRef i) k = s.mem (Field.varRef i) k))
              ∧ (¬ (cfg.batchSize > 1 ∧ cfg.varRefDuplicated i = true) →
                s2.mem (Field.varRef i) newIdx = args (1 + cfg.numVars + i)
                ∧ (∀ k, k ≠ newIdx → s2.mem (Field.varRef i) k = s.mem (Field.varRef i) k)))
            ∧ (∀ i, i < cfg.numDependentVars →
              ((cfg.batchSize > 1 ∧ cfg.dependentVarDuplicated i = true) →
                (∀ b, b < cfg.batchSize →
                  s2.mem (Field.dependentVar i) (b * (l.numPre * l.rowStride) + newIdx) = 0)
                ∧ (∀ k, (∀ b, b < cfg.batchSize → k ≠ b * (l.numPre * l.rowStride) + newIdx) →
                  s2.mem (Field.dependentVar i) k = s.mem (Field.dependentVar i) k))
              ∧ (¬ (cfg.batchSize > 1 ∧ cfg.dependentVarDuplicated i = true) →
                s2.mem (Field.dependentVar i) newIdx = 0
                ∧ (∀ k, k ≠ newIdx →
                  s2.mem (Field.dependentVar i) k = s.mem (Field.dependentVar i) k))))
    ∧ (j < s.rowLength l.idPre → s.rowLength l.idPre ≤ l.rowStride →
        ∀ s2 idx lastIdx, s2 = (removeSynapse cfg l (l.idPre * l.rowStride + j) jj s).1 →
          idx = l.idPre * l.rowStride + j →
          lastIdx = l.idPre * l.rowStride + s.rowLength l.idPre - 1 →
            (∀ i, i < cfg.numVarRefs →
              ((cfg.batchSize > 1 ∧ cfg.varRefDuplicated i = true) →
                (∀ b, b < cfg.batchSize →
                  s2.mem (Field.varRef i) (b * (l.numPre * l.rowStride) + idx)
                    = s.mem (Field.varRef i) (b * (l.numPre * l.rowStride) + lastIdx))
                ∧ (∀ k, (∀ b, b < cfg.batchSize → k ≠ b * (l.numPre * l.rowStride) + idx) →
                  s2.mem (Field.varRef i) k = s.mem (Field.varRef i) k))
              ∧ (¬ (cfg.batchSize > 1 ∧ cfg.varRefDuplicated i = true) →
                s2.mem (Field.varRef i) idx = s.mem (Field.varRef i) lastIdx
                ∧ (∀ k, k ≠ idx → s2.mem (Field.varRef i) k = s.mem (Field.varRef i) k)))
            ∧ (∀ i, i < cfg.numDependentVars →
              ((cfg.batchSize > 1 ∧ cfg.dependentVarDuplicated i = true) →
                (∀ b, b < cfg.batchSize →
                  s2.mem (Field.dependentVar i) (b * (l.numPre * l.rowStride) + idx)
                    = s.mem (Field.dependentVar i) (b * (l.numPre * l.rowStride) + lastIdx))
                ∧ (∀ k, (∀ b, b < cfg.batchSize → k ≠ b * (l.numPre * l.rowStride) + idx) →
                  s2.mem (Field.dependentVar i) k = s.mem (Field.dependentVar i) k))
              ∧ (¬ (cfg.batchSize > 1 ∧ cfg.dependentVarDuplicated i = true) →
                s2.mem (Field.dependentVar i) idx = s.mem (Field.dependentVar i) lastIdx
                ∧ (∀ k, k ≠ idx →
                  s2.mem (Field.dependentVar i) k = s.mem (Field.dependentVar i) k))))
    ∧ (∀ (f : Field) (i : Nat) (v : V), i < 2 ^ 32 →
        storeBatches l 1 f i v = [Stmt.store f i v])
    ∧ (∀ (f : Field) (idx lastIdx : Nat), idx < 2 ^ 32 → lastIdx < 2 ^ 32 →
        (copyBatches l 1 f idx lastIdx : List (Stmt V)) = [Stmt.copy f idx lastIdx]) := by
  have hS := synStride_lt cfg l hB hfit
  have hend := row_end_le l hpre
  refine ⟨synStride_eq cfg l hB hfit, ?_, ?_, ?_, ?_⟩
  · intro hL
    refine ⟨_, addSynapse_eq cfg l args s hL (by omega), ?_⟩
    intro n hn
    rw [← hn]
    have hnS : n < l.numPre * l.rowStride := by omega
    simp only
    refine ⟨?_, ?_⟩
    · intro i hi
      refine ⟨?_, ?_⟩
      · intro hd
        refine ⟨?_, ?_⟩
        · intro b hb
          have := addSynapseStores_exec cfg l n args s.mem
            (Stmt.store (Field.varRef i) (batchIdx l b n) (args (1 + cfg.numVars + i)))
            ((mem_addSynapseStores ..).2 (Or.inr (Or.inr (Or.inl
              ⟨i, hi, Or.inl ⟨hd, b, hb, rfl⟩⟩))))
          simpa only [Stmt.target, addSynapseValue, batchIdx_eq cfg l hB hfit b n hb hnS]
            using this
        · intro k hk
          exact addSynapseStores_frame cfg l hB hfit n hnS args s.mem _ k hk
      · intro hd
        refine ⟨?_, ?_⟩
        · have := addSynapseStores_exec cfg l n args s.mem
            (Stmt.store (Field.varRef i) n (args (1 + cfg.numVars + i)))
            ((mem_addSynapseStores ..).2 (Or.inr (Or.inr (Or.inl ⟨i, hi, Or.inr ⟨hd, rfl⟩⟩))))
          simpa only [Stmt.target, addSynapseValue] using this
        · intro k hk
          apply execAll_other
          intro st hst heq
          have := addSynapseStores_varRef_single cfg l n args i hd st hst
            (by rw [heq])
          rw [heq] at this
          exact hk this
    · intro i hi
      refine ⟨?_, ?_⟩
      · intro hd
        refine ⟨?_, ?_⟩
        · intro b hb
          have := addSynapseStores_exec cfg l n args s.mem
            (Stmt.store (Field.dependentVar i) (batchIdx l b n) 0)
            ((mem_addSynapseStores ..).2 (Or.inr (Or.inr (Or.inr
              ⟨i, hi, Or.inl ⟨hd, b, hb, rfl⟩⟩))))
          simpa only [Stmt.target, addSynapseValue, batchIdx_eq cfg l hB hfit b n hb hnS]
            using this
        · intro k hk
          exact addSynapseStores_frame cfg l hB hfit n hnS args s.mem _ k hk
      · intro hd
        refine ⟨?_, ?_⟩
        · have := addSynapseStores_exec cfg l n args s.mem
            (Stmt.store (Field.dependentVar i) n 0)
            ((mem_addSynapseStores ..).2 (Or.inr (Or.inr (Or.inr ⟨i, hi, Or.inr ⟨hd, rfl⟩⟩))))
          simpa only [Stmt.target, addSynapseValue] using this
        · intro k hk
          apply execAll_other
          intro st hst heq
          have := addSynapseStores_dependentVar_single cfg l n args i hd st hst
            (by rw [heq])
          rw [heq] at this
          exact hk this
  · intro hj hlen s2 idx lastIdx hs2 hidxe hlaste
    have hidx : idx < l.numPre * l.rowStride := by omega
    have hlast : lastIdx < l.numPre * l.rowStride := by omega
    rw [removeSynapse_eq cfg l s _ jj (by omega) (by omega), ← hidxe, ← hlaste] at hs2
    subst hs2
    simp only
    refine ⟨?_, ?_⟩
    · intro i hi
      refine ⟨?_, ?_⟩
      · intro hd
        refine ⟨?_, ?_⟩
        · intro b hb
          have := removeSynapseCopies_exec cfg l hB hfit idx lastIdx hidx hlast s.mem
            (Stmt.copy (Field.varRef i) (batchIdx l b idx) (batchIdx l b lastIdx))
            ((mem_removeSynapseCopies ..).2 (Or.inr (Or.inr (Or.inl
              ⟨i, hi, Or.inl ⟨hd, b, hb, rfl⟩⟩))))
          simpa only [Stmt.target, Stmt.value, batchIdx_eq cfg l hB hfit b idx hb hidx,
            batchIdx_eq cfg l hB hfit b lastIdx hb hlast] using this
        · intro k hk
          exact removeSynapseCopies_frame cfg l hB hfit idx lastIdx hidx hlast s.mem _ k hk
      · intro hd
        refine ⟨?_, ?_⟩
        · exact removeSynapseCopies_exec cfg l hB hfit idx lastIdx hidx hlast s.mem
            (Stmt.copy (Field.varRef i) idx lastIdx)
            ((mem_removeSynapseCopies ..).2 (Or.inr (Or.inr (Or.inl ⟨i, hi, Or.inr ⟨hd, rfl⟩⟩))))
        · intro k hk
          apply execAll_other
          intro st hst heq
          have := removeSynapseCopies_varRef_single cfg l idx lastIdx i hd st hst (by rw [heq])
          rw [heq] at this
          exact hk this
    · intro i hi
      refine ⟨?_, ?_⟩
      · intro hd
        refine ⟨?_, ?_⟩
        · intro b hb
          have := removeSynapseCopies_exec cfg l hB hfit idx lastIdx hidx hlast s.mem
            (Stmt.copy (Field.dependentVar i) (batchIdx l b idx) (batchIdx l b lastIdx))
            ((mem_removeSynapseCopies ..).2 (Or.inr (Or.inr (Or.inr
              ⟨i, hi, Or.inl ⟨hd, b, hb, rfl⟩⟩))))
          simpa only [Stmt.target, Stmt.value, batchIdx_eq cfg l hB hfit b idx hb hidx,
            batchIdx_eq cfg l hB hfit b lastIdx hb hlast] using this
        · intro k hk
          exact removeSynapseCopies_frame cfg l hB hfit idx lastIdx hidx hlast s.mem _ k hk
      · intro hd
        refine ⟨?_, ?_⟩
        · exact removeSynapseCopies_exec cfg l hB hfit idx lastIdx hidx hlast s.mem
            (Stmt.copy (Field.dependentVar i) idx lastIdx)
            ((mem_removeSynapseCopies ..).2 (Or.inr (Or.inr (Or.inr ⟨i, hi, Or.inr ⟨hd, rfl⟩⟩))))
        · intro k hk
          apply execAll_other
          intro st hst heq
          have := removeSynapseCopies_dependentVar_single cfg l idx lastIdx i hd st hst (by rw [heq])
          rw [heq] at this
          exact hk this
  · intro f i v hi
    unfold storeBatches
    rw [show List.range 1 = [0] from rfl, List.map_cons, List.map_nil, batchIdx_zero l i hi]
  · intro f idx lastIdx hidx hlast
    unfold copyBatches
    rw [show List.range 1 = [0] from rfl, List.map_cons, List.map_nil, batchIdx_zero l idx hidx,
      batchIdx_zero l lastIdx hlast]

/-- Witness for C8: with batch size 2 and `synStride = 12`, `add_synapse`
stores the argument of the duplicated variable reference 0 at indices 6 and
18. -/
theorem batch_replication_witness :
    synStride exampleLane = 12
    ∧ ∃ s2, addSynapse exampleModel exampleLane exampleArgs exampleState = .ok s2
        ∧ s2.mem (Field.varRef 0) 6 = 1002 ∧ s2.mem (Field.varRef 0) 18 = 1002 := by
  have h := batch_replication exampleModel exampleLane exampleArgs exampleState 0 0
    (by decide) (by decide) (by decide)
  refine ⟨h.1, ?_⟩
  obtain ⟨s2, hs2, hall⟩ := h.2.1 (by decide)
  have hdup := ((hall 6 rfl).1 0 (by decide)).1 ⟨by decide, rfl⟩
  exact ⟨s2, hs2, hdup.1 0 (by decide), hdup.1 1 (by decide)⟩

theorem row_end_le_mul (q n rs : Nat) (h : q < n) : q * rs + rs ≤ n * rs := by
  calc q * rs + rs = (q + 1) * rs := by ring
    _ ≤ n * rs := Nat.mul_le_mul_right _ h

/-- An index in the row of another source index, in any batch, is not an index
of slot `idPre * rowStride + x` in any batch. -/
theorem other_row_ne (B numPre rs idPre x q b off : Nat) (hq : q < numPre) (hqne : q ≠ idPre)
    (hpre : idPre < numPre) (hx : x < rs) (hoff : off < rs) :
    ∀ b2, b2 < B → b * (numPre * rs) + (q * rs + off) ≠ b2 * (numPre * rs) + (idPre * rs + x) := by
  intro b2 _ heq
  have h1 := row_end_le_mul q numPre rs hq
  have h2 := row_end_le_mul idPre numPre rs hpre
  have h3 := (batch_unique (numPre * rs) b b2 (q * rs + off) (idPre * rs + x) (by omega)
    (by omega) heq).2
  exact hqne (batch_unique rs q idPre off x hoff hx h3).1

/-- C10: for a source index `id_pre < num_pre` (the arrays of all batches
indexable by an `unsigned int`), every index assigned by `add_synapse` under
its precondition (row length below the row stride) and by `remove_synapse` at
slot `j` of a row of length `L` with `j < L ≤ rowStride` is
`b * synStride + r` for a batch `b` and an `r` in
`[id_pre * rowStride, (id_pre + 1) * rowStride)`; so the rows of every other
source index keep their contents in every batch and array, and the lengths
of the other rows stay as they were. -/
theorem row_mutation_frame [Zero V] (cfg : UpdateModel) (l : Lane) (args : Nat → V)
    (s : GroupState V) (j : Nat) (jj : Int) (hB : 1 ≤ cfg.batchSize)
    (hfit : cfg.batchSize * (l.numPre * l.rowStride) < 2 ^ 32) (hpre : l.idPre < l.numPre) :
    (s.rowLength l.idPre < l.rowStride →
      ∃ s2, addSynapse cfg l args s = .ok s2
        ∧ s2.mem = execAll
            (addSynapseStores cfg l (l.idPre * l.rowStride + s.rowLength l.idPre) args) s.mem
        ∧ (∀ st ∈ addSynapseStores cfg l (l.idPre * l.rowStride + s.rowLength l.idPre) args,
            ∃ b r, b < cfg.batchSize ∧ l.idPre * l.rowStride ≤ r
              ∧ r < (l.idPre + 1) * l.rowStride
              ∧ st.target.2 = b * (l.numPre * l.rowStride) + r)
        ∧ (∀ f q b off, q < l.numPre → q ≠ l.idPre → b < cfg.batchSize → off < l.rowStride →
            s2.mem f (b * (l.numPre * l.rowStride) + (q * l.rowStride + off))
              = s.mem f (b * (l.numPre * l.rowStride) + (q * l.rowStride + off)))
        ∧ (∀ q, q ≠ l.idPre → s2.rowLength q = s.rowLength q))
    ∧ (j < s.rowLength l.idPre → s.rowLength l.idPre ≤ l.rowStride →
      ∀ s2, s2 = (removeSynapse cfg l (l.idPre * l.rowStride + j) jj s).1 →
        s2.mem = execAll (removeSynapseCopies cfg l (l.idPre * l.rowStride + j)
            (l.idPre * l.rowStride + s.rowLength l.idPre - 1)) s.mem
        ∧ (∀ st ∈ (removeSynapseCopies cfg l (l.idPre * l.rowStride + j)
              (l.idPre * l.rowStride + s.rowLength l.idPre - 1) : List (Stmt V)),
            ∃ b r, b < cfg.batchSize ∧ l.idPre * l.rowStride ≤ r
              ∧ r < (l.idPre + 1) * l.rowStride
              ∧ st.target.2 = b * (l.numPre * l.rowStride) + r)
        ∧ (∀ f q b off, q < l.numPre → q ≠ l.idPre → b < cfg.batchSize → off < l.rowStride →
            s2.mem f (b * (l.numPre * l.rowStride) + (q * l.rowStride + off))
              = s.mem f (b * (l.numPre * l.rowStride) + (q * l.rowStride + off)))
        ∧ (∀ q, q ≠ l.idPre → s2.rowLength q = s.rowLength q)) := by
  have hS := synStride_lt cfg l hB hfit
  have hend := row_end_le l hpre
  have hrow : (l.idPre + 1) * l.rowStride = l.idPre * l.rowStride + l.rowStride := by ring
  refine ⟨?_, ?_⟩
  · intro hL
    refine ⟨_, addSynapse_eq cfg l args s hL (by omega), rfl, ?_, ?_, ?_⟩
    · intro st hst
      obtain ⟨f, b, v, hb, rfl⟩ := addSynapseStores_form cfg l hB hfit _ (by omega) args st hst
      exact ⟨b, _, hb, by omega, by omega, rfl⟩
    · intro f q b off hq hqne hb hoff
      exact addSynapseStores_frame cfg l hB hfit _ (by omega) args s.mem f _
        (other_row_ne cfg.batchSize l.numPre l.rowStride l.idPre _ q b off hq hqne hpre hL hoff)
    · intro q hq
      simp only [if_neg hq]
  · intro hj hlen s2 hs2
    have hidx : l.idPre * l.rowStride + j < l.numPre * l.rowStride := by omega
    have hlast : l.idPre * l.rowStride + s.rowLength l.idPre - 1 < l.numPre * l.rowStride := by
      omega
    rw [removeSynapse_eq cfg l s _ jj (by omega) (by omega)] at hs2
    subst hs2
    refine ⟨rfl, ?_, ?_, ?_⟩
    · intro st hst
      obtain ⟨f, b, hb, rfl⟩ := removeSynapseCopies_form cfg l hB hfit _ _ hidx hlast st hst
      exact ⟨b, _, hb, by omega, by omega, rfl⟩
    · intro f q b off hq hqne hb hoff
      exact removeSynapseCopies_frame cfg l hB hfit _ _ hidx hlast s.mem f _
        (other_row_ne cfg.batchSize l.numPre l.rowStride l.idPre _ q b off hq hqne hpre
          (by omega) hoff)
    · intro q hq
      simp only [if_neg hq]

/-- Witness for C10: `add_synapse` on the row of source index 1 leaves slot 9
(row of source index 2) in batch 1 and the length of row 2 as they were. -/
theorem row_mutation_frame_witness :
    ∃ s2, addSynapse exampleModel exampleLane exampleArgs exampleState = .ok s2
      ∧ s2.mem (Field.varRef 0) 21 = exampleState.mem (Field.varRef 0) 21
      ∧ s2.rowLength 2 = exampleState.rowLength 2 := by
  obtain ⟨s2, hs2, _, _, hrows, hlens⟩ :=
    (row_mutation_frame exampleModel exampleLane exampleArgs exampleState 0 0
      (by decide) (by decide) (by decide)).1 (by decide)
  exact ⟨s2, hs2, hrows (Field.varRef 0) 2 1 1 (by decide) (by decide) (by decide) (by decide),
    hlens 2 (by decide)⟩

end RowProofs



/-! ## Environments -/

section EnvironmentProofs

variable {τ : Type}

theorem lookup_append_new {β : Type} (m : List (String × β)) (name : String) (v : β)
    (h : m.lookup name = none) : (m ++ [(name, v)]).lookup name = some v := by
  rw [List.lookup_append, h]
  simp

theorem lookup_append_other {β : Type} (m : List (String × β)) (name other : String) (v : β)
    (h : other ≠ name) : (m ++ [(name, v)]).lookup other = m.lookup other := by
  rw [List.lookup_append]
  have hb : (other == name) = false := by simpa using h
  cases hm : m.lookup other with
  | none => simp [List.lookup_cons, hb]
  | some x => simp

theorem getName_external_cons (e : EnvironmentExternal τ) (context : List (Environment τ))
    (name : String) :
    getName (Environment.external e :: context) name
      = e.getName name context (getName context name) := rfl

theorem getName_substitute_cons (s : EnvironmentSubstitute) (context : List (Environment τ))
    (name : String) :
    getName (Environment.substitute s :: context) name
      = s.getName name context (getName context name) := rfl

theorem getName_length (chain : List (Environment τ)) (name : String) :
    (getName chain name).state.length = chain.length := by
  induction chain with
  | nil => rfl
  | cons e context ih =>
    cases e with
    | external e =>
      simp only [getName, EnvironmentExternal.getName]
      cases e.environment.lookup name with
      | none =>
        simp only
        split_ifs with hc
        · rw [List.isEmpty_iff] at hc
          subst hc
          rfl
        · simp only [List.length_cons, ih]
      | some b => rfl
    | substitute s =>
      simp only [getName, EnvironmentSubstitute.getName]
      cases s.varSubstitutions.lookup name with
      | none => simp only [List.length_cons, ih]
      | some b => rfl

/-- C15: for a chain of `EnvironmentExternal` environments that ends at an
output stream and every name, `getName` returns the value bound to the name
in the innermost environment of the chain that binds it, throws the
`Undefined identifier` error when no environment binds it, throws exactly
then, and leaves the chain as it was. -/
theorem getName_external_chain (es : List (EnvironmentExternal τ)) (name : String)
    (hne : es ≠ []) :
    ((∀ e ∈ es, e.environment.lookup name = none) →
      getName (es.map Environment.external) name =
        { result := .error ("Undefined identifier \x27" ++ name ++ "\x27")
          state := es.map Environment.external })
    ∧ (∀ es1 e es2 t v, es = es1 ++ e :: es2 →
        (∀ e1 ∈ es1, e1.environment.lookup name = none) →
        e.environment.lookup name = some (t, v) →
        getName (es.map Environment.external) name =
          { result := .ok v, state := es.map Environment.external })
    ∧ ((∃ msg, (getName (es.map Environment.external) name).result = .error msg) ↔
        ∀ e ∈ es, e.environment.lookup name = none) := by
  have hnone : ∀ (l : List (EnvironmentExternal τ)), l ≠ [] →
      (∀ e ∈ l, e.environment.lookup name = none) →
      getName (l.map Environment.external) name =
        { result := .error ("Undefined identifier \x27" ++ name ++ "\x27")
          state := l.map Environment.external } := by
    intro l
    induction l with
    | nil => intro h; exact absurd rfl h
    | cons e rest ih =>
      intro _ hall
      have he := hall e (List.mem_cons_self _ _)
      cases rest with
      | nil => simp [getName, EnvironmentExternal.getName, he]
      | cons e2 rest2 =>
        have := ih (by simp) (fun x hx => hall x (List.mem_cons_of_mem _ hx))
        simp only [List.map_cons] at this ⊢
        rw [getName_external_cons, this]
        simp [EnvironmentExternal.getName, he]
  have hsome : ∀ (es1 : List (EnvironmentExternal τ)) e es2 t v,
      (∀ e1 ∈ es1, e1.environment.lookup name = none) →
      e.environment.lookup name = some (t, v) →
      getName ((es1 ++ e :: es2).map Environment.external) name =
        { result := .ok v, state := (es1 ++ e :: es2).map Environment.external } := by
    intro es1
    induction es1 with
    | nil =>
      intro e es2 t v _ he
      simp [getName, EnvironmentExternal.getName, he]
    | cons e1 rest ih =>
      intro e es2 t v hall he
      have h1 := hall e1 (List.mem_cons_self _ _)
      have := ih e es2 t v (fun x hx => hall x (List.mem_cons_of_mem _ hx)) he
      cases hrest : rest ++ e :: es2 with
      | nil => simp at hrest
      | cons c cs =>
        rw [hrest] at this
        simp only [List.cons_append, hrest, List.map_cons] at this ⊢
        rw [getName_external_cons, this]
        simp [EnvironmentExternal.getName, h1]
  refine ⟨hnone es hne, ?_, ?_⟩
  · intro es1 e es2 t v hes hall he
    subst hes
    exact hsome es1 e es2 t v hall he
  · constructor
    · rintro ⟨msg, hmsg⟩
      by_contra hex
      push_neg at hex
      obtain ⟨e, he, hb⟩ := hex
      -- take the first environment that binds the name
      have hfirst : ∀ (l : List (EnvironmentExternal τ)),
          (∃ e ∈ l, e.environment.lookup name ≠ none) →
          ∃ es1 e es2 t v, l = es1 ++ e :: es2 ∧
            (∀ e1 ∈ es1, e1.environment.lookup name = none) ∧
            e.environment.lookup name = some (t, v) := by
        intro l
        induction l with
        | nil => rintro ⟨e, he, _⟩; simp at he
        | cons a rest ih =>
          intro hex2
          cases ha : a.environment.lookup name with
          | some b => exact ⟨[], a, rest, b.1, b.2, rfl, by simp, ha⟩
          | none =>
            obtain ⟨e, he, hb⟩ := hex2
            rcases List.mem_cons.1 he with rfl | he
            · exact absurd ha hb
            · obtain ⟨es1, e2, es2, t, v, hl, hall, h2⟩ := ih ⟨e, he, hb⟩
              refine ⟨a :: es1, e2, es2, t, v, by rw [hl]; rfl, ?_, h2⟩
              intro x hx
              rcases List.mem_cons.1 hx with rfl | hx
              · exact ha
              · exact hall x hx
      obtain ⟨es1, e2, es2, t, v, hl, hall, h2⟩ := hfirst es ⟨e, he, hb⟩
      subst hl
      rw [hsome es1 e2 es2 t v hall h2] at hmsg
      simp at hmsg
    · intro hall
      exact ⟨_, by rw [hnone es hne hall]⟩

/-- Witness for C15: in a chain of two environments the inner binding of `x`
shadows the outer one, `y` is found in the outer one, and `z` is undefined. -/
theorem getName_external_chain_witness :
    (getName [Environment.external { environment := [("x", 0, "a")] },
        Environment.external { environment := [("x", 0, "b"), ("y", 1, "c")] }] "x").result
      = .ok "a"
    ∧ (getName [Environment.external { environment := [("x", 0, "a")] },
        Environment.external { environment := [("x", 0, "b"), ("y", 1, "c")] }] "y").result
      = .ok "c"
    ∧ (getName [Environment.external { environment := [("x", 0, "a")] },
        Environment.external { environment := [("x", 0, "b"), ("y", 1, "c")] }] "z").result
      = .error "Undefined identifier \x27z\x27" := by
  have h := fun name => getName_external_chain
    [({ environment := [("x", 0, "a")] } : EnvironmentExternal Nat),
      { environment := [("x", 0, "b"), ("y", 1, "c")] }] name (by simp)
  refine ⟨?_, ?_, ?_⟩
  · exact congrArg Outcome.result ((h "x").2.1 [] _ _ 0 "a" rfl (by simp) rfl)
  · exact congrArg Outcome.result ((h "y").2.1 [{ environment := [("x", 0, "a")] }] _ _ 1 "c" rfl
      (by decide) rfl)
  · exact congrArg Outcome.result ((h "z").1 (by decide))

/-! ### Marking initialisers -/

theorem set_same {α : Type} (l : List α) (j : Nat) (a : α) (h : l[j]? = some a) :
    l.set j a = l := by
  apply List.ext_getElem?
  intro k
  by_cases hk : j = k
  · subst hk
    have hlt : j < l.length := by
      by_contra hge
      rw [List.getElem?_eq_none (by omega)] at h
      simp at h
    rw [List.getElem?_set_self hlt, h]
  · rw [List.getElem?_set_ne hk]

theorem markRequired_length (is : List Nat) (inits : List (Bool × String)) :
    (markRequired is inits).state.length = inits.length := by
  induction is generalizing inits with
  | nil => rfl
  | cons i rest ih =>
    unfold markRequired
    cases h : inits[i]? with
    | none => rfl
    | some b => simp only [ih, List.length_set]

theorem markRequired_ok (is : List Nat) (inits : List (Bool × String))
    (h : ∀ i ∈ is, i < inits.length) : (markRequired is inits).result = .ok () := by
  induction is generalizing inits with
  | nil => rfl
  | cons i rest ih =>
    unfold markRequired
    have hi := h i (List.mem_cons_self _ _)
    rw [List.getElem?_eq_getElem hi]
    simp only
    apply ih
    intro k hk
    rw [List.length_set]
    exact h k (List.mem_cons_of_mem _ hk)

theorem markRequired_keeps (is : List Nat) (inits : List (Bool × String)) (j : Nat) (t : String)
    (h : inits[j]? = some (true, t)) : (markRequired is inits).state[j]? = some (true, t) := by
  induction is generalizing inits with
  | nil => exact h
  | cons i rest ih =>
    unfold markRequired
    cases hi : inits[i]? with
    | none => exact h
    | some b =>
      simp only
      apply ih
      by_cases hij : i = j
      · subst hij
        rw [hi] at h
        have hb : b.2 = t := by
          cases b with
          | mk f x =>
            simp only [Option.some.injEq, Prod.mk.injEq] at h
            exact h.2
        have hlt : i < inits.length := by
          by_contra hge
          rw [List.getElem?_eq_none (by omega)] at hi
          simp at hi
        rw [List.getElem?_set_self hlt, hb]
      · rw [List.getElem?_set_ne hij]
        exact h

theorem markRequired_idem (is : List Nat) (inits : List (Bool × String)) :
    markRequired is (markRequired is inits).state = markRequired is inits := by
  induction is generalizing inits with
  | nil => rfl
  | cons i rest ih =>
    cases hi : inits[i]? with
    | none =>
      have h1 : markRequired (i :: rest) inits
          = { result := .error "out_of_range", state := inits } := by
        rw [markRequired, hi]
      rw [h1]
      exact h1
    | some b =>
      have hlt : i < inits.length := by
        by_contra hge
        rw [List.getElem?_eq_none (by omega)] at hi
        simp at hi
      have h1 : markRequired (i :: rest) inits = markRequired rest (inits.set i (true, b.2)) := by
        rw [markRequired, hi]
      have hkeep := markRequired_keeps rest (inits.set i (true, b.2)) i b.2
        (by rw [List.getElem?_set_self hlt])
      rw [h1]
      rw [markRequired, hkeep]
      simp only
      rw [set_same _ _ _ hkeep]
      exact ih _

theorem isRequired_set (inits : List (Bool × String)) (i j : Nat) (t : String)
    (hi : i < inits.length) :
    isRequired (inits.set i (true, t)) j = (isRequired inits j || decide (j = i)) := by
  unfold isRequired
  by_cases hij : i = j
  · subst hij
    rw [List.getElem?_set_self hi]
    simp
  · rw [List.getElem?_set_ne hij]
    have : decide (j = i) = false := by simpa using fun h => hij h.symm
    rw [this, Bool.or_false]

theorem markRequired_isRequired (is : List Nat) (inits : List (Bool × String))
    (h : ∀ i ∈ is, i < inits.length) (j : Nat) :
    isRequired (markRequired is inits).state j = (isRequired inits j || decide (j ∈ is)) := by
  induction is generalizing inits with
  | nil => simp [markRequired]
  | cons i rest ih =>
    have hi := h i (List.mem_cons_self _ _)
    unfold markRequired
    rw [List.getElem?_eq_getElem hi]
    simp only
    rw [ih _ (by
      intro k hk
      rw [List.length_set]
      exact h k (List.mem_cons_of_mem _ hk)), isRequired_set _ _ _ _ hi]
    by_cases h1 : j = i
    · simp [h1]
    · by_cases h2 : j ∈ rest
      · simp [h1, h2]
      · simp [h1, h2]

theorem markRequired_texts (is : List Nat) (inits : List (Bool × String)) :
    (markRequired is inits).state.map Prod.snd = inits.map Prod.snd := by
  induction is generalizing inits with
  | nil => rfl
  | cons i rest ih =>
    unfold markRequired
    cases hi : inits[i]? with
    | none => rfl
    | some b =>
      simp only
      rw [ih]
      apply List.ext_getElem?
      intro k
      simp only [List.getElem?_map]
      by_cases hik : i = k
      · subst hik
        have hlt : i < inits.length := by
          by_contra hge
          rw [List.getElem?_eq_none (by omega)] at hi
          simp at hi
        rw [List.getElem?_set_self hlt, hi]
        rfl
      · rw [List.getElem?_set_ne hik]

/-! ### Redeclaration -/

/-- C16: `EnvironmentExternal::add` and `EnvironmentSubstitute::addSubstitution`
(called, as its assertion demands, with indices of existing initialisers)
throw the redeclaration error exactly when the name is already bound in that
same object, and then leave the object as it was; otherwise the binding is
appended, whatever the enclosing environments bind, and a lookup of the name
through the environment returns the new value or destination. -/
theorem add_redeclaration (e : EnvironmentExternal τ) (type : τ) (name value : String)
    (s : EnvironmentSubstitute) (source destination : String) (initialisers : List Nat)
    (context : List (Environment τ))
    (hvalid : ∀ i ∈ initialisers, i < s.initialisers.length) :
    ((e.environment.lookup name).isSome = true →
      e.add type name value
        = { result := .error ("Redeclaration of \x27" ++ name ++ "\x27"), state := e })
    ∧ (e.environment.lookup name = none →
      e.add type name value
          = { result := .ok (), state := { environment := e.environment ++ [(name, type, value)] } }
      ∧ (getName (Environment.external (e.add type name value).state :: context) name).result
          = .ok value)
    ∧ ((∃ msg, (e.add type name value).result = .error msg)
        ↔ (e.environment.lookup name).isSome = true)
    ∧ ((s.varSubstitutions.lookup source).isSome = true →
      s.addSubstitution source destination initialisers
        = { result := .error ("Redeclaration of substitution \x27" ++ source ++ "\x27")
            state := s })
    ∧ (s.varSubstitutions.lookup source = none →
      s.addSubstitution source destination initialisers
          = { result := .ok ()
              state := { s with varSubstitutions :=
                s.varSubstitutions ++ [(source, destination, initialisers)] } }
      ∧ (getName (Environment.substitute
            (s.addSubstitution source destination initialisers).state :: context) source).result
          = .ok destination)
    ∧ ((∃ msg, (s.addSubstitution source destination initialisers).result = .error msg)
        ↔ (s.varSubstitutions.lookup source).isSome = true) := by
  have hall : initialisers.all (fun i => decide (i < s.initialisers.length)) = true := by
    rw [List.all_eq_true]
    intro i hi
    exact decide_eq_true (hvalid i hi)
  have hE1 : (e.environment.lookup name).isSome = true →
      e.add type name value
        = { result := .error ("Redeclaration of \x27" ++ name ++ "\x27"), state := e } := by
    intro h
    unfold EnvironmentExternal.add
    cases hl : e.environment.lookup name with
    | none => rw [hl] at h; simp at h
    | some b => rfl
  have hE2 : e.environment.lookup name = none →
      e.add type name value
        = { result := .ok (), state := { environment := e.environment ++ [(name, type, value)] } } := by
    intro h
    unfold EnvironmentExternal.add
    rw [h]
  have hS1 : (s.varSubstitutions.lookup source).isSome = true →
      s.addSubstitution source destination initialisers
        = { result := .error ("Redeclaration of substitution \x27" ++ source ++ "\x27")
            state := s } := by
    intro h
    unfold EnvironmentSubstitute.addSubstitution
    rw [if_pos hall]
    cases hl : s.varSubstitutions.lookup source with
    | none => rw [hl] at h; simp at h
    | some b => rfl
  have hS2 : s.varSubstitutions.lookup source = none →
      s.addSubstitution source destination initialisers
        = { result := .ok ()
            state := { s with varSubstitutions :=
              s.varSubstitutions ++ [(source, destination, initialisers)] } } := by
    intro h
    unfold EnvironmentSubstitute.addSubstitution
    rw [if_pos hall, h]
  refine ⟨hE1, ?_, ?_, hS1, ?_, ?_⟩
  · intro h
    refine ⟨hE2 h, ?_⟩
    rw [hE2 h, getName_external_cons]
    unfold EnvironmentExternal.getName
    simp only
    rw [lookup_append_new _ _ _ h]
  · constructor
    · rintro ⟨msg, hmsg⟩
      cases hl : e.environment.lookup name with
      | none => rw [hE2 hl] at hmsg; simp at hmsg
      | some b => rfl
    · intro h
      exact ⟨_, by rw [hE1 h]⟩
  · intro h
    refine ⟨hS2 h, ?_⟩
    rw [hS2 h, getName_substitute_cons]
    unfold EnvironmentSubstitute.getName
    simp only
    rw [lookup_append_new _ _ _ h]
    simp only
    rw [markRequired_ok initialisers s.initialisers hvalid]
  · constructor
    · rintro ⟨msg, hmsg⟩
      cases hl : s.varSubstitutions.lookup source with
      | none => rw [hS2 hl] at hmsg; simp at hmsg
      | some b => rfl
    · intro h
      exact ⟨_, by rw [hS1 h]⟩

/-- Witness for C16: `x` is bound in the enclosing environment only, so adding
it to the empty inner environment succeeds and a lookup through the inner
environment returns the new value; adding `x` where it is already bound
throws and leaves the binding; the same for substitutions, with one
initialiser registered. -/
theorem add_redeclaration_witness :
    (getName [Environment.external
          (EnvironmentExternal.add { environment := [] } 0 "x" "inner").state,
        Environment.external { environment := [("x", 0, "outer")] }] "x").result
      = .ok "inner"
    ∧ EnvironmentExternal.add { environment := [("x", 0, "a")] } 1 "x" "b"
      = { result := .error "Redeclaration of \x27x\x27"
          state := { environment := [("x", 0, "a")] } }
    ∧ (getName [Environment.substitute
          (EnvironmentSubstitute.addSubstitution
            { varSubstitutions := [], initialisers := [(false, "A")], contentsStream := "" }
            "x" "lx" [0]).state,
        Environment.external { environment := [("x", 0, "outer")] }] "x").result
      = .ok "lx"
    ∧ EnvironmentSubstitute.addSubstitution
        { varSubstitutions := [("x", "lx", [0])], initialisers := [(false, "A")]
          contentsStream := "" } "x" "other" []
      = { result := .error "Redeclaration of substitution \x27x\x27"
          state := { varSubstitutions := [("x", "lx", [0])], initialisers := [(false, "A")]
                     contentsStream := "" } } := by
  have h1 := add_redeclaration ({ environment := [] } : EnvironmentExternal Nat) 0 "x" "inner"
    { varSubstitutions := [], initialisers := [(false, "A")], contentsStream := "" }
    "x" "lx" [0] [Environment.external { environment := [("x", 0, "outer")] }] (by simp)
  have h2 := add_redeclaration ({ environment := [("x", 0, "a")] } : EnvironmentExternal Nat)
    1 "x" "b"
    { varSubstitutions := [("x", "lx", [0])], initialisers := [(false, "A")]
      contentsStream := "" }
    "x" "other" [] [] (by simp)
  exact ⟨(h1.2.1 rfl).2, h2.1 rfl, (h1.2.2.2.2.1 rfl).2, h2.2.2.2.1 rfl⟩

/-! ### The destructor -/

theorem destructor_foldl (inits : List (Bool × String)) (acc : String) :
    inits.foldl (fun os i => if i.1 = true then os ++ i.2 ++ "\n" else os) acc
      = acc ++ concatText ((inits.filter (fun i => i.1)).map (fun i => i.2 ++ "\n")) := by
  induction inits generalizing acc with
  | nil => simp [concatText]
  | cons x rest ih =>
    rw [List.foldl_cons, ih]
    by_cases hx : x.1 = true
    · rw [if_pos hx, List.filter_cons_of_pos hx, List.map_cons]
      simp only [concatText, List.foldr_cons, String.append_assoc]
    · rw [if_neg hx, List.filter_cons_of_neg hx]

theorem isRequired_append_lt (l : List (Bool × String)) (x : Bool × String) (i : Nat)
    (h : i < l.length) : isRequired (l ++ [x]) i = isRequired l i := by
  unfold isRequired
  rw [List.getElem?_append_left h]

theorem initialiserLine_append_lt (l : List (Bool × String)) (x : Bool × String) (i : Nat)
    (h : i < l.length) : initialiserLine (l ++ [x]) i = initialiserLine l i := by
  unfold initialiserLine
  rw [List.getElem?_append_left h]

theorem writtenIndices_append (l : List (Bool × String)) (x : Bool × String) :
    writtenIndices (l ++ [x])
      = writtenIndices l ++ (if x.1 = true then [l.length] else []) := by
  unfold writtenIndices
  rw [List.length_append, List.length_singleton, List.range_succ, List.filter_append]
  congr 1
  · apply List.filter_congr
    intro i hi
    exact isRequired_append_lt l x i (List.mem_range.1 hi)
  · have hx : isRequired (l ++ [x]) l.length = x.1 := by
      unfold isRequired
      rw [List.getElem?_append_right (le_refl _)]
      simp
    by_cases h : x.1 = true
    · rw [if_pos h, List.filter_cons_of_pos (by rw [hx]; exact h), List.filter_nil]
    · rw [if_neg h, List.filter_cons_of_neg (by rw [hx]; exact h), List.filter_nil]

theorem mem_writtenIndices (inits : List (Bool × String)) (i : Nat) :
    i ∈ writtenIndices inits ↔ isRequired inits i = true := by
  unfold writtenIndices
  rw [List.mem_filter, List.mem_range]
  constructor
  · exact fun h => h.2
  · intro h
    refine ⟨?_, h⟩
    by_contra hge
    unfold isRequired at h
    rw [List.getElem?_eq_none (by omega)] at h
    simp at h

theorem writtenIndices_lines (inits : List (Bool × String)) :
    (writtenIndices inits).map (initialiserLine inits)
      = (inits.filter (fun i => i.1)).map (fun i => i.2 ++ "\n") := by
  induction inits using List.reverseRecOn with
  | nil => rfl
  | append_singleton l x ih =>
    rw [writtenIndices_append, List.map_append, List.filter_append, List.map_append, ← ih]
    congr 1
    · apply List.map_congr_left
      intro i hi
      have hlt : i < l.length := by
        unfold writtenIndices at hi
        exact List.mem_range.1 (List.mem_filter.1 hi).1
      exact initialiserLine_append_lt l x i hlt
    · have hline : initialiserLine (l ++ [x]) l.length = x.2 ++ "\n" := by
        unfold initialiserLine
        rw [List.getElem?_append_right (le_refl _)]
        simp
      by_cases h : x.1 = true
      · rw [if_pos h, List.filter_cons_of_pos h, List.filter_nil, List.map_cons, List.map_nil,
          List.map_cons, List.map_nil, hline]
      · rw [if_neg h, List.filter_cons_of_neg h, List.filter_nil]
        rfl

theorem destructor_eq (s : EnvironmentSubstitute) (os : String) :
    s.destructor os
      = os ++ concatText ((writtenIndices s.initialisers).map (initialiserLine s.initialisers))
        ++ s.contentsStream := by
  unfold EnvironmentSubstitute.destructor
  rw [destructor_foldl, writtenIndices_lines]

theorem writtenIndices_pairwise (inits : List (Bool × String)) :
    (writtenIndices inits).Pairwise (fun a b => a < b) := by
  unfold writtenIndices
  exact List.Pairwise.filter _ (List.pairwise_lt_range _)

theorem getName_contents (chain : List (Environment τ)) (name : String) :
    chainContents (getName chain name).state = chainContents chain := by
  induction chain with
  | nil => rfl
  | cons e context ih =>
    cases e with
    | external e =>
      rw [getName_external_cons]
      unfold EnvironmentExternal.getName
      cases e.environment.lookup name with
      | some b => rfl
      | none =>
        simp only
        split_ifs with hc
        · rw [List.isEmpty_iff] at hc
          subst hc
          rfl
        · simp only [chainContents, ih]
    | substitute s =>
      rw [getName_substitute_cons]
      unfold EnvironmentSubstitute.getName
      cases s.varSubstitutions.lookup name with
      | some b => rfl
      | none => simp only [chainContents, ih]

theorem runCall_contents (chain : List (Environment τ)) (c : Call) :
    chainContents (runCall chain c).2 = chainContents chain := by
  cases c with
  | getName name =>
    have : (runCall chain (Call.getName name)).2 = (getName chain name).state := by
      cases chain with
      | nil => rfl
      | cons e context => cases e <;> rfl
    rw [this, getName_contents]
  | addInitialiser t =>
    cases chain with
    | nil => rfl
    | cons e context =>
      cases e with
      | external e => rfl
      | substitute s => rfl
  | addSubstitution src dst inits =>
    cases chain with
    | nil => rfl
    | cons e context =>
      cases e with
      | external e => rfl
      | substitute s =>
        simp only [runCall, chainContents, EnvironmentSubstitute.addSubstitution]
        split_ifs
        · cases s.varSubstitutions.lookup src <;> rfl
        · rfl

theorem runCalls_contents (chain : List (Environment τ)) (calls : List Call) :
    chainContents (runCalls chain calls).2 = chainContents chain := by
  induction calls generalizing chain with
  | nil => rfl
  | cons c cs ih =>
    simp only [runCalls]
    rw [ih, runCall_contents]

/-- C14: the destructor of an `EnvironmentSubstitute` appends to its context
stream exactly the initialisers whose flag is set, each followed by a line
break, and then the whole buffered body text; `addInitialiser`,
`addSubstitution` and `getName` calls leave every buffer of the chain as it
was and text written to the environment goes to its own buffer, which
reaches the context stream at the end of the destructor's output; and when
an inner environment is destroyed before the outer one, the outer
destructor writes the outer initialisers, the outer body text, and in it the
inner initialisers followed by the inner body text. -/
theorem destructor_output (inner outer : EnvironmentSubstitute) (os text : String)
    (chain : List (Environment τ)) (calls : List Call) :
    inner.destructor os
        = os ++ concatText ((writtenIndices inner.initialisers).map
            (initialiserLine inner.initialisers)) ++ inner.contentsStream
    ∧ (∀ i ∈ writtenIndices inner.initialisers, ∃ flagText,
        inner.initialisers[i]? = some (true, flagText)
        ∧ initialiserLine inner.initialisers i = flagText ++ "\n")
    ∧ chainContents (runCalls chain calls).2 = chainContents chain
    ∧ (inner.write text).destructor os = inner.destructor os ++ text
    ∧ (inner.destructorInto outer).destructor os
        = os ++ concatText ((writtenIndices outer.initialisers).map
              (initialiserLine outer.initialisers))
            ++ (outer.contentsStream
              ++ concatText ((writtenIndices inner.initialisers).map
                  (initialiserLine inner.initialisers))
              ++ inner.contentsStream) := by
  refine ⟨destructor_eq inner os, ?_, runCalls_contents chain calls, ?_, ?_⟩
  · intro i hi
    rw [mem_writtenIndices] at hi
    unfold isRequired at hi
    unfold initialiserLine
    cases h : inner.initialisers[i]? with
    | none => rw [h] at hi; simp at hi
    | some b =>
      rw [h] at hi
      simp only at hi
      cases b with
      | mk f t =>
        simp only at hi
        subst hi
        exact ⟨t, rfl, rfl⟩
  · unfold EnvironmentSubstitute.destructor EnvironmentSubstitute.write
    simp only [String.append_assoc]
  · rw [destructor_eq]
    unfold EnvironmentSubstitute.destructorInto
    simp only
    rw [destructor_eq]

/-! ### Sequences of calls -/

theorem lookup_mem {β : Type} (m : List (String × β)) (name : String) (v : β)
    (h : m.lookup name = some v) : ∃ k, (k, v) ∈ m := by
  induction m with
  | nil => simp at h
  | cons x rest ih =>
    rw [List.lookup_cons] at h
    cases hx : (name == x.1) with
    | true =>
      rw [hx] at h
      simp only [Option.some.injEq] at h
      exact ⟨x.1, by rw [← h]; exact List.mem_cons_self _ _⟩
    | false =>
      rw [hx] at h
      obtain ⟨k, hk⟩ := ih h
      exact ⟨k, List.mem_cons_of_mem _ hk⟩

theorem resolves_valid (s : EnvironmentSubstitute) (context : List (Environment τ)) (c : Call)
    (hs : IndicesValid s) :
    ∀ i ∈ resolves (Environment.substitute s :: context) c, i < s.initialisers.length := by
  intro i hi
  cases c with
  | addInitialiser t => simp [resolves] at hi
  | addSubstitution a b l => simp [resolves] at hi
  | getName name =>
    simp only [resolves] at hi
    cases hl : s.varSubstitutions.lookup name with
    | none => rw [hl] at hi; simp at hi
    | some b =>
      rw [hl] at hi
      obtain ⟨k, hk⟩ := lookup_mem _ _ _ hl
      exact hs (k, b) hk i hi

theorem isRequired_append_false (l : List (Bool × String)) (t : String) (j : Nat) :
    isRequired (l ++ [(false, t)]) j = isRequired l j := by
  by_cases h : j < l.length
  · exact isRequired_append_lt l _ j h
  · unfold isRequired
    rw [List.getElem?_eq_none (l := l) (by omega)]
    by_cases h2 : j = l.length
    · subst h2
      rw [List.getElem?_append_right (le_refl _)]
      simp
    · rw [List.getElem?_eq_none (by simp; omega)]

theorem runCall_step (s : EnvironmentSubstitute) (context : List (Environment τ)) (c : Call)
    (hs : IndicesValid s) :
    ∃ s2 ctx2, (runCall (Environment.substitute s :: context) c).2
        = Environment.substitute s2 :: ctx2
      ∧ IndicesValid s2
      ∧ (∀ j, isRequired s2.initialisers j
          = (isRequired s.initialisers j
              || decide (j ∈ resolves (Environment.substitute s :: context) c)))
      ∧ s2.initialisers.map Prod.snd = s.initialisers.map Prod.snd ++ registered [c]
      ∧ returnedIndices [(runCall (Environment.substitute s :: context) c).1]
          = List.range' s.initialisers.length (registered [c]).length := by
  cases c with
  | addInitialiser t =>
    refine ⟨_, context, rfl, ?_, ?_, ?_, ?_⟩
    · intro entry he i hi
      have := hs entry he i hi
      simp only [EnvironmentSubstitute.addInitialiser, List.length_append, List.length_singleton]
      omega
    · intro j
      simp [EnvironmentSubstitute.addInitialiser, resolves, isRequired_append_false]
    · simp [EnvironmentSubstitute.addInitialiser, registered]
    · simp [runCall, EnvironmentSubstitute.addInitialiser, returnedIndices, registered,
        List.range']
  | addSubstitution src dst inits =>
    refine ⟨(s.addSubstitution src dst inits).state, context, rfl, ?_, ?_, ?_, ?_⟩
    · unfold EnvironmentSubstitute.addSubstitution
      split_ifs with hall
      · cases s.varSubstitutions.lookup src with
        | some b => exact hs
        | none =>
          intro entry he i hi
          simp only [List.mem_append, List.mem_singleton] at he
          rcases he with he | rfl
          · exact hs entry he i hi
          · rw [List.all_eq_true] at hall
            exact of_decide_eq_true (hall i hi)
      · exact hs
    · intro j
      have : (s.addSubstitution src dst inits).state.initialisers = s.initialisers := by
        unfold EnvironmentSubstitute.addSubstitution
        split_ifs
        · cases s.varSubstitutions.lookup src <;> rfl
        · rfl
      rw [this]
      simp [resolves]
    · have : (s.addSubstitution src dst inits).state.initialisers = s.initialisers := by
        unfold EnvironmentSubstitute.addSubstitution
        split_ifs
        · cases s.varSubstitutions.lookup src <;> rfl
        · rfl
      rw [this]
      simp [registered]
    · simp only [runCall, registered, List.length_nil, List.range'_zero]
      cases (s.addSubstitution src dst inits).result <;> rfl
  | getName name =>
    have hrun : runCall (Environment.substitute s :: context) (Call.getName name)
        = (match (getName (Environment.substitute s :: context) name).result with
            | .ok t => Reply.text t
            | .error msg => Reply.thrown msg,
          (getName (Environment.substitute s :: context) name).state) := rfl
    have hret : returnedIndices [(runCall (Environment.substitute s :: context)
        (Call.getName name)).1] = List.range' s.initialisers.length (registered [Call.getName name]).length := by
      rw [hrun]
      simp only [registered, List.length_nil, List.range'_zero]
      cases (getName (Environment.substitute s :: context) name).result <;> rfl
    have hstate : (runCall (Environment.substitute s :: context) (Call.getName name)).2
        = (s.getName name context (getName context name)).state := rfl
    cases hl : s.varSubstitutions.lookup name with
    | none =>
      refine ⟨s, (getName context name).state, ?_, hs, ?_, ?_, hret⟩
      · rw [hstate]
        unfold EnvironmentSubstitute.getName
        rw [hl]
      · intro j
        simp [resolves, hl]
      · simp [registered]
    | some b =>
      have hvalid : ∀ i ∈ b.2, i < s.initialisers.length := by
        obtain ⟨k, hk⟩ := lookup_mem _ _ _ hl
        exact hs (k, b) hk
      refine ⟨{ s with initialisers := (markRequired b.2 s.initialisers).state }, context, ?_, ?_,
        ?_, ?_, hret⟩
      · rw [hstate]
        unfold EnvironmentSubstitute.getName
        rw [hl]
      · intro entry he i hi
        simp only [markRequired_length]
        exact hs entry he i hi
      · intro j
        simp only
        rw [markRequired_isRequired _ _ hvalid]
        simp [resolves, hl]
      · simp only
        rw [markRequired_texts]
        simp [registered]

theorem referenced_nil (chain : List (Environment τ)) (j : Nat) : ¬ Referenced chain [] j := by
  rintro ⟨k, hk, _⟩
  simp at hk

theorem referenced_cons (chain : List (Environment τ)) (c : Call) (cs : List Call) (j : Nat) :
    Referenced chain (c :: cs) j ↔
      j ∈ resolves chain c ∨ Referenced (runCall chain c).2 cs j := by
  constructor
  · rintro ⟨k, hk, hj⟩
    cases k with
    | zero =>
      left
      simpa [resolvedAt, runCalls] using hj
    | succ k =>
      right
      refine ⟨k, by simpa using hk, ?_⟩
      simpa [resolvedAt, runCalls] using hj
  · rintro (hj | ⟨k, hk, hj⟩)
    · exact ⟨0, by simp, by simpa [resolvedAt, runCalls] using hj⟩
    · exact ⟨k + 1, by simpa using hk, by simpa [resolvedAt, runCalls] using hj⟩

theorem registered_cons (c : Call) (cs : List Call) :
    registered (c :: cs) = registered [c] ++ registered cs := by
  cases c <;> rfl

theorem returnedIndices_cons (r : Reply) (rs : List Reply) :
    returnedIndices (r :: rs) = returnedIndices [r] ++ returnedIndices rs := by
  cases r <;> rfl

theorem runCalls_spec (calls : List Call) :
    ∀ (s : EnvironmentSubstitute) (context : List (Environment τ)), IndicesValid s →
      ∃ s2 ctx2, (runCalls (Environment.substitute s :: context) calls).2
          = Environment.substitute s2 :: ctx2
        ∧ IndicesValid s2
        ∧ (∀ j, isRequired s2.initialisers j = true ↔
            isRequired s.initialisers j = true
              ∨ Referenced (Environment.substitute s :: context) calls j)
        ∧ s2.initialisers.map Prod.snd = s.initialisers.map Prod.snd ++ registered calls
        ∧ returnedIndices (runCalls (Environment.substitute s :: context) calls).1
            = List.range' s.initialisers.length (registered calls).length := by
  induction calls with
  | nil =>
    intro s context hs
    refine ⟨s, context, rfl, hs, ?_, by simp [registered], by simp [runCalls, returnedIndices, registered]⟩
    intro j
    constructor
    · exact fun h => Or.inl h
    · rintro (h | h)
      · exact h
      · exact absurd h (referenced_nil _ _)
  | cons c cs ih =>
    intro s context hs
    obtain ⟨s1, ctx1, hrun1, hs1, hflag1, htext1, hret1⟩ := runCall_step s context c hs
    obtain ⟨s2, ctx2, hrun2, hs2, hflag2, htext2, hret2⟩ := ih s1 ctx1 hs1
    have hlen1 : s1.initialisers.length = s.initialisers.length + (registered [c]).length := by
      have := congrArg List.length htext1
      simpa using this
    refine ⟨s2, ctx2, ?_, hs2, ?_, ?_, ?_⟩
    · simp only [runCalls]
      rw [hrun1, hrun2]
    · intro j
      rw [hflag2 j, hflag1 j, referenced_cons, hrun1]
      simp only [Bool.or_eq_true, decide_eq_true_eq]
      tauto
    · rw [htext2, htext1, List.append_assoc, ← registered_cons]
    · simp only [runCalls]
      rw [returnedIndices_cons, hret1, hrun1, hret2, hlen1, List.range'_append_1,
        registered_cons c cs, List.length_append, Nat.add_comm]

theorem indicesValid_new : IndicesValid EnvironmentSubstitute.new := by
  intro entry he
  simp [EnvironmentSubstitute.new] at he

theorem getName_idem (chain : List (Environment τ)) (name : String) :
    getName (getName chain name).state name = getName chain name := by
  induction chain with
  | nil => rfl
  | cons e context ih =>
    cases e with
    | external e =>
      rw [getName_external_cons]
      unfold EnvironmentExternal.getName
      cases hl : e.environment.lookup name with
      | some b =>
        simp only
        rw [getName_external_cons]
        unfold EnvironmentExternal.getName
        rw [hl]
      | none =>
        simp only
        by_cases hc : context.isEmpty = true
        · rw [if_pos hc]
          simp only
          rw [getName_external_cons]
          unfold EnvironmentExternal.getName
          rw [hl]
          simp
        · rw [if_neg hc]
          simp only
          rw [getName_external_cons]
          unfold EnvironmentExternal.getName
          rw [hl]
          have hne : ¬ (getName context name).state.isEmpty = true := by
            intro h
            apply hc
            rw [List.isEmpty_iff] at h ⊢
            have := getName_length context name
            rw [h] at this
            exact List.length_eq_zero.1 this.symm
          simp only
          rw [if_neg hne, ih]
    | substitute s =>
      rw [getName_substitute_cons]
      unfold EnvironmentSubstitute.getName
      cases hl : s.varSubstitutions.lookup name with
      | none =>
        simp only
        rw [getName_substitute_cons]
        unfold EnvironmentSubstitute.getName
        rw [hl]
        simp only
        rw [ih]
      | some b =>
        simp only
        rw [getName_substitute_cons]
        unfold EnvironmentSubstitute.getName
        simp only
        rw [hl]
        simp only
        rw [markRequired_idem]

theorem isRequired_new (j : Nat) : isRequired EnvironmentSubstitute.new.initialisers j = false := by
  simp [isRequired, EnvironmentSubstitute.new]

theorem writtenIndices_nodup (inits : List (Bool × String)) : (writtenIndices inits).Nodup := by
  unfold writtenIndices
  exact List.Nodup.filter _ (List.nodup_range _)

/-- C11: for a newly constructed `EnvironmentSubstitute` in any context and
every sequence of `addInitialiser`, `addSubstitution` and `getName` calls,
the destructor writes an initialiser exactly once if some `getName` of the
sequence resolved a substitution that lists it, and not at all otherwise;
and looking a name up again in the state the first lookup left returns the
same text (or error) and leaves the same state. -/
theorem initialiser_written_once (context : List (Environment τ)) (calls : List Call)
    (os : String) (chain : List (Environment τ)) (name : String) :
    (∃ s ctx2,
      (runCalls (Environment.substitute EnvironmentSubstitute.new :: context) calls).2
        = Environment.substitute s :: ctx2
      ∧ s.destructor os
          = os ++ concatText ((writtenIndices s.initialisers).map
              (initialiserLine s.initialisers)) ++ s.contentsStream
      ∧ (∀ i, Referenced (Environment.substitute EnvironmentSubstitute.new :: context) calls i →
          (writtenIndices s.initialisers).count i = 1)
      ∧ (∀ i, ¬ Referenced (Environment.substitute EnvironmentSubstitute.new :: context) calls i →
          (writtenIndices s.initialisers).count i = 0))
    ∧ getName (getName chain name).state name = getName chain name := by
  refine ⟨?_, getName_idem chain name⟩
  obtain ⟨s, ctx2, hrun, _, hflag, _, _⟩ :=
    runCalls_spec calls EnvironmentSubstitute.new context indicesValid_new
  refine ⟨s, ctx2, hrun, destructor_eq s os, ?_, ?_⟩
  · intro i hi
    apply List.count_eq_one_of_mem (writtenIndices_nodup _)
    rw [mem_writtenIndices, hflag]
    exact Or.inr hi
  · intro i hi
    apply List.count_eq_zero_of_not_mem
    rw [mem_writtenIndices, hflag, isRequired_new]
    rintro (h | h)
    · simp at h
    · exact hi h

theorem writtenBefore_lt (inits : List (Bool × String)) (a b : Nat)
    (h : WrittenBefore inits a b) : a < b := by
  obtain ⟨l1, l2, l3, hl⟩ := h
  have hp := writtenIndices_pairwise inits
  rw [hl, List.pairwise_append] at hp
  exact hp.2.2 a (by simp) b (by simp)

theorem pairwise_split (l : List Nat) (a b : Nat) (hp : l.Pairwise (fun x y => x < y))
    (ha : a ∈ l) (hb : b ∈ l) (hab : a < b) : ∃ l1 l2 l3, l = l1 ++ a :: l2 ++ b :: l3 := by
  obtain ⟨l1, r, rfl⟩ := List.append_of_mem ha
  rw [List.pairwise_append] at hp
  rcases List.mem_append.1 hb with hb1 | hb2
  · have := hp.2.2 b hb1 a (List.mem_cons_self _ _)
    omega
  · rcases List.mem_cons.1 hb2 with rfl | hb3
    · omega
    · obtain ⟨l2, l3, rfl⟩ := List.append_of_mem hb3
      exact ⟨l1, l2, l3, by simp⟩

/-- Counterexample for C12: `A` and `B` are registered in this order, `B` is
first referenced by call 4 and `A` by call 5, and the destructor writes `A`
before `B`; so the initialisers are not written in first-reference order. -/
theorem firstReferenceOrder_fails :
    ¬ FirstReferenceOrder
        [(Environment.substitute EnvironmentSubstitute.new : Environment Unit)] exampleCalls := by
  intro h
  have := writtenBefore_lt _ _ _ (h 1 0 4 5 (by decide) (by decide) (by decide))
  omega

/-- C12, amended: the referenced initialisers are written in the order of their
registration: when `a` was registered before `b` (index `a < b`) and both
are referenced by the sequence of calls, the destructor writes the line of
`a` before the line of `b`. -/
theorem initialisers_written_in_registration_order (context : List (Environment τ))
    (calls : List Call) (os : String) (a b : Nat) (hab : a < b)
    (ha : Referenced (Environment.substitute EnvironmentSubstitute.new :: context) calls a)
    (hb : Referenced (Environment.substitute EnvironmentSubstitute.new :: context) calls b) :
    ∃ s ctx2 l1 l2 l3,
      (runCalls (Environment.substitute EnvironmentSubstitute.new :: context) calls).2
        = Environment.substitute s :: ctx2
      ∧ writtenIndices s.initialisers = l1 ++ a :: l2 ++ b :: l3
      ∧ s.destructor os
          = os ++ concatText ((l1 ++ a :: l2 ++ b :: l3).map (initialiserLine s.initialisers))
            ++ s.contentsStream := by
  obtain ⟨s, ctx2, hrun, _, hflag, _, _⟩ :=
    runCalls_spec calls EnvironmentSubstitute.new context indicesValid_new
  have hma : a ∈ writtenIndices s.initialisers := by
    rw [mem_writtenIndices, hflag]
    exact Or.inr ha
  have hmb : b ∈ writtenIndices s.initialisers := by
    rw [mem_writtenIndices, hflag]
    exact Or.inr hb
  obtain ⟨l1, l2, l3, hl⟩ :=
    pairwise_split _ a b (writtenIndices_pairwise s.initialisers) hma hmb hab
  refine ⟨s, ctx2, l1, l2, l3, hrun, hl, ?_⟩
  rw [← hl]
  exact destructor_eq s os

/-- Witness for C12, amended: in the example `A` (index 0) and `B` (index 1)
are both referenced, and `A` is written before `B`. -/
theorem initialisers_written_in_registration_order_witness :
    ∃ s ctx2 l1 l2 l3,
      (runCalls [(Environment.substitute EnvironmentSubstitute.new : Environment Unit)]
          exampleCalls).2 = Environment.substitute s :: ctx2
      ∧ writtenIndices s.initialisers = l1 ++ 0 :: l2 ++ 1 :: l3
      ∧ s.destructor ""
          = "" ++ concatText ((l1 ++ 0 :: l2 ++ 1 :: l3).map (initialiserLine s.initialisers))
            ++ s.contentsStream :=
  initialisers_written_in_registration_order [] exampleCalls "" 0 1 (by decide)
    ⟨5, by decide, by decide⟩ ⟨4, by decide, by decide⟩

/-- C13: for a newly constructed `EnvironmentSubstitute` and every sequence of
calls, `m_Initialisers` holds the registered texts in the order of the
`addInitialiser` calls, which return the indices 0, 1, 2, ... in that order;
the destructor writes the initialisers in increasing order of index, and
writes index `i` exactly when initialiser `i` is referenced, as the `i`-th
registered text followed by a line break: the written initialisers are the
referenced ones as a subsequence of the registration order. -/
theorem initialisers_in_declaration_order (context : List (Environment τ)) (calls : List Call)
    (os : String) :
    ∃ s ctx2,
      (runCalls (Environment.substitute EnvironmentSubstitute.new :: context) calls).2
        = Environment.substitute s :: ctx2
      ∧ s.initialisers.map Prod.snd = registered calls
      ∧ returnedIndices
          (runCalls (Environment.substitute EnvironmentSubstitute.new :: context) calls).1
          = List.range (registered calls).length
      ∧ (writtenIndices s.initialisers).Pairwise (fun a b => a < b)
      ∧ (∀ i, i ∈ writtenIndices s.initialisers ↔
          Referenced (Environment.substitute EnvironmentSubstitute.new :: context) calls i)
      ∧ (∀ i ∈ writtenIndices s.initialisers, ∃ text,
          (registered calls)[i]? = some text ∧ initialiserLine s.initialisers i = text ++ "\n")
      ∧ List.Sublist ((s.initialisers.filter (fun i => i.1)).map Prod.snd) (registered calls)
      ∧ s.destructor os
          = os ++ concatText ((writtenIndices s.initialisers).map
              (initialiserLine s.initialisers)) ++ s.contentsStream := by
  obtain ⟨s, ctx2, hrun, _, hflag, htext, hret⟩ :=
    runCalls_spec calls EnvironmentSubstitute.new context indicesValid_new
  have htext2 : s.initialisers.map Prod.snd = registered calls := by
    rw [htext]
    simp [EnvironmentSubstitute.new]
  refine ⟨s, ctx2, hrun, htext2, ?_, writtenIndices_pairwise _, ?_, ?_, ?_, destructor_eq s os⟩
  · rw [hret, List.range_eq_range']
    simp [EnvironmentSubstitute.new]
  · intro i
    rw [mem_writtenIndices, hflag, isRequired_new]
    simp
  · intro i hi
    rw [mem_writtenIndices] at hi
    unfold isRequired at hi
    unfold initialiserLine
    cases h : s.initialisers[i]? with
    | none => rw [h] at hi; simp at hi
    | some x =>
      refine ⟨x.2, ?_, rfl⟩
      rw [← htext2, List.getElem?_map, h]
      rfl
  · rw [← htext2]
    exact List.Sublist.map _ (List.filter_sublist _)

/-! ## `printSubs` -/

theorem isWordChar_paren : isWordChar ')' = false := by decide

theorem regexMatchAt_some (cs name : List Char) (h : regexMatchAt cs = some name) :
    ∃ c run tail, name = c :: run ∧ isIdentStart c = true ∧ run ≠ []
      ∧ (∀ x ∈ run, isWordChar x = true) ∧ cs = '$' :: '(' :: c :: run ++ ')' :: tail := by
  match cs, h with
  | a :: b :: c :: rest, h =>
    simp only [regexMatchAt] at h
    split_ifs at h with hc
    obtain ⟨ha, hb, hstart, hrun, hclose⟩ := hc
    injection h with h
    subst ha hb
    cases hd : rest.dropWhile isWordChar with
    | nil => rw [hd] at hclose; simp at hclose
    | cons d tail =>
      rw [hd] at hclose
      simp only [List.head?_cons, Option.some.injEq] at hclose
      subst hclose
      refine ⟨c, rest.takeWhile isWordChar, tail, h.symm, hstart, hrun, ?_, ?_⟩
      · intro x hx
        exact (List.mem_takeWhile_imp hx)
      · have := List.takeWhile_append_dropWhile isWordChar rest
        rw [hd] at this
        simp only [List.cons_append]
        rw [this]
  | [], h => simp [regexMatchAt] at h
  | [_], h => simp [regexMatchAt] at h
  | [_, _], h => simp [regexMatchAt] at h

theorem regexMatchAt_length (cs name : List Char) (h : regexMatchAt cs = some name) :
    5 ≤ cs.length ∧ 2 ≤ name.length := by
  obtain ⟨c, run, tail, rfl, _, hrun, _, rfl⟩ := regexMatchAt_some cs name h
  cases run with
  | nil => exact absurd rfl hrun
  | cons x xs => simp; omega

theorem regexMatchAt_isMatchedName (cs name : List Char) (h : regexMatchAt cs = some name) :
    isMatchedName name = true := by
  obtain ⟨c, run, tail, rfl, hc, hrun, hall, _⟩ := regexMatchAt_some cs name h
  cases run with
  | nil => exact absurd rfl hrun
  | cons x xs =>
    simp only [isMatchedName, hc, List.isEmpty_cons, Bool.not_false, Bool.and_self, Bool.true_and,
      List.all_eq_true]
    exact hall

theorem regexIterate_nil (skip : Nat) (pre : List Char) : regexIterate [] skip pre = ([], pre) := by
  cases skip <;> rfl

theorem regexIterate_skip (c : Char) (cs : List Char) (skip : Nat) (pre : List Char) :
    regexIterate (c :: cs) (skip + 1) pre = regexIterate cs skip pre := rfl

theorem regexIterate_some (c : Char) (cs name pre : List Char)
    (h : regexMatchAt (c :: cs) = some name) :
    regexIterate (c :: cs) 0 pre
      = ((pre, name) :: (regexIterate cs (name.length + 2) []).1,
          (regexIterate cs (name.length + 2) []).2) := by
  simp only [regexIterate, h]

theorem regexIterate_none (c : Char) (cs pre : List Char) (h : regexMatchAt (c :: cs) = none) :
    regexIterate (c :: cs) 0 pre = regexIterate cs 0 (pre ++ [c]) := by
  simp only [regexIterate, h]

theorem renderMarkers_cons (pre name : List Char) (ms : List (List Char × List Char))
    (suffix : List Char) :
    renderMarkers ((pre, name) :: ms) suffix
      = pre ++ '$' :: '(' :: name ++ ')' :: renderMarkers ms suffix := by
  simp [renderMarkers]

theorem regexIterate_render (cs : List Char) :
    ∀ (skip : Nat) (pre : List Char),
      renderMarkers (regexIterate cs skip pre).1 (regexIterate cs skip pre).2
        = pre ++ cs.drop skip := by
  induction cs with
  | nil =>
    intro skip pre
    rw [regexIterate_nil]
    simp [renderMarkers]
  | cons c cs ih =>
    intro skip pre
    cases skip with
    | succ k =>
      rw [regexIterate_skip, ih]
      rfl
    | zero =>
      cases hm : regexMatchAt (c :: cs) with
      | none =>
        rw [regexIterate_none c cs pre hm, ih]
        simp
      | some name =>
        rw [regexIterate_some c cs name pre hm]
        simp only
        rw [renderMarkers_cons, ih]
        obtain ⟨c1, run, tail, rfl, _, _, _, hcs⟩ := regexMatchAt_some _ _ hm
        injection hcs with h1 h2
        subst h1 h2
        simp

theorem regexIterate_names (cs : List Char) :
    ∀ (skip : Nat) (pre : List Char), ∀ m ∈ (regexIterate cs skip pre).1,
      isMatchedName m.2 = true := by
  induction cs with
  | nil =>
    intro skip pre m hm
    rw [regexIterate_nil] at hm
    simp at hm
  | cons c cs ih =>
    intro skip pre m hm
    cases skip with
    | succ k =>
      rw [regexIterate_skip] at hm
      exact ih k pre m hm
    | zero =>
      cases hma : regexMatchAt (c :: cs) with
      | none =>
        rw [regexIterate_none c cs pre hma] at hm
        exact ih 0 _ m hm
      | some name =>
        rw [regexIterate_some c cs name pre hma] at hm
        rcases List.mem_cons.1 hm with rfl | hm2
        · exact regexMatchAt_isMatchedName _ _ hma
        · exact ih _ _ m hm2

theorem regexIterate_no_match (cs : List Char) :
    ∀ (pre : List Char), (∀ k, regexMatchAt (cs.drop k) = none) →
      regexIterate cs 0 pre = ([], pre ++ cs) := by
  induction cs with
  | nil =>
    intro pre _
    simp [regexIterate]
  | cons c cs ih =>
    intro pre h
    rw [regexIterate_none c cs pre (h 0), ih (pre ++ [c]) (fun k => h (k + 1))]
    simp

theorem regexMatchAt_short (cs : List Char) (h : cs.length ≤ 4) (k : Nat) :
    regexMatchAt (cs.drop k) = none := by
  cases hm : regexMatchAt (cs.drop k) with
  | none => rfl
  | some name =>
    have := (regexMatchAt_length _ _ hm).1
    rw [List.length_drop] at this
    omega

theorem printSubs_no_match (format : String) (env : List (Environment τ))
    (h : (regexIterate format.data 0 []).1 = []) :
    printSubs format env = { result := .ok format, state := env } := by
  unfold printSubs
  rw [h]
  rfl

theorem markRequired_result_length (is : List Nat) :
    ∀ (l1 l2 : List (Bool × String)), l1.length = l2.length →
      (markRequired is l1).result = (markRequired is l2).result := by
  induction is with
  | nil => intro l1 l2 _; rfl
  | cons i rest ih =>
    intro l1 l2 hlen
    unfold markRequired
    by_cases hi : i < l1.length
    · have hi2 : i < l2.length := hlen ▸ hi
      rw [List.getElem?_eq_getElem hi, List.getElem?_eq_getElem hi2]
      simp only
      apply ih
      simp [hlen]
    · have hi2 : ¬ i < l2.length := hlen ▸ hi
      rw [List.getElem?_eq_none (by omega), List.getElem?_eq_none (by omega)]

theorem getName_result_stable (chain : List (Environment τ)) (other name : String) :
    (getName (getName chain other).state name).result = (getName chain name).result := by
  induction chain with
  | nil => rfl
  | cons e context ih =>
    cases e with
    | external e =>
      rw [getName_external_cons e context other]
      unfold EnvironmentExternal.getName
      cases hl : e.environment.lookup other with
      | some b => rfl
      | none =>
        simp only
        by_cases hc : context.isEmpty = true
        · rw [if_pos hc]
          simp only
          rw [List.isEmpty_iff] at hc
          subst hc
          rfl
        · rw [if_neg hc]
          simp only
          have hne : ¬ (getName context other).state.isEmpty = true := by
            intro h
            apply hc
            rw [List.isEmpty_iff] at h ⊢
            have := getName_length context other
            rw [h] at this
            exact List.length_eq_zero.1 this.symm
          rw [getName_external_cons, getName_external_cons]
          unfold EnvironmentExternal.getName
          cases hn : e.environment.lookup name with
          | some b => rfl
          | none =>
            simp only
            rw [if_neg hne, if_neg hc]
            exact ih
    | substitute s =>
      rw [getName_substitute_cons s context other]
      unfold EnvironmentSubstitute.getName
      cases hl : s.varSubstitutions.lookup other with
      | none =>
        simp only
        rw [getName_substitute_cons, getName_substitute_cons]
        unfold EnvironmentSubstitute.getName
        cases hn : s.varSubstitutions.lookup name with
        | none => exact ih
        | some b => rfl
      | some b =>
        simp only
        rw [getName_substitute_cons, getName_substitute_cons]
        unfold EnvironmentSubstitute.getName
        simp only
        cases hn : s.varSubstitutions.lookup name with
        | none => rfl
        | some b2 =>
          simp only
          rw [markRequired_result_length b2.2 _ s.initialisers (markRequired_length _ _)]

theorem renderValues_cons (val : String → String) (pre name : List Char)
    (ms : List (List Char × List Char)) (suffix : List Char) :
    renderValues val ((pre, name) :: ms) suffix
      = pre ++ (val (String.mk name)).data ++ renderValues val ms suffix := by
  simp [renderValues]

theorem printSubsLoop_values (val : String → String) (ms : List (List Char × List Char))
    (suffix : List Char) :
    ∀ (output : String) (env : List (Environment τ)),
      (∀ m ∈ ms, (getName env (String.mk m.2)).result = .ok (val (String.mk m.2))) →
      (printSubsLoop ms suffix output env).result
        = .ok (output ++ String.mk (renderValues val ms suffix)) := by
  induction ms with
  | nil =>
    intro output env _
    simp [printSubsLoop, renderValues]
  | cons m ms ih =>
    intro output env h
    obtain ⟨pre, name⟩ := m
    have hm := h (pre, name) (List.mem_cons_self _ _)
    simp only at hm
    unfold printSubsLoop
    rw [hm]
    simp only
    rw [ih _ _ (fun m2 hm2 => by
      rw [getName_result_stable]
      exact h m2 (List.mem_cons_of_mem _ hm2)), renderValues_cons]
    congr 1
    apply String.ext
    simp [String.data_append]

theorem isMatchedName_no_paren (name : List Char) (h : isMatchedName name = true) :
    ∀ x ∈ name, x ≠ '(' ∧ x ≠ ')' := by
  cases name with
  | nil => simp [isMatchedName] at h
  | cons c run =>
    simp only [isMatchedName, Bool.and_eq_true, List.all_eq_true] at h
    obtain ⟨⟨hc, _⟩, hall⟩ := h
    intro x hx
    rcases List.mem_cons.1 hx with rfl | hx
    · constructor
      · rintro rfl
        exact absurd hc (by decide)
      · rintro rfl
        exact absurd hc (by decide)
    · have := hall x hx
      constructor
      · rintro rfl
        exact absurd this (by decide)
      · rintro rfl
        exact absurd this (by decide)

theorem append_sep_unique (a : Char) :
    ∀ (l1 l2 t1 t2 : List Char), a ∉ l1 → a ∉ l2 → l1 ++ a :: t1 = l2 ++ a :: t2 → l1 = l2 := by
  intro l1
  induction l1 with
  | nil =>
    intro l2 t1 t2 _ h2 h
    cases l2 with
    | nil => rfl
    | cons y l2 =>
      simp only [List.nil_append, List.cons_append, List.cons.injEq] at h
      exact absurd (List.mem_cons.2 (Or.inl h.1)) h2
  | cons x l1 ih =>
    intro l2 t1 t2 h1 h2 h
    cases l2 with
    | nil =>
      simp only [List.nil_append, List.cons_append, List.cons.injEq] at h
      exact absurd (List.mem_cons.2 (Or.inl h.1.symm)) h1
    | cons y l2 =>
      simp only [List.cons_append, List.cons.injEq] at h
      rw [h.1, ih l2 t1 t2 (fun hm => h1 (List.mem_cons_of_mem _ hm))
        (fun hm => h2 (List.mem_cons_of_mem _ hm)) h.2]

theorem regexMatchAt_exact (cs name : List Char) (h : regexMatchAt cs = some name) :
    ∃ tail, cs = '$' :: '(' :: name ++ ')' :: tail := by
  obtain ⟨c, run, tail, rfl, _, _, _, rfl⟩ := regexMatchAt_some cs name h
  exact ⟨tail, rfl⟩

/-- C17: a marker whose name is a single character is not replaced: for every
character `c` and every environment, whatever it binds, `printSubs` returns
the format `$(c)` as it is and leaves the environment as it was, so the
output is not the text `value` bound to the name. -/
theorem printSubs_single_character_name (c : Char) (env : List (Environment τ)) (value : String)
    (hne : value ≠ String.mk ['$', '(', c, ')']) :
    printSubs (String.mk ['$', '(', c, ')']) env
      = { result := .ok (String.mk ['$', '(', c, ')']), state := env }
    ∧ (printSubs (String.mk ['$', '(', c, ')']) env).result ≠ .ok value := by
  have h : printSubs (String.mk ['$', '(', c, ')']) env
      = { result := .ok (String.mk ['$', '(', c, ')']), state := env } := by
    apply printSubs_no_match
    rw [regexIterate_no_match _ [] (regexMatchAt_short _ (by simp))]
  refine ⟨h, ?_⟩
  rw [h]
  intro heq
  injection heq with heq
  exact hne heq.symm

/-- Witness for C17: `t` is an identifier and the environment binds it to
`time`, but `printSubs` returns `$(t)` unchanged. -/
theorem printSubs_single_character_name_witness :
    isIdentStart 't' = true
    ∧ (getName [(Environment.external { environment := [("t", 0, "time")] } : Environment Nat)]
        "t").result = .ok "time"
    ∧ printSubs "$(t)" [(Environment.external { environment := [("t", 0, "time")] } : Environment Nat)]
      = { result := .ok "$(t)"
          state := [Environment.external { environment := [("t", 0, "time")] }] }
    ∧ (printSubs "$(t)"
        [(Environment.external { environment := [("t", 0, "time")] } : Environment Nat)]).result
      ≠ .ok "time" :=
  ⟨by decide, rfl,
    printSubs_single_character_name 't'
      [Environment.external { environment := [("t", 0, "time")] }] "time" (by decide)⟩

theorem regexMatchAt_dollar (x : Char) (rest name : List Char)
    (h : regexMatchAt (x :: rest) = some name) : x = '$' := by
  obtain ⟨tail, ht⟩ := regexMatchAt_exact _ _ h
  injection ht

theorem regexMatchAt_marker (name tail : List Char) (h : isMatchedName name = true) :
    regexMatchAt ('$' :: '(' :: name ++ ')' :: tail) = some name := by
  cases name with
  | nil => simp [isMatchedName] at h
  | cons c run =>
    simp only [isMatchedName, Bool.and_eq_true, List.all_eq_true, Bool.not_eq_true',
      List.isEmpty_eq_false] at h
    obtain ⟨⟨hc, hrun⟩, hall⟩ := h
    have htake : (run ++ ')' :: tail).takeWhile isWordChar = run := by
      rw [List.takeWhile_append_of_pos hall, List.takeWhile_cons_of_neg (by decide)]
      simp
    have hdrop : (run ++ ')' :: tail).dropWhile isWordChar = ')' :: tail := by
      rw [List.dropWhile_append_of_pos hall, List.dropWhile_cons_of_neg (by decide)]
    simp only [List.cons_append, regexMatchAt, htake, hdrop]
    simp [hc, hrun]

theorem regexMatchAt_inside (name tail : List Char) (h : isMatchedName name = true) (k : Nat)
    (hk : k < name.length + 2) :
    regexMatchAt (('(' :: name ++ ')' :: tail).drop k) = none := by
  cases hm : regexMatchAt (('(' :: name ++ ')' :: tail).drop k) with
  | none => rfl
  | some n2 =>
    exfalso
    cases hd : ('(' :: name ++ ')' :: tail).drop k with
    | nil => rw [hd] at hm; simp [regexMatchAt] at hm
    | cons x rest =>
      rw [hd] at hm
      have hx := regexMatchAt_dollar x rest n2 hm
      subst hx
      have hmem : '$' ∈ '(' :: name ++ [')'] := by
        have h1 : ('(' :: name ++ ')' :: tail) = ('(' :: name ++ [')']) ++ tail := by simp
        rw [h1, List.drop_append_of_le_length (by simp; omega)] at hd
        have h2 : '$' ∈ ('(' :: name ++ [')']).drop k ++ tail := by rw [hd]; simp
        cases hd2 : ('(' :: name ++ [')']).drop k with
        | nil =>
          have := congrArg List.length hd2
          simp at this
          omega
        | cons y ys =>
          rw [hd2] at hd
          injection hd with hy _
          subst hy
          exact List.mem_of_mem_drop (hd2 ▸ List.mem_cons_self _ _)
      simp only [List.cons_append, List.mem_cons, List.mem_append, List.mem_singleton] at hmem
      rcases hmem with hmem | hmem | hmem
      · exact absurd hmem (by decide)
      · have hall : ∀ x ∈ name, isWordChar x = true ∨ isIdentStart x = true := by
          cases name with
          | nil => simp at hmem
          | cons c run =>
            simp only [isMatchedName, Bool.and_eq_true, List.all_eq_true] at h
            intro x hx
            rcases List.mem_cons.1 hx with rfl | hx
            · exact Or.inr h.1.1
            · exact Or.inl (h.2 x hx)
        rcases hall _ hmem with h1 | h1
        · exact absurd h1 (by decide)
        · exact absurd h1 (by decide)
      · exact absurd hmem (by decide)

theorem regexIterate_allMatches (cs : List Char) :
    ∀ (skip : Nat) (pre : List Char), (∀ k, k < skip → regexMatchAt (cs.drop k) = none) →
      (regexIterate cs skip pre).1.map Prod.snd = allMatches cs := by
  induction cs with
  | nil =>
    intro skip pre _
    rw [regexIterate_nil]
    rfl
  | cons c cs ih =>
    intro skip pre h
    cases skip with
    | succ k =>
      rw [regexIterate_skip, ih k pre (fun j hj => h (j + 1) (by omega))]
      have h0 := h 0 (by omega)
      simp only [List.drop_zero] at h0
      simp [allMatches, h0]
    | zero =>
      cases hm : regexMatchAt (c :: cs) with
      | none =>
        rw [regexIterate_none c cs pre hm, ih 0 _ (fun j hj => absurd hj (by omega))]
        simp [allMatches, hm]
      | some name =>
        rw [regexIterate_some c cs name pre hm]
        simp only [List.map_cons]
        obtain ⟨tail, ht⟩ := regexMatchAt_exact _ _ hm
        have h2 := (List.cons.inj ht).2
        subst h2
        rw [ih _ [] (fun j hj =>
          regexMatchAt_inside name tail (regexMatchAt_isMatchedName _ _ hm) j hj)]
        simp only [List.append_eq, List.cons_append] at hm
        simp [allMatches, hm]

/-- C18: when every name `printSubs` matches in the format is bound, to the text
`val` gives for it, the format is the matches in order, each as the unmatched
text before it and the marker `$(name)`, followed by the unmatched text after
the last one, and the output is the same sequence with every marker replaced
by the text bound to its name, inserted as it is; a format in which the
regular expression matches nowhere is returned unchanged, with the
environment as it was; and the matches are all the places of the format at
which the regular expression matches, which it does at every `$(name)` whose
name is a letter or underscore followed by one or more word characters. -/
theorem printSubs_replaces_matches (format : String) (env : List (Environment τ))
    (val : String → String)
    (hbound : ∀ m ∈ (regexIterate format.data 0 []).1,
      (getName env (String.mk m.2)).result = .ok (val (String.mk m.2))) :
    format.data
      = renderMarkers (regexIterate format.data 0 []).1 (regexIterate format.data 0 []).2
    ∧ (printSubs format env).result
      = .ok (String.mk
          (renderValues val (regexIterate format.data 0 []).1 (regexIterate format.data 0 []).2))
    ∧ ((∀ k, regexMatchAt (format.data.drop k) = none) →
        printSubs format env = { result := .ok format, state := env })
    ∧ (regexIterate format.data 0 []).1.map Prod.snd = allMatches format.data
    ∧ (∀ name tail, isMatchedName name = true →
        regexMatchAt ('$' :: '(' :: name ++ ')' :: tail) = some name) := by
  have hrender := regexIterate_render format.data 0 []
  simp only [List.nil_append, List.drop_zero] at hrender
  refine ⟨hrender.symm, ?_, ?_,
    regexIterate_allMatches format.data 0 [] (fun k hk => absurd hk (by omega)),
    fun name tail h => regexMatchAt_marker name tail h⟩
  · unfold printSubs
    by_cases he : (regexIterate format.data 0 []).1.isEmpty = true
    · rw [if_pos he]
      rw [List.isEmpty_iff] at he
      have h2 := hrender
      rw [he] at h2 ⊢
      simp only [renderMarkers, List.flatMap_nil, List.nil_append] at h2
      simp only [renderValues, List.flatMap_nil, List.nil_append, h2]
    · rw [if_neg he, printSubsLoop_values val _ _ "" env hbound]
      congr 1
  · intro h
    apply printSubs_no_match
    rw [regexIterate_no_match _ [] h]

/-- Witness for C18: both markers of `a $(ab) b$(cd).` are replaced, the text
around them is kept, and the text `$(cd)` that replaces `$(ab)` is not
replaced again. -/
theorem printSubs_replaces_matches_witness :
    (printSubs "a $(ab) b$(cd)."
        [(Environment.external { environment := [("ab", 0, "$(cd)"), ("cd", 0, "X")] } :
          Environment Nat)]).result
      = .ok "a $(cd) bX."
    ∧ (printSubs "no marker: $(0) $(x) (ab)"
        [(Environment.external { environment := [("ab", 0, "$(cd)"), ("cd", 0, "X")] } :
          Environment Nat)])
      = { result := .ok "no marker: $(0) $(x) (ab)"
          state := [Environment.external { environment := [("ab", 0, "$(cd)"), ("cd", 0, "X")] }] } := by
  have h1 := printSubs_replaces_matches "a $(ab) b$(cd)."
    [(Environment.external { environment := [("ab", 0, "$(cd)"), ("cd", 0, "X")] } :
      Environment Nat)]
    (fun name => if name = "ab" then "$(cd)" else "X")
    (by
      have hm : (regexIterate "a $(ab) b$(cd).".data 0 []).1
          = [(['a', ' '], ['a', 'b']), ([' ', 'b'], ['c', 'd'])] := by decide
      rw [hm]
      intro m hmem
      simp only [List.mem_cons, List.mem_singleton, List.not_mem_nil, or_false] at hmem
      rcases hmem with rfl | rfl
      · rfl
      · rfl)
  have h2 := printSubs_replaces_matches "no marker: $(0) $(x) (ab)"
    [(Environment.external { environment := [("ab", 0, "$(cd)"), ("cd", 0, "X")] } :
      Environment Nat)]
    (fun name => name)
    (by
      have hm : (regexIterate "no marker: $(0) $(x) (ab)".data 0 []).1 = [] := by decide
      rw [hm]
      intro m hmem
      simp at hmem)
  refine ⟨?_, ?_⟩
  · rw [h1.2.1]
    exact congrArg Except.ok (by decide)
  · apply h2.2.2.1
    intro k
    have hlen : "no marker: $(0) $(x) (ab)".data.length = 25 := by decide
    by_cases hk : k < 25
    · interval_cases k <;> decide
    · rw [List.drop_of_length_le (by omega)]
      rfl

theorem regexMatchAt_content (content tail : List Char) (hclose : ∀ x ∈ content, x ≠ ')')
    (hname : isMatchedName content = false) :
    regexMatchAt ('$' :: '(' :: content ++ ')' :: tail) = none := by
  cases hm : regexMatchAt ('$' :: '(' :: content ++ ')' :: tail) with
  | none => rfl
  | some name =>
    exfalso
    have hn := regexMatchAt_isMatchedName _ _ hm
    obtain ⟨tail2, h2⟩ := regexMatchAt_exact _ _ hm
    simp only [List.cons_append, List.cons.injEq, true_and] at h2
    have := append_sep_unique ')' content name tail tail2
      (fun hmem => hclose _ hmem rfl)
      (fun hmem => (isMatchedName_no_paren name hn _ hmem).2 rfl) h2
    rw [this, hn] at hname
    exact Bool.noConfusion hname

theorem regexMatchAt_unterminated (content : List Char) (hclose : ∀ x ∈ content, x ≠ ')') :
    regexMatchAt ('$' :: '(' :: content) = none := by
  cases hm : regexMatchAt ('$' :: '(' :: content) with
  | none => rfl
  | some name =>
    exfalso
    obtain ⟨tail2, h2⟩ := regexMatchAt_exact _ _ hm
    simp only [List.cons_append, List.cons.injEq, true_and] at h2
    exact hclose ')' (by rw [h2]; simp) rfl

/-- C19: for every environment, also one in which every lookup would throw,
`printSubs` returns `$(0)`, `$()`, `$(name` and `$(a(b))` unchanged and
leaves the environment as it was. In every format each match is `$(`, a
name and `)`, where the name is a letter or underscore followed by one or
more word characters and so holds no parenthesis; a marker whose content up
to the first `)` is not such a name does not match, and neither does a
marker without a `)`. -/
theorem printSubs_non_identifier_markers (env : List (Environment τ)) (format : String) :
    printSubs "$(0)" env = { result := .ok "$(0)", state := env }
    ∧ printSubs "$()" env = { result := .ok "$()", state := env }
    ∧ printSubs "$(name" env = { result := .ok "$(name", state := env }
    ∧ printSubs "$(a(b))" env = { result := .ok "$(a(b))", state := env }
    ∧ (∀ m ∈ (regexIterate format.data 0 []).1,
        isMatchedName m.2 = true ∧ ∀ x ∈ m.2, x ≠ '(' ∧ x ≠ ')')
    ∧ (∀ cs name, regexMatchAt cs = some name →
        isMatchedName name = true ∧ ∃ tail, cs = '$' :: '(' :: name ++ ')' :: tail)
    ∧ (∀ content tail, (∀ x ∈ content, x ≠ ')') → isMatchedName content = false →
        regexMatchAt ('$' :: '(' :: content ++ ')' :: tail) = none)
    ∧ (∀ content, (∀ x ∈ content, x ≠ ')') → regexMatchAt ('$' :: '(' :: content) = none) := by
  refine ⟨?_, ?_, ?_, ?_, ?_, ?_, regexMatchAt_content, regexMatchAt_unterminated⟩
  · exact printSubs_no_match _ env (by decide)
  · exact printSubs_no_match _ env (by decide)
  · exact printSubs_no_match _ env (by decide)
  · exact printSubs_no_match _ env (by decide)
  · intro m hm
    have := regexIterate_names format.data 0 [] m hm
    exact ⟨this, isMatchedName_no_paren _ this⟩
  · intro cs name h
    exact ⟨regexMatchAt_isMatchedName _ _ h, regexMatchAt_exact _ _ h⟩

end EnvironmentProofs

/-! ## `prettyPrintExpression` and `prettyPrintStatements` -/

/-- C20: when the parser has recorded an error in the error handler and returned,
and the type checker returns without raising, `prettyPrintExpression` and
`prettyPrintStatements` go on and call `PrettyPrinter::print`: their outcome
is the outcome of printing what was parsed, so code is emitted for a unit
with a recorded parse error. Only an exception stops them: when the type
checker raises, the outcome is that exception, whatever the printer is. -/
theorem prettyPrint_after_parse_error (T : Transpiler) (tokens : List T.Token)
    (typeContext : T.TypeContext) (env : T.EnvironmentExternalBase)
    (errorHandler : T.ErrorHandlerBase) (tcHandler : T.TypeCheckHandler)
    (ppHandler : T.PrettyPrintHandler) :
    (∀ expression eh resolvedTypes st,
      T.parseExpression tokens typeContext errorHandler = { result := .ok expression, state := eh } →
      T.hasError eh = true →
      T.typeCheckExpression expression env typeContext eh
        = { result := .ok resolvedTypes, state := st } →
      prettyPrintExpression T tokens typeContext env errorHandler
        = { result := (T.printExpression expression st.1 typeContext resolvedTypes).result
            state := ((T.printExpression expression st.1 typeContext resolvedTypes).state, st.2) })
    ∧ (∀ statements eh resolvedTypes st,
      T.parseBlockItemList tokens typeContext errorHandler
        = { result := .ok statements, state := eh } →
      T.hasError eh = true →
      T.typeCheckStatements statements env typeContext eh tcHandler
        = { result := .ok resolvedTypes, state := st } →
      prettyPrintStatements T tokens typeContext env errorHandler tcHandler ppHandler
        = { result := (T.printStatements statements st.1 typeContext resolvedTypes ppHandler).result
            state := ((T.printStatements statements st.1 typeContext resolvedTypes ppHandler).state,
              st.2) })
    ∧ (∀ expression eh msg st,
      T.parseExpression tokens typeContext errorHandler = { result := .ok expression, state := eh } →
      T.typeCheckExpression expression env typeContext eh = { result := .error msg, state := st } →
      prettyPrintExpression T tokens typeContext env errorHandler
        = { result := .error msg, state := st })
    ∧ (∀ statements eh msg st,
      T.parseBlockItemList tokens typeContext errorHandler
        = { result := .ok statements, state := eh } →
      T.typeCheckStatements statements env typeContext eh tcHandler
        = { result := .error msg, state := st } →
      prettyPrintStatements T tokens typeContext env errorHandler tcHandler ppHandler
        = { result := .error msg, state := st }) := by
  refine ⟨?_, ?_, ?_, ?_⟩
  · intro expression eh resolvedTypes st hparse _ htc
    unfold prettyPrintExpression
    rw [hparse]
    simp only
    rw [htc]
  · intro statements eh resolvedTypes st hparse _ htc
    unfold prettyPrintStatements
    rw [hparse]
    simp only
    rw [htc]
  · intro expression eh msg st hparse htc
    unfold prettyPrintExpression
    rw [hparse]
    simp only
    rw [htc]
  · intro statements eh msg st hparse htc
    unfold prettyPrintStatements
    rw [hparse]
    simp only
    rw [htc]

/-- Witness for C20: for the tokens of `x; +; y;` the parser reports the error in
`+;` and returns the statements `x` and `y`, the type checker accepts them,
and `prettyPrintStatements` and `prettyPrintExpression` print them: the
stream holds `lx;` and `ly;` although the error flag is set. -/
theorem prettyPrint_after_parse_error_witness :
    exampleParse exampleTokens { m_Error := false }
      = { result := .ok ["x", "y"], state := { m_Error := true } }
    ∧ prettyPrintStatements exampleTranspiler exampleTokens () exampleEnv { m_Error := false } () ()
      = { result := .ok ()
          state := (({ environment := [("x", (), "lx"), ("y", (), "ly")] }, "lx;\nly;\n"),
            { m_Error := true }) }
    ∧ prettyPrintExpression exampleTranspiler exampleTokens () exampleEnv { m_Error := false }
      = { result := .ok ()
          state := (({ environment := [("x", (), "lx"), ("y", (), "ly")] }, "lx;\nly;\n"),
            { m_Error := true }) } := by
  have h := prettyPrint_after_parse_error exampleTranspiler exampleTokens () exampleEnv
    { m_Error := false } () ()
  exact ⟨rfl, h.2.1 ["x", "y"] { m_Error := true } [(), ()] (exampleEnv, { m_Error := true })
      rfl rfl rfl,
    h.1 ["x", "y"] { m_Error := true } [(), ()] (exampleEnv, { m_Error := true }) rfl rfl rfl⟩

/-! ## Termination and range of the bisect loop -/

theorem bisect_fuel (t : List Nat) (id : Nat) (hn : t.length < 2 ^ 31) :
    ∀ fuel lo hi, lo ≤ hi → hi ≤ t.length → hi - lo < 2 ^ fuel →
      ∃ r, bisect t id fuel lo hi = some r ∧ lo ≤ r ∧ r ≤ hi := by
  intro fuel
  induction fuel with
  | zero =>
    intro lo hi hle _ hfuel
    have : lo = hi := by simp at hfuel; omega
    subst this
    exact ⟨lo, by simp [bisect], le_rfl, le_rfl⟩
  | succ fuel ih =>
    intro lo hi hle hhi hfuel
    by_cases hlt : lo < hi
    · have hsum : addU32 lo hi = lo + hi := addU32_eq _ _ (by omega)
      have hmid1 : lo ≤ (lo + hi) / 2 := by omega
      have hmid2 : (lo + hi) / 2 < hi := by omega
      have hmidn : (lo + hi) / 2 < t.length := by omega
      have hsucc : addU32 ((lo + hi) / 2) 1 = (lo + hi) / 2 + 1 := addU32_eq _ _ (by omega)
      have hpow : 2 ^ (fuel + 1) = 2 * 2 ^ fuel := by rw [pow_succ]; omega
      rw [bisect]
      simp only [hlt, if_true, hsum, List.getElem?_eq_getElem hmidn, hsucc]
      by_cases hcmp : id < t[(lo + hi) / 2]
      · simp only [hcmp, if_true]
        obtain ⟨r, hr, h1, h2⟩ := ih lo ((lo + hi) / 2) hmid1 (by omega) (by omega)
        exact ⟨r, hr, h1, by omega⟩
      · simp only [hcmp, if_false]
        obtain ⟨r, hr, h1, h2⟩ := ih ((lo + hi) / 2 + 1) hi (by omega) hhi (by omega)
        exact ⟨r, hr, by omega, h2⟩
    · have : lo = hi := by omega
      subst this
      refine ⟨lo, ?_, le_rfl, le_rfl⟩
      rw [bisect]
      simp

theorem bisect_fuel_mono (t : List Nat) (id : Nat) :
    ∀ fuel fuel2 lo hi r, fuel ≤ fuel2 → bisect t id fuel lo hi = some r →
      bisect t id fuel2 lo hi = some r := by
  intro fuel
  induction fuel with
  | zero =>
    intro fuel2 lo hi r _ h
    unfold bisect at h ⊢
    by_cases hlt : lo < hi
    · simp [hlt] at h
    · simp only [hlt, if_false] at h ⊢
      exact h
  | succ fuel ih =>
    intro fuel2 lo hi r hle h
    obtain ⟨f2, rfl⟩ : ∃ f2, fuel2 = f2 + 1 := ⟨fuel2 - 1, by omega⟩
    unfold bisect at h ⊢
    by_cases hlt : lo < hi
    · simp only [hlt, if_true] at h ⊢
      cases hm : t[addU32 lo hi / 2]? with
      | none => rw [hm] at h; simp at h
      | some s =>
        rw [hm] at h
        simp only at h ⊢
        by_cases hcmp : id < s
        · simp only [hcmp, if_true] at h ⊢
          exact ih f2 _ _ r (by omega) h
        · simp only [hcmp, if_false] at h ⊢
          exact ih f2 _ _ r (by omega) h
    · simp only [hlt, if_false] at h ⊢
      exact h

/-- C22: for every start-ID table of length `N ≥ 1` (below `2 ^ 31`, so that
`lo + hi` fits an `unsigned int`) and every lane id, the emitted bisect loop
started with `lo = 0` and `hi = N` ends after at most `⌊log₂ N⌋ + 1` runs of
its body, with `lo` at most `N`, and never reads the table out of bounds. -/
theorem bisect_terminates (startID : List Nat) (id : Nat) (hN : 1 ≤ startID.length)
    (hN31 : startID.length < 2 ^ 31) :
    ∃ lo, bisect startID id (Nat.log 2 startID.length + 1) 0 (startID.length % uintSize) = some lo
      ∧ lo ≤ startID.length := by
  have _h := hN
  have hmod : startID.length % uintSize = startID.length := by
    unfold uintSize
    exact Nat.mod_eq_of_lt (by omega)
  rw [hmod]
  obtain ⟨r, hr, _, h2⟩ := bisect_fuel startID id hN31 (Nat.log 2 startID.length + 1) 0
    startID.length (by omega) le_rfl (by
      rw [Nat.sub_zero]
      exact Nat.lt_pow_succ_log_self (by omega) _)
  exact ⟨r, hr, h2⟩

/-- Witness for C22: a table of 5 entries needs at most `⌊log₂ 5⌋ + 1 = 3` runs
of the loop body; for lane id 25 the loop ends with `lo = 3`. -/
theorem bisect_terminates_witness :
    Nat.log 2 5 + 1 = 3
    ∧ bisect [0, 10, 20, 30, 40] 25 3 0 5 = some 3
    ∧ ∃ lo, bisect [0, 10, 20, 30, 40] 25 (Nat.log 2 [0, 10, 20, 30, 40].length + 1) 0
        ([0, 10, 20, 30, 40].length % uintSize) = some lo ∧ lo ≤ [0, 10, 20, 30, 40].length :=
  ⟨by simp [Nat.log], by decide,
    bisect_terminates [0, 10, 20, 30, 40] 25 (by decide) (by decide)⟩

section BisectRange

variable {G : Type}

/-- C26: for a merged group with `N ≥ 2` members, its start-ID table (ascending,
first entry `idStart`) and a lane id that satisfies the group's guard, the
bisect loop ends with `1 ≤ lo ≤ N`; `lo - 1` does not wrap around and is an
index into the table and into the members, the table entry there is at most
`id`, so the local id `id - startID[lo - 1]` does not wrap around either, and
it is smaller than the padded size of member `lo - 1`.  The kernel's
`unsigned int` variables are 32 bit wide (`id < 2 ^ 32`, `N < 2 ^ 31`) and
the host sum fits a `size_t`. -/
theorem bisect_lo_in_range (pad : G → Nat) (groups : List G) (idStart id fuel : Nat)
    (hN : 2 ≤ groups.length) (hN31 : groups.length < 2 ^ 31)
    (hfit : idStart + summedPaddedSize pad groups < 2 ^ 64)
    (hid : id < 2 ^ 32)
    (hguard : genGroupGuard idStart (paddedSize pad groups) id = true)
    (hfuel : Nat.log 2 groups.length + 1 ≤ fuel) :
    (startIDTable pad idStart groups)[0]? = some idStart
    ∧ List.Pairwise (fun a b => a ≤ b) (startIDTable pad idStart groups)
    ∧ ∃ lo s g,
      bisect (startIDTable pad idStart groups) id fuel 0 (groups.length % uintSize) = some lo
      ∧ 1 ≤ lo ∧ lo ≤ groups.length
      ∧ subU32 lo 1 = lo - 1 ∧ lo - 1 < groups.length
      ∧ (startIDTable pad idStart groups)[lo - 1]? = some s
      ∧ groups[lo - 1]? = some g
      ∧ s ≤ id ∧ subU32 id s = id - s ∧ id - s < pad g
      ∧ genGroupBody pad groups idStart id fuel = some (lo - 1, id - s) := by
  set T : Nat → Nat := fun k => idStart + summedPaddedSize pad (groups.take k) with hTdef
  have hlen := startIDTable_length pad groups idStart
  have hT : ∀ k, k < (startIDTable pad idStart groups).length →
      (startIDTable pad idStart groups)[k]? = some (T k) := by
    intro k hk
    exact startIDTable_getElem? pad groups idStart k (by omega)
  have hmono : ∀ i j, i ≤ j → j < (startIDTable pad idStart groups).length → T i ≤ T j := by
    intro i j hij _
    have := summedPaddedSize_take_le pad groups i j hij
    simp only [hTdef]
    omega
  have hg : idStart ≤ id ∧ id < idStart + summedPaddedSize pad groups := by
    rw [paddedSize_eq pad groups (by omega)] at hguard
    exact (genGroupGuard_iff _ _ _ hfit).1 hguard
  have hmod : groups.length % uintSize = groups.length := by
    unfold uintSize
    exact Nat.mod_eq_of_lt (by omega)
  have hT0 : T 0 = idStart := by simp [hTdef, summedPaddedSize_nil]
  refine ⟨by rw [hT 0 (by omega), hT0], ?_, ?_⟩
  · rw [List.pairwise_iff_getElem]
    intro i j hi hj hij
    have h1 := hT i hi
    have h2 := hT j hj
    rw [List.getElem?_eq_getElem hi] at h1
    rw [List.getElem?_eq_getElem hj] at h2
    injection h1 with h1
    injection h2 with h2
    rw [h1, h2]
    exact hmono i j (by omega) hj
  -- the loop ends within the fuel
  obtain ⟨r0, hr0, _, _⟩ := bisect_fuel (startIDTable pad idStart groups) id (by omega)
    (Nat.log 2 groups.length + 1) 0 groups.length (by omega) (by omega) (by
      rw [Nat.sub_zero]
      exact Nat.lt_pow_succ_log_self (by omega) _)
  have hrF := bisect_fuel_mono _ _ _ fuel _ _ _ hfuel hr0
  have hrM := bisect_fuel_mono _ _ _ (max fuel groups.length) _ _ _ (le_max_left _ _) hrF
  -- what the loop has found
  obtain ⟨r, hr, hrle, hbelow, habove⟩ :=
    bisect_spec (startIDTable pad idStart groups) T id hT hmono (by omega)
      (max fuel groups.length) 0 groups.length
      (by omega) (by omega) (by have := le_max_right fuel groups.length; omega)
      (by intro k hk; omega) (by intro k hk1 hk2; omega)
  have hrr : r0 = r := by
    rw [hrM] at hr
    injection hr
  subst hrr
  have hr1 : 1 ≤ r0 := by
    by_contra hlt
    have h0 : r0 = 0 := by omega
    have := habove 0 (by omega) (by omega)
    rw [hT0] at this
    omega
  have hTm : T (r0 - 1) ≤ id := hbelow (r0 - 1) (by omega)
  have hlt : r0 - 1 < groups.length := by omega
  have hnext : id < T (r0 - 1) + pad (groups.get ⟨r0 - 1, hlt⟩) := by
    have hs := summedPaddedSize_take_succ pad groups (r0 - 1) hlt
    by_cases hrn : r0 < groups.length
    · have := habove r0 le_rfl (by omega)
      have e : r0 - 1 + 1 = r0 := by omega
      rw [e] at hs
      simp only [hTdef] at this ⊢
      omega
    · have e : r0 - 1 + 1 = groups.length := by omega
      rw [e, List.take_length] at hs
      simp only [hTdef]
      omega
  have hsub : subU32 r0 1 = r0 - 1 := subU32_eq _ _ (by omega) hr1
  have hsubid : subU32 id (T (r0 - 1)) = id - T (r0 - 1) := subU32_eq _ _ hid hTm
  refine ⟨r0, T (r0 - 1), groups.get ⟨r0 - 1, hlt⟩, ?_, hr1, by omega, hsub, hlt,
    hT _ (by omega), ?_, hTm, hsubid, by omega, ?_⟩
  · rw [hmod]
    exact hrF
  · rw [List.get_eq_getElem, List.getElem?_eq_getElem]
  · unfold genGroupBody
    rw [if_neg (by omega)]
    simp only [hmod, hrF, hsub, hT (r0 - 1) (by omega), hsubid]

/-- Witness for C26: sizes `[40, 130, 7]` with block size 32 are padded to
`[64, 160, 32]`; the group starts at lane 64 and lane 300 passes its guard;
the loop ends with `lo = 3`, member 2 starts at lane 288, the local id is 12. -/
theorem bisect_lo_in_range_witness :
    startIDTable (fun s => padSize s 32) 64 [40, 130, 7] = [64, 128, 288]
    ∧ genGroupBody (fun s => padSize s 32) [40, 130, 7] 64 300 2 = some (2, 12)
    ∧ ∃ lo s g,
      bisect (startIDTable (fun s => padSize s 32) 64 [40, 130, 7]) 300 2 0
          ([40, 130, 7].length % uintSize) = some lo
      ∧ 1 ≤ lo ∧ lo ≤ [40, 130, 7].length
      ∧ subU32 lo 1 = lo - 1 ∧ lo - 1 < [40, 130, 7].length
      ∧ (startIDTable (fun s => padSize s 32) 64 [40, 130, 7])[lo - 1]? = some s
      ∧ [40, 130, 7][lo - 1]? = some g
      ∧ s ≤ 300 ∧ subU32 300 s = 300 - s ∧ 300 - s < (fun s => padSize s 32) g
      ∧ genGroupBody (fun s => padSize s 32) [40, 130, 7] 64 300 2 = some (lo - 1, 300 - s) :=
  ⟨by decide, by decide,
    (bisect_lo_in_range (fun s => padSize s 32) [40, 130, 7] 64 300 2 (by decide) (by decide)
      (by decide) (by decide) (by decide) (by simp [Nat.log])).2.2⟩

end BisectRange

/-! ## Initialisation RNG -/

section InitRNG

variable {G : Type}

theorem initRNGSubStream_eq (pad : G → Nat) (groups : List G) (idStart id fuel x : Nat)
    (h : initRNGSubStream pad groups idStart id fuel = some x) : x = id := by
  unfold initRNGSubStream laneScope at h
  cases hr : genGroupResolve pad groups idStart id fuel with
  | none => rw [hr] at h; simp at h
  | some r =>
    rw [hr] at h
    simp [genSynapseVarInitSequence, genGlobalRNGSkipAhead, LaneScope.value] at h
    exact h.symm

/-- C21: when an initialisation RNG is required, `genSynapseVarInit` passes the
text `id` to `genGlobalRNGSkipAhead`, the kernel's variable with the lane's
absolute id, while `$(id)` stands for `lid` in the environment `genGroup` has
set up.  So the sub-stream of a lane is its absolute id, and two distinct
lanes of a kernel, each in the block of its merged group (the same or
different ones), never draw from the same sub-stream. -/
theorem skipAhead_uses_absolute_id (pad : G → Nat) (groupsA groupsB : List G)
    (idStartA idStartB idA idB fuel x y : Nat)
    (hA : initRNGSubStream pad groupsA idStartA idA fuel = some x)
    (hB : initRNGSubStream pad groupsB idStartB idB fuel = some y)
    (hne : idA ≠ idB) :
    genSynapseVarInitSequence true = some "id"
    ∧ x = idA ∧ y = idB ∧ x ≠ y
    ∧ (∀ (name : String) (index idStart : Nat) (single : Bool),
        (getName (runCalls [(Environment.substitute EnvironmentSubstitute.new : Environment Unit)]
            (genGroupCalls name index idStart single)).2 "id").result = .ok "lid") := by
  have hx := initRNGSubStream_eq pad groupsA idStartA idA fuel x hA
  have hy := initRNGSubStream_eq pad groupsB idStartB idB fuel y hB
  refine ⟨rfl, hx, hy, by omega, ?_⟩
  intro name index idStart single
  cases single <;> rfl

/-- Witness for C21: lane 5 of a kernel is in the first merged group and lane 69
in the second one, which starts at lane 64; both have the local id 5, and
they draw from the sub-streams 5 and 69. -/
theorem skipAhead_uses_absolute_id_witness :
    laneScope (fun s => padSize s 32) [40] 0 5 1 = some { id := 5, lid := 5 }
    ∧ laneScope (fun s => padSize s 32) [130] 64 69 1 = some { id := 69, lid := 5 }
    ∧ genSynapseVarInitSequence true = some "id"
    ∧ 5 = 5 ∧ 69 = 69 ∧ 5 ≠ 69
    ∧ (∀ (name : String) (index idStart : Nat) (single : Bool),
        (getName (runCalls [(Environment.substitute EnvironmentSubstitute.new : Environment Unit)]
            (genGroupCalls name index idStart single)).2 "id").result = .ok "lid") :=
  ⟨rfl, rfl,
    skipAhead_uses_absolute_id (fun s => padSize s 32) [40] [130] 0 64 5 69 1 5 69 rfl rfl
      (by decide)⟩

end InitRNG

/-! ## Variable access -/

theorem testBit_of_lt_uintSize (a i : Nat) (ha : a < 2 ^ 32) (hi : 32 ≤ i) :
    a.testBit i = false :=
  Nat.testBit_lt_two_pow (lt_of_lt_of_le ha (Nat.pow_le_pow_right (by decide) hi))

theorem clearVarAccessDim_testBit (a b i : Nat) (ha : a < 2 ^ 32) (hb : b < 2 ^ 32) :
    (clearVarAccessDim a b).testBit i = (a.testBit i && !b.testBit i) := by
  unfold clearVarAccessDim notU32 uintSize
  rw [Nat.testBit_and, Nat.mod_eq_of_lt hb,
    show 2 ^ 32 - 1 - b = 2 ^ 32 - (b + 1) from by omega, Nat.testBit_two_pow_sub_succ hb]
  by_cases hi : i < 32
  · simp [hi]
  · simp [hi, testBit_of_lt_uintSize a i ha (by omega)]

theorem dims_of_customUpdateVarAccess (v : CustomUpdateVarAccess) :
    v.toUInt &&& dimMask = v.namedDims.foldl (fun d f => d ||| f) 0
    ∧ v.toUInt &&& dimMask < 2 ^ 32 := by
  cases v <;> decide

theorem flag_testBit (k i : Nat) : (2 ^ k).testBit i = decide (1 <<< i = 2 ^ k) := by
  rw [Nat.testBit_two_pow, Nat.one_shiftLeft]
  by_cases h : k = i
  · subst h
    simp
  · have : 2 ^ i ≠ 2 ^ k := fun e => h (Nat.pow_right_injective (le_refl 2) e).symm
    simp [h, this]

theorem namedDims_testBit (v : CustomUpdateVarAccess) (i : Nat) :
    (v.namedDims.foldl (fun d f => d ||| f) 0).testBit i = decide ((1 <<< i) ∈ v.namedDims) := by
  have hB2 : VarAccessDim.BATCH = 2 ^ 6 := by decide
  have hE2 : VarAccessDim.ELEMENT = 2 ^ 5 := by decide
  cases v <;>
    simp only [CustomUpdateVarAccess.namedDims, List.foldl_cons, List.foldl_nil, Nat.zero_or,
      flag_testBit, List.mem_singleton, hB2, hE2, List.not_mem_nil, Nat.zero_testBit,
      decide_False]

/-- C23: for every `CustomUpdateVarAccess` value `v` and every population
dimension set `p`, `getVarAccessDim v p` is `p` without the dimension flags
set in `v`: a bit of the result is set exactly when it is set in `p` and is
not a flag of `v`; `READ_WRITE` and `READ_ONLY` give `p`, `READ_ONLY_SHARED`,
`REDUCE_BATCH_SUM` and `REDUCE_BATCH_MAX` give `p` without `BATCH`,
`READ_ONLY_SHARED_NEURON`, `REDUCE_NEURON_SUM` and `REDUCE_NEURON_MAX` give
`p` without `ELEMENT`; every bit of the result is a bit of `p`; and
`getVarAccessMode v` is the value of the access mode `v` is named after. -/
theorem getVarAccessDim_removes_flags (v : CustomUpdateVarAccess) (p : VarAccessDim)
    (hp : p < 2 ^ 32) :
    (∀ i, (getVarAccessDim v p).testBit i
        = (p.testBit i && !decide ((1 <<< i) ∈ v.namedDims)))
    ∧ (v.namedDims = [] → getVarAccessDim v p = p)
    ∧ (v.namedDims = [VarAccessDim.BATCH] →
        getVarAccessDim v p = clearVarAccessDim p VarAccessDim.BATCH)
    ∧ (v.namedDims = [VarAccessDim.ELEMENT] →
        getVarAccessDim v p = clearVarAccessDim p VarAccessDim.ELEMENT)
    ∧ (v.namedDims = [] ∨ v.namedDims = [VarAccessDim.BATCH]
        ∨ v.namedDims = [VarAccessDim.ELEMENT])
    ∧ getVarAccessDim v p &&& p = getVarAccessDim v p
    ∧ getVarAccessMode v = v.namedMode.toUInt
    ∧ (p ∈ popDimSets → getVarAccessDim v p ∈ popDimSets) := by
  have hbits : ∀ i, (getVarAccessDim v p).testBit i
      = (p.testBit i && !decide ((1 <<< i) ∈ v.namedDims)) := by
    intro i
    unfold getVarAccessDim
    rw [clearVarAccessDim_testBit _ _ _ hp (dims_of_customUpdateVarAccess v).2,
      (dims_of_customUpdateVarAccess v).1]
    rw [namedDims_testBit]
  refine ⟨hbits, ?_, ?_, ?_, ?_, ?_, ?_, ?_⟩
  · intro h
    apply Nat.eq_of_testBit_eq
    intro i
    rw [hbits, h]
    simp
  · intro h
    unfold getVarAccessDim
    rw [(dims_of_customUpdateVarAccess v).1, h]
    rfl
  · intro h
    unfold getVarAccessDim
    rw [(dims_of_customUpdateVarAccess v).1, h]
    rfl
  · cases v <;> simp [CustomUpdateVarAccess.namedDims]
  · apply Nat.eq_of_testBit_eq
    intro i
    rw [Nat.testBit_and, hbits]
    cases p.testBit i <;> simp
  · cases v <;> decide
  · intro hmem
    simp only [popDimSets, List.mem_cons, List.mem_singleton, List.not_mem_nil, or_false] at hmem
    rcases hmem with rfl | rfl | rfl | rfl <;> cases v <;> decide

/-- Witness for C23: with both dimensions in the population, `REDUCE_BATCH_SUM`
leaves `ELEMENT`, `READ_ONLY_SHARED_NEURON` leaves `BATCH` and `READ_WRITE`
leaves both; the mode of `REDUCE_BATCH_SUM` is `REDUCE_SUM`. -/
theorem getVarAccessDim_removes_flags_witness :
    getVarAccessDim CustomUpdateVarAccess.REDUCE_BATCH_SUM
        (VarAccessDim.ELEMENT ||| VarAccessDim.BATCH) = VarAccessDim.ELEMENT
    ∧ getVarAccessDim CustomUpdateVarAccess.READ_ONLY_SHARED_NEURON
        (VarAccessDim.ELEMENT ||| VarAccessDim.BATCH) = VarAccessDim.BATCH
    ∧ getVarAccessDim CustomUpdateVarAccess.READ_WRITE
        (VarAccessDim.ELEMENT ||| VarAccessDim.BATCH) = VarAccessDim.ELEMENT ||| VarAccessDim.BATCH
    ∧ getVarAccessMode CustomUpdateVarAccess.REDUCE_BATCH_SUM
        = VarAccessMode.REDUCE_SUM.toUInt := by
  have h1 := getVarAccessDim_removes_flags CustomUpdateVarAccess.REDUCE_BATCH_SUM
    (VarAccessDim.ELEMENT ||| VarAccessDim.BATCH) (by decide)
  have h2 := getVarAccessDim_removes_flags CustomUpdateVarAccess.READ_ONLY_SHARED_NEURON
    (VarAccessDim.ELEMENT ||| VarAccessDim.BATCH) (by decide)
  have h3 := getVarAccessDim_removes_flags CustomUpdateVarAccess.READ_WRITE
    (VarAccessDim.ELEMENT ||| VarAccessDim.BATCH) (by decide)
  refine ⟨?_, ?_, h3.2.1 rfl, h1.2.2.2.2.2.2.1⟩
  · rw [h1.2.2.1 rfl]
    decide
  · rw [h2.2.2.2.1 rfl]
    decide

/-! ## Fields and function types of the custom connectivity update -/

/-- C25: `generateUpdate` binds `num_pre` to the number of neurons of the source
population, and `num_post`, under the field name `numTrgNeurons`, to the
number of neurons of the source population as well; the constructor
registers the number of neurons of the target population for
`numTrgNeurons`.  So `num_post` has the value the constructor registers
exactly when the two populations have the same size. -/
theorem num_post_reads_source (sg : SynapseGroupInternal) :
    (generateUpdateFields sg).lookup "num_pre" = some ("numSrcNeurons", sg.srcNumNeurons)
    ∧ (generateUpdateFields sg).lookup "num_post" = some ("numTrgNeurons", sg.srcNumNeurons)
    ∧ (constructorFields sg).lookup "numSrcNeurons" = some sg.srcNumNeurons
    ∧ (constructorFields sg).lookup "numTrgNeurons" = some sg.trgNumNeurons
    ∧ (((generateUpdateFields sg).lookup "num_post").map (fun f => f.2)
        = (constructorFields sg).lookup "numTrgNeurons"
      ↔ sg.srcNumNeurons = sg.trgNumNeurons)
    ∧ ((generateUpdateFields { srcNumNeurons := 10, trgNumNeurons := 20 }).lookup "num_post"
        = some ("numTrgNeurons", 10)
      ∧ (constructorFields { srcNumNeurons := 10, trgNumNeurons := 20 }).lookup "numTrgNeurons"
        = some 20) := by
  refine ⟨rfl, rfl, rfl, rfl, ?_, rfl, rfl⟩
  have h1 : (generateUpdateFields sg).lookup "num_post"
      = some ("numTrgNeurons", sg.srcNumNeurons) := rfl
  have h2 : (constructorFields sg).lookup "numTrgNeurons" = some sg.trgNumNeurons := rfl
  rw [h1, h2]
  simp

theorem addSynapseStores_congr {V : Type} [Zero V] (cfg : UpdateModel) (l : Lane) (newIdx : Nat)
    (args args2 : Nat → V) (h : ∀ k ∈ addSynapseArguments cfg, args k = args2 k) :
    addSynapseStores cfg l newIdx args = addSynapseStores cfg l newIdx args2 := by
  have h0 : args 0 = args2 0 := h 0 (by simp [addSynapseArguments])
  have h1 : ∀ i, i < cfg.numVars → args (1 + i) = args2 (1 + i) := by
    intro i hi
    apply h
    simp only [addSynapseArguments, List.mem_append, List.mem_map, List.mem_range]
    exact Or.inl (Or.inr ⟨i, hi, rfl⟩)
  have h2 : ∀ i, i < cfg.numVarRefs →
      args (1 + cfg.numVars + i) = args2 (1 + cfg.numVars + i) := by
    intro i hi
    apply h
    simp only [addSynapseArguments, List.mem_append, List.mem_map, List.mem_range]
    exact Or.inr ⟨i, hi, rfl⟩
  unfold addSynapseStores
  rw [h0]
  congr 1
  congr 1
  · congr 1
    apply List.map_congr_left
    intro i hi
    rw [h1 i (List.mem_range.1 hi)]
  · apply List.flatMap_congr
    intro i hi
    rw [h2 i (List.mem_range.1 hi)]

/-- C27: the parameter list registered for `add_synapse` has
`1 + |vars| + |varRefs| + |dependentVars|` entries: `Uint32`, the types of
the model variables, of the variable references and, after them, of the
dependent variables.  The emitted body holds the positional arguments
`$(0)` to `$(|vars| + |varRefs|)`, each once and in order, and depends on no
other argument.  So the function type has one parameter per consumed
argument exactly when the model has no dependent variable. -/
theorem addSynapseTypes_counts_dependentVars {τ V : Type} [Zero V] (Uint32 : τ)
    (ccuVars ccuVarRefs dependentVars : List τ) (cfg : UpdateModel) (l : Lane) (newIdx : Nat)
    (hvars : cfg.numVars = ccuVars.length) (hrefs : cfg.numVarRefs = ccuVarRefs.length)
    (hdeps : cfg.numDependentVars = dependentVars.length) :
    (addSynapseTypes Uint32 ccuVars ccuVarRefs dependentVars).length
        = 1 + cfg.numVars + cfg.numVarRefs + cfg.numDependentVars
    ∧ addSynapseArguments cfg = List.range (1 + cfg.numVars + cfg.numVarRefs)
    ∧ (∀ args args2 : Nat → V, (∀ k ∈ addSynapseArguments cfg, args k = args2 k) →
        addSynapseStores cfg l newIdx args = addSynapseStores cfg l newIdx args2)
    ∧ (addSynapseTypes Uint32 ccuVars ccuVarRefs dependentVars).take
          (addSynapseArguments cfg).length = [Uint32] ++ ccuVars ++ ccuVarRefs
    ∧ (addSynapseTypes Uint32 ccuVars ccuVarRefs dependentVars).drop
          (addSynapseArguments cfg).length = dependentVars
    ∧ ((addSynapseTypes Uint32 ccuVars ccuVarRefs dependentVars).length
          = (addSynapseArguments cfg).length ↔ cfg.numDependentVars = 0) := by
  have hargs : addSynapseArguments cfg = List.range (1 + cfg.numVars + cfg.numVarRefs) := by
    unfold addSynapseArguments
    apply List.ext_getElem
    · simp
      omega
    · intro n h1 h2
      simp only [List.length_append, List.length_singleton, List.length_map,
        List.length_range] at h1
      rw [List.getElem_range]
      by_cases hn0 : n = 0
      · subst hn0
        simp
      · by_cases hn1 : n < 1 + cfg.numVars
        · rw [List.getElem_append_left (by simp; omega),
            List.getElem_append_right (by simp; omega)]
          simp
          omega
        · rw [List.getElem_append_right (by simp; omega)]
          simp
          omega
  have hlenA : (addSynapseArguments cfg).length = 1 + cfg.numVars + cfg.numVarRefs := by
    rw [hargs, List.length_range]
  have hlenT : (addSynapseTypes Uint32 ccuVars ccuVarRefs dependentVars).length
      = 1 + cfg.numVars + cfg.numVarRefs + cfg.numDependentVars := by
    simp [addSynapseTypes, hvars, hrefs, hdeps]
    omega
  have hsplit : addSynapseTypes Uint32 ccuVars ccuVarRefs dependentVars
      = ([Uint32] ++ ccuVars ++ ccuVarRefs) ++ dependentVars := rfl
  have hpre : ([Uint32] ++ ccuVars ++ ccuVarRefs).length = (addSynapseArguments cfg).length := by
    rw [hlenA]
    simp [hvars, hrefs]
    omega
  refine ⟨hlenT, hargs, addSynapseStores_congr cfg l newIdx, ?_, ?_, ?_⟩
  · rw [hsplit, ← hpre, List.take_left]
  · rw [hsplit, ← hpre, List.drop_left]
  · rw [hlenT, hlenA]
    omega

/-- Witness for C27: a model without variables and variable references and with
one dependent variable: the body of `add_synapse` holds `$(0)` only, the
function type has two parameters. -/
theorem addSynapseTypes_counts_dependentVars_witness :
    addSynapseArguments { batchSize := 1, numVars := 0, numVarRefs := 0, numDependentVars := 1
                          varRefDuplicated := fun _ => false
                          dependentVarDuplicated := fun _ => false } = [0]
    ∧ addSynapseTypes "unsigned int" [] [] ["float"] = ["unsigned int", "float"]
    ∧ (addSynapseTypes "unsigned int" [] [] ["float"]).length = 1 + 0 + 0 + 1 :=
  ⟨rfl, rfl,
    (@addSynapseTypes_counts_dependentVars String Nat _ "unsigned int" [] [] ["float"]
      { batchSize := 1, numVars := 0, numVarRefs := 0, numDependentVars := 1
        varRefDuplicated := fun _ => false, dependentVarDuplicated := fun _ => false }
      { numPre := 1, rowStride := 1, idPre := 0 } 0 rfl rfl rfl).1⟩

/-! ## The `for_each_synapse` handler -/

section ForEachSynapse

variable {τ : Type}

theorem registered_append (a b : List Call) : registered (a ++ b) = registered a ++ registered b := by
  induction a with
  | nil => rfl
  | cons c cs ih =>
    cases c <;> simp [registered, ih]

theorem registered_getNames (body : List String) : registered (body.map Call.getName) = [] := by
  induction body with
  | nil => rfl
  | cons n ns ih => simpa [registered] using ih

theorem registered_addSubstitutions (synVars : List (String × String)) :
    registered (synVars.map (fun v => Call.addSubstitution v.1 v.2 [0])) = [] := by
  induction synVars with
  | nil => rfl
  | cons n ns ih => simpa [registered] using ih

theorem runCall_unreferenced (guarded : List String) (s : EnvironmentSubstitute)
    (context : List (Environment τ)) (c : Call)
    (hs : ∀ name dest inits, s.varSubstitutions.lookup name = some (dest, inits) →
      inits ≠ [] → name ∈ guarded)
    (hget : ∀ name, c = Call.getName name → name ∉ guarded)
    (hadd : ∀ name dest inits, c = Call.addSubstitution name dest inits →
      inits ≠ [] → name ∈ guarded) :
    ∃ s2 ctx2, (runCall (Environment.substitute s :: context) c).2
        = Environment.substitute s2 :: ctx2
      ∧ (∀ name dest inits, s2.varSubstitutions.lookup name = some (dest, inits) →
          inits ≠ [] → name ∈ guarded)
      ∧ (∀ j, isRequired s2.initialisers j = isRequired s.initialisers j) := by
  cases c with
  | addInitialiser t =>
    refine ⟨_, context, rfl, hs, ?_⟩
    intro j
    simp [EnvironmentSubstitute.addInitialiser, isRequired_append_false]
  | addSubstitution src dst inits =>
    refine ⟨(s.addSubstitution src dst inits).state, context, rfl, ?_, ?_⟩
    · unfold EnvironmentSubstitute.addSubstitution
      split_ifs with hall
      · cases hl : s.varSubstitutions.lookup src with
        | some b => exact hs
        | none =>
          intro name dest is hlook hne
          simp only at hlook
          rw [List.lookup_append] at hlook
          cases hold : s.varSubstitutions.lookup name with
          | some x =>
            rw [hold] at hlook
            have hx : x = (dest, is) := by simpa using hlook
            exact hs name dest is (by rw [hold, hx]) hne
          | none =>
            rw [hold] at hlook
            by_cases hn : name = src
            · subst hn
              have hx : dst = dest ∧ inits = is := by simpa [List.lookup_cons] using hlook
              exact hadd name dst inits rfl (by rw [hx.2]; exact hne)
            · have hb : (name == src) = false := by simpa using hn
              simp [List.lookup_cons, hb] at hlook
      · exact hs
    · intro j
      have : (s.addSubstitution src dst inits).state.initialisers = s.initialisers := by
        unfold EnvironmentSubstitute.addSubstitution
        split_ifs
        · cases s.varSubstitutions.lookup src <;> rfl
        · rfl
      rw [this]
  | getName name =>
    have hn := hget name rfl
    have hstate : (runCall (Environment.substitute s :: context) (Call.getName name)).2
        = (s.getName name context (getName context name)).state := rfl
    rw [hstate]
    unfold EnvironmentSubstitute.getName
    cases hl : s.varSubstitutions.lookup name with
    | none => exact ⟨s, _, rfl, hs, fun _ => rfl⟩
    | some b =>
      have hb : b.2 = [] := by
        by_contra hne
        exact hn (hs name b.1 b.2 hl hne)
      simp only [hb, markRequired]
      exact ⟨s, context, rfl, hs, fun _ => rfl⟩

theorem runCalls_unreferenced (guarded : List String) (calls : List Call) :
    ∀ (s : EnvironmentSubstitute) (context : List (Environment τ)),
      (∀ name dest inits, s.varSubstitutions.lookup name = some (dest, inits) →
        inits ≠ [] → name ∈ guarded) →
      (∀ c ∈ calls, (∀ name, c = Call.getName name → name ∉ guarded)
        ∧ (∀ name dest inits, c = Call.addSubstitution name dest inits →
            inits ≠ [] → name ∈ guarded)) →
      ∃ s2 ctx2, (runCalls (Environment.substitute s :: context) calls).2
          = Environment.substitute s2 :: ctx2
        ∧ (∀ j, isRequired s2.initialisers j = isRequired s.initialisers j) := by
  induction calls with
  | nil =>
    intro s context _ _
    exact ⟨s, context, rfl, fun _ => rfl⟩
  | cons c cs ih =>
    intro s context hs hcalls
    obtain ⟨s1, ctx1, hrun1, hs1, hflag1⟩ := runCall_unreferenced guarded s context c hs
      (hcalls c (List.mem_cons_self _ _)).1 (hcalls c (List.mem_cons_self _ _)).2
    obtain ⟨s2, ctx2, hrun2, hflag2⟩ := ih s1 ctx1 hs1
      (fun c2 hc2 => hcalls c2 (List.mem_cons_of_mem _ hc2))
    refine ⟨s2, ctx2, ?_, fun j => by rw [hflag2, hflag1]⟩
    simp only [runCalls]
    rw [hrun1, hrun2]

/-- C28: the initialiser `const unsigned int idx = ...` is attached to `id_syn`
and is written at the end of the scope of `bodyEnv` only when the body has
looked up `id_syn` or a per-synapse variable.  For a loop body that
references neither of them, `remove_synapse` included, the flag of the
initialiser stays clear and the destructor writes the buffered body text
alone, although the text of `remove_synapse` reads `idx`. -/
theorem forEachSynapse_idx_initialiser_lazy (idPost : String) (synVars : List (String × String))
    (body : List String) (context : List (Environment τ)) (os : String)
    (batchSize : Nat) (ccuVars : List String) (ccuVarRefs : List (String × Bool))
    (dependentVars : List Bool)
    (hbody : ∀ n ∈ body, n ≠ "id_syn" ∧ n ∉ synVars.map Prod.fst) :
    "$(_ind)[idx] = $(_ind)[lastIdx];"
        ∈ removeSynapseLines batchSize ccuVars ccuVarRefs dependentVars
    ∧ ∃ s ctx2,
      (runCalls (Environment.substitute EnvironmentSubstitute.new :: context)
          (forEachSynapseCalls idPost synVars body)).2 = Environment.substitute s :: ctx2
      ∧ s.initialisers = [(false, "const unsigned int idx = $(_row_start_idx) + j;")]
      ∧ s.destructor os = os ++ s.contentsStream := by
  refine ⟨by simp [removeSynapseLines], ?_⟩
  obtain ⟨s, ctx2, hrun, hflag⟩ := runCalls_unreferenced ("id_syn" :: synVars.map Prod.fst)
    (forEachSynapseCalls idPost synVars body) EnvironmentSubstitute.new context
    (by intro name dest inits h; simp [EnvironmentSubstitute.new] at h)
    (by
      intro c hc
      simp only [forEachSynapseCalls, List.mem_append, List.mem_cons, List.mem_singleton,
        List.not_mem_nil, or_false, List.mem_map] at hc
      rcases hc with ((rfl | rfl | rfl) | ⟨v, hv, rfl⟩) | ⟨n, hn, rfl⟩
      · refine ⟨fun _ h => (by cases h), ?_⟩
        intro name dest inits h hne
        injection h with _ _ h3
        exact absurd h3.symm hne
      · exact ⟨fun _ h => (by cases h), fun _ _ _ h => (by cases h)⟩
      · refine ⟨fun _ h => (by cases h), ?_⟩
        intro name dest inits h _
        injection h with h1 _ _
        rw [← h1]
        exact List.mem_cons_self _ _
      · refine ⟨fun _ h => (by cases h), ?_⟩
        intro name dest inits h _
        injection h with h1 _ _
        rw [← h1]
        exact List.mem_cons_of_mem _ (List.mem_map_of_mem _ hv)
      · refine ⟨?_, fun _ _ _ h => (by cases h)⟩
        intro name h
        injection h with h1
        subst h1
        intro hmem
        rcases List.mem_cons.1 hmem with h | h
        · exact (hbody n hn).1 h
        · exact (hbody n hn).2 h)
  obtain ⟨s2, ctx3, hrun2, _, _, htext, _⟩ := runCalls_spec
    (forEachSynapseCalls idPost synVars body) EnvironmentSubstitute.new context indicesValid_new
  rw [hrun] at hrun2
  injection hrun2 with hh _
  injection hh with hs
  subst hs
  have hreg : registered (forEachSynapseCalls idPost synVars body)
      = ["const unsigned int idx = $(_row_start_idx) + j;"] := by
    unfold forEachSynapseCalls
    rw [registered_append, registered_append, registered_getNames, registered_addSubstitutions]
    rfl
  rw [hreg] at htext
  simp only [EnvironmentSubstitute.new, List.map_nil, List.nil_append] at htext
  have hfalse : ∀ j, isRequired s.initialisers j = false := by
    intro j
    rw [hflag, isRequired_new]
  have hinit : s.initialisers = [(false, "const unsigned int idx = $(_row_start_idx) + j;")] := by
    match hi : s.initialisers, htext with
    | [x], htext =>
      simp only [List.map_cons, List.map_nil, List.cons.injEq, and_true] at htext
      have h0 := hfalse 0
      rw [hi] at h0
      simp only [isRequired, List.getElem?_cons_zero] at h0
      obtain ⟨f, t⟩ := x
      simp only at h0 htext
      rw [h0, htext]
    | [], htext => simp at htext
    | _ :: _ :: _, htext => simp at htext
  refine ⟨s, ctx2, hrun, hinit, ?_⟩
  rw [destructor_eq]
  have hw : writtenIndices s.initialisers = [] := by
    unfold writtenIndices
    rw [List.filter_eq_nil_iff]
    intro j _
    rw [hfalse j]
    simp
  rw [hw]
  simp [concatText]

/-- Witness for C28: the loop body `if(id_post == 0) remove_synapse();` looks up
`id_post` and `remove_synapse`; the text returned for `remove_synapse` copies
to `[idx]`, and the scope of the loop is closed without the declaration of
`idx`: the destructor writes nothing before the body text. -/
theorem forEachSynapse_idx_initialiser_lazy_witness :
    (runCalls [(Environment.substitute EnvironmentSubstitute.new : Environment Unit),
          Environment.substitute exampleUpdateEnv]
        (forEachSynapseCalls "$(_ind)[rowStartIdx + j]" [] ["id_post", "remove_synapse"])).1
      = [Reply.done, Reply.index 0, Reply.done, Reply.text "$(_ind)[rowStartIdx + j]",
         Reply.text ("const unsigned lastIdx = $(_row_start_idx) + $(_row_length)[$(id_pre)] - 1;\n"
           ++ "$(_ind)[idx] = $(_ind)[lastIdx];\n$(_row_length)[$(id_pre)]--;\nj--;\n")]
    ∧ "$(_ind)[idx] = $(_ind)[lastIdx];" ∈ removeSynapseLines 1 [] [] []
    ∧ ∃ s ctx2,
      (runCalls [(Environment.substitute EnvironmentSubstitute.new : Environment Unit),
            Environment.substitute exampleUpdateEnv]
          (forEachSynapseCalls "$(_ind)[rowStartIdx + j]" [] ["id_post", "remove_synapse"])).2
        = Environment.substitute s :: ctx2
      ∧ s.initialisers = [(false, "const unsigned int idx = $(_row_start_idx) + j;")]
      ∧ s.destructor "" = "" ++ s.contentsStream :=
  ⟨by decide,
    forEachSynapse_idx_initialiser_lazy "$(_ind)[rowStartIdx + j]" [] ["id_post", "remove_synapse"]
      [Environment.substitute exampleUpdateEnv] "" 1 [] [] [] (by decide)⟩

/-! ### The placement of the declaration of `idx` -/

theorem getName_head_new (context : List (Environment τ)) (name : String) :
    (getName (Environment.substitute EnvironmentSubstitute.new :: context) name).state
        = Environment.substitute EnvironmentSubstitute.new :: (getName context name).state
      ∧ (getName (Environment.substitute EnvironmentSubstitute.new :: context) name).result
        = (getName context name).result := ⟨rfl, rfl⟩

theorem printSubsLoop_head_new (ms : List (List Char × List Char)) :
    ∀ (suffix : List Char) (output : String) (context : List (Environment τ)),
      ∃ ctx2, (printSubsLoop ms suffix output
          (Environment.substitute EnvironmentSubstitute.new :: context)).state
        = Environment.substitute EnvironmentSubstitute.new :: ctx2 := by
  induction ms with
  | nil =>
    intro suffix output context
    exact ⟨context, rfl⟩
  | cons m ms ih =>
    intro suffix output context
    obtain ⟨pre, name⟩ := m
    unfold printSubsLoop
    rw [(getName_head_new context (String.mk name)).1, (getName_head_new context (String.mk name)).2]
    cases h : (getName context (String.mk name)).result with
    | ok value => exact ih _ _ _
    | error msg => exact ⟨_, rfl⟩

theorem printSubs_head_new (format : String) (context : List (Environment τ)) :
    ∃ ctx2, (printSubs format
        (Environment.substitute EnvironmentSubstitute.new :: context)).state
      = Environment.substitute EnvironmentSubstitute.new :: ctx2 := by
  unfold printSubs
  split_ifs
  · exact ⟨context, rfl⟩
  · exact printSubsLoop_head_new _ _ _ _

theorem printSubsLoop_prefix (ms : List (List Char × List Char)) :
    ∀ (suffix : List Char) (output : String) (env : List (Environment τ)) (out : String),
      (printSubsLoop ms suffix output env).result = .ok out → ∃ rest, out = output ++ rest := by
  induction ms with
  | nil =>
    intro suffix output env out h
    simp only [printSubsLoop, Except.ok.injEq] at h
    exact ⟨String.mk suffix, h.symm⟩
  | cons m ms ih =>
    intro suffix output env out h
    obtain ⟨pre, name⟩ := m
    unfold printSubsLoop at h
    cases hg : (getName env (String.mk name)).result with
    | ok value =>
      rw [hg] at h
      obtain ⟨rest, hrest⟩ := ih _ _ _ _ h
      exact ⟨String.mk pre ++ value ++ rest, by rw [hrest]; simp only [String.append_assoc]⟩
    | error msg =>
      rw [hg] at h
      simp at h

theorem forEachSynapseHeader_prefix (env : List (Environment τ)) (header : String)
    (h : (printSubs forEachSynapseHeader env).result = .ok header) :
    ∃ rest, header = "for(int j = 0; j < " ++ rest := by
  have hm : (regexIterate forEachSynapseHeader.data 0 []).1
      = [("for(int j = 0; j < ".data, "_row_length".data), (['['], "id_pre".data)] := by decide
  unfold printSubs at h
  rw [hm] at h
  simp only [List.isEmpty_cons, Bool.false_eq_true, if_false] at h
  unfold printSubsLoop at h
  cases hg : (getName env (String.mk "_row_length".data)).result with
  | ok value =>
    rw [hg] at h
    obtain ⟨rest, hrest⟩ := printSubsLoop_prefix _ _ _ _ _ h
    refine ⟨value ++ rest, ?_⟩
    rw [hrest]
    simp only [String.append_assoc]
    rfl
  | error msg =>
    rw [hg] at h
    simp at h

theorem runCallsChecked_ok (calls : List Call) :
    ∀ chain : List (Environment τ), (runCallsChecked chain calls).result = .ok () →
      (runCallsChecked chain calls).state = (runCalls chain calls).2
      ∧ ∀ msg, Reply.thrown msg ∉ (runCalls chain calls).1 := by
  induction calls with
  | nil =>
    intro chain _
    exact ⟨rfl, by simp [runCalls]⟩
  | cons c cs ih =>
    intro chain h
    unfold runCallsChecked at h ⊢
    cases hr : (runCall chain c).1 with
    | thrown msg =>
      rw [hr] at h
      simp at h
    | index n =>
      rw [hr] at h
      simp only at h ⊢
      obtain ⟨h1, h2⟩ := ih _ h
      refine ⟨by simpa [runCalls] using h1, ?_⟩
      intro msg hmem
      simp only [runCalls, hr, List.mem_cons] at hmem
      rcases hmem with hmem | hmem
      · cases hmem
      · exact h2 msg hmem
    | done =>
      rw [hr] at h
      simp only at h ⊢
      obtain ⟨h1, h2⟩ := ih _ h
      refine ⟨by simpa [runCalls] using h1, ?_⟩
      intro msg hmem
      simp only [runCalls, hr, List.mem_cons] at hmem
      rcases hmem with hmem | hmem
      · cases hmem
      · exact h2 msg hmem
    | text t =>
      rw [hr] at h
      simp only at h ⊢
      obtain ⟨h1, h2⟩ := ih _ h
      refine ⟨by simpa [runCalls] using h1, ?_⟩
      intro msg hmem
      simp only [runCalls, hr, List.mem_cons] at hmem
      rcases hmem with hmem | hmem
      · cases hmem
      · exact h2 msg hmem

theorem runCalls_append (a b : List Call) :
    ∀ chain : List (Environment τ),
      runCalls chain (a ++ b)
        = ((runCalls chain a).1 ++ (runCalls (runCalls chain a).2 b).1,
            (runCalls (runCalls chain a).2 b).2) := by
  induction a with
  | nil => intro chain; rfl
  | cons c cs ih =>
    intro chain
    show runCalls chain (c :: (cs ++ b)) = _
    simp only [runCalls]
    rw [ih]
    rfl

theorem runCalls_synVars (synVars : List (String × String)) :
    ∀ (s : EnvironmentSubstitute) (context : List (Environment τ)),
      0 < s.initialisers.length →
      (∀ msg, Reply.thrown msg ∉ (runCalls (Environment.substitute s :: context)
        (synVars.map (fun v => Call.addSubstitution v.1 v.2 [0]))).1) →
      ∃ s2, (runCalls (Environment.substitute s :: context)
          (synVars.map (fun v => Call.addSubstitution v.1 v.2 [0]))).2
            = Environment.substitute s2 :: context
        ∧ s2.initialisers = s.initialisers
        ∧ s2.contentsStream = s.contentsStream
        ∧ (∀ n x, s.varSubstitutions.lookup n = some x → s2.varSubstitutions.lookup n = some x)
        ∧ (∀ v ∈ synVars, ∃ d, s2.varSubstitutions.lookup v.1 = some (d, [0])) := by
  induction synVars with
  | nil =>
    intro s context _ _
    exact ⟨s, rfl, rfl, rfl, fun _ _ h => h, by simp⟩
  | cons v vs ih =>
    intro s context hlen hok
    have hall : ([0] : List Nat).all (fun i => decide (i < s.initialisers.length)) = true := by
      simpa using hlen
    simp only [List.map_cons, runCalls] at hok ⊢
    cases hl : s.varSubstitutions.lookup v.1 with
    | some x =>
      exfalso
      apply hok ("Redeclaration of substitution \x27" ++ v.1 ++ "\x27")
      simp only [runCall, EnvironmentSubstitute.addSubstitution, hall, if_true, hl]
      exact List.mem_cons_self _ _
    | none =>
      have hstate : (runCall (Environment.substitute s :: context)
          (Call.addSubstitution v.1 v.2 [0])).2
          = Environment.substitute { s with
              varSubstitutions := s.varSubstitutions ++ [(v.1, v.2, [0])] } :: context := by
        simp only [runCall, EnvironmentSubstitute.addSubstitution, hall, if_true, hl]
      rw [hstate] at hok ⊢
      obtain ⟨s2, hrun, hinit, hcont, hkeep, hnew⟩ := ih
        { s with varSubstitutions := s.varSubstitutions ++ [(v.1, v.2, [0])] } context hlen
        (fun msg hmem => hok msg (List.mem_cons_of_mem _ hmem))
      refine ⟨s2, hrun, hinit, hcont, ?_, ?_⟩
      · intro n x hn
        apply hkeep
        simp only
        rw [List.lookup_append, hn]
        rfl
      · intro w hw
        rcases List.mem_cons.1 hw with rfl | hw
        · exact ⟨w.2, hkeep _ _ (lookup_append_new _ _ _ hl)⟩
        · exact hnew w hw

theorem getName_step_head (s : EnvironmentSubstitute) (context : List (Environment τ))
    (name : String) :
    ∃ s2 ctx2, (getName (Environment.substitute s :: context) name).state
        = Environment.substitute s2 :: ctx2
      ∧ s2.varSubstitutions = s.varSubstitutions
      ∧ s2.contentsStream = s.contentsStream
      ∧ s2.initialisers.map Prod.snd = s.initialisers.map Prod.snd
      ∧ (isRequired s.initialisers 0 = true → isRequired s2.initialisers 0 = true)
      ∧ (∀ d, s.varSubstitutions.lookup name = some (d, [0]) → 0 < s.initialisers.length →
          isRequired s2.initialisers 0 = true) := by
  rw [getName_substitute_cons]
  unfold EnvironmentSubstitute.getName
  cases hl : s.varSubstitutions.lookup name with
  | none => exact ⟨s, _, rfl, rfl, rfl, rfl, fun h => h, fun d h => (by cases h)⟩
  | some b =>
    obtain ⟨d, inits⟩ := b
    refine ⟨_, context, rfl, rfl, rfl, markRequired_texts _ _, ?_, ?_⟩
    · intro h
      simp only
      unfold isRequired at h ⊢
      cases h0 : s.initialisers[0]? with
      | none => rw [h0] at h; simp at h
      | some x =>
        obtain ⟨f, t⟩ := x
        rw [h0] at h
        simp only at h
        subst h
        rw [markRequired_keeps inits s.initialisers 0 t h0]
    · intro d2 h hlen
      injection h with h
      injection h with _ h
      subst h
      simp only
      rw [markRequired_isRequired [0] s.initialisers (by simpa using hlen) 0]
      simp

theorem runCalls_body (body : List String) :
    ∀ (s : EnvironmentSubstitute) (context : List (Environment τ)),
      0 < s.initialisers.length →
      (isRequired s.initialisers 0 = true
        ∨ ∃ n ∈ body, ∃ d, s.varSubstitutions.lookup n = some (d, [0])) →
      ∃ s2 ctx2, (runCalls (Environment.substitute s :: context) (body.map Call.getName)).2
          = Environment.substitute s2 :: ctx2
        ∧ s2.contentsStream = s.contentsStream
        ∧ s2.initialisers.map Prod.snd = s.initialisers.map Prod.snd
        ∧ isRequired s2.initialisers 0 = true := by
  induction body with
  | nil =>
    intro s context _ h
    rcases h with h | ⟨n, hn, _⟩
    · exact ⟨s, context, rfl, rfl, rfl, h⟩
    · simp at hn
  | cons m ms ih =>
    intro s context hlen h
    obtain ⟨s1, ctx1, hstate, hsubs, hcont, htext, hmono, hset⟩ := getName_step_head s context m
    have hrun1 : (runCall (Environment.substitute s :: context) (Call.getName m)).2
        = Environment.substitute s1 :: ctx1 := hstate
    have hlen1 : 0 < s1.initialisers.length := by
      have := congrArg List.length htext
      simp only [List.length_map] at this
      omega
    have h1 : isRequired s1.initialisers 0 = true
        ∨ ∃ n ∈ ms, ∃ d, s1.varSubstitutions.lookup n = some (d, [0]) := by
      rcases h with h | ⟨n, hn, d, hd⟩
      · exact Or.inl (hmono h)
      · rcases List.mem_cons.1 hn with rfl | hn
        · exact Or.inl (hset d hd hlen)
        · exact Or.inr ⟨n, hn, d, by rw [hsubs]; exact hd⟩
    obtain ⟨s2, ctx2, hrun2, hcont2, htext2, hflag2⟩ := ih s1 ctx1 hlen1 h1
    refine ⟨s2, ctx2, ?_, by rw [hcont2, hcont], by rw [htext2, htext], hflag2⟩
    simp only [List.map_cons, runCalls]
    rw [hrun1, hrun2]

/-- C7: the row scan the claim describes is not the one the generator writes.
The handler writes the loop header `for(int j = 0; j < ...` and the scope of
the loop body to the buffer of `bodyEnv` and registers
`const unsigned int idx = $(_row_start_idx) + j;` as a lazy initialiser of
`bodyEnv`.  When the handler returns and the body has looked up `id_syn` or
a per-synapse variable, the flag of the initialiser is set and the buffer
holds the header, the opened scope, the body text and the closed scope; so
the destructor of `bodyEnv` writes the declaration of `idx` first and the
loop header after it: `idx` is declared once, before the loop and outside
the scope of its counter `j`, and not in every round for the current
slot. -/
theorem forEachSynapse_idx_declared_before_loop (scopeOpen scopeClose idPost : String)
    (synVars : List (String × String)) (body : List String) (bodyText : String)
    (env : List (Environment τ))
    (hrun : (forEachSynapseHandler scopeOpen scopeClose idPost synVars body bodyText env).result
      = .ok ())
    (hbody : ∃ n ∈ body, n = "id_syn" ∨ n ∈ synVars.map Prod.fst) :
    ∃ loopHeader s ctx2,
      (printSubs forEachSynapseHeader
          (Environment.substitute EnvironmentSubstitute.new :: env)).result
        = .ok ("for(int j = 0; j < " ++ loopHeader)
      ∧ (forEachSynapseHandler scopeOpen scopeClose idPost synVars body bodyText env).state
        = Environment.substitute s :: ctx2
      ∧ s.initialisers = [(true, "const unsigned int idx = $(_row_start_idx) + j;")]
      ∧ s.contentsStream
        = "for(int j = 0; j < " ++ loopHeader ++ scopeOpen ++ bodyText ++ scopeClose
      ∧ ∀ os, s.destructor os
        = os ++ "const unsigned int idx = $(_row_start_idx) + j;\n"
          ++ ("for(int j = 0; j < " ++ loopHeader ++ scopeOpen ++ bodyText ++ scopeClose) := by
  unfold forEachSynapseHandler at hrun ⊢
  cases hp : (printSubs forEachSynapseHeader
      (Environment.substitute EnvironmentSubstitute.new :: env)).result with
  | error msg =>
    rw [hp] at hrun
    simp at hrun
  | ok header =>
    rw [hp] at hrun
    simp only at hrun ⊢
    obtain ⟨loopHeader, hheader⟩ := forEachSynapseHeader_prefix _ header hp
    obtain ⟨ctx1, hstate⟩ := printSubs_head_new forEachSynapseHeader env
    rw [hstate] at hrun ⊢
    have hopened : writeStream (writeStream
        (Environment.substitute EnvironmentSubstitute.new :: ctx1) header) scopeOpen
        = Environment.substitute ((EnvironmentSubstitute.new.write header).write scopeOpen)
            :: ctx1 := rfl
    rw [hopened] at hrun ⊢
    cases hc : (runCallsChecked
        (Environment.substitute ((EnvironmentSubstitute.new.write header).write scopeOpen)
          :: ctx1) (forEachSynapseCalls idPost synVars body)).result with
    | error msg =>
      rw [hc] at hrun
      simp at hrun
    | ok u =>
      obtain ⟨hst, hnothrown⟩ := runCallsChecked_ok _ _ hc
      simp only
      rw [hst]
      unfold forEachSynapseCalls at hnothrown ⊢
      rw [runCalls_append, runCalls_append] at hnothrown ⊢
      simp only at hnothrown ⊢
      have hA : runCalls
          (Environment.substitute ((EnvironmentSubstitute.new.write header).write scopeOpen)
            :: ctx1)
          [Call.addSubstitution "id_post" idPost [],
            Call.addInitialiser "const unsigned int idx = $(_row_start_idx) + j;",
            Call.addSubstitution "id_syn" "idx" [0]]
          = ([Reply.done, Reply.index 0, Reply.done],
              Environment.substitute
                { varSubstitutions := [("id_post", idPost, []), ("id_syn", "idx", [0])]
                  initialisers := [(false, "const unsigned int idx = $(_row_start_idx) + j;")]
                  contentsStream := "" ++ header ++ scopeOpen } :: ctx1) := rfl
      rw [hA] at hnothrown ⊢
      simp only at hnothrown ⊢
      obtain ⟨sB, hrunB, hinitB, hcontB, hkeepB, hnewB⟩ := runCalls_synVars synVars
        { varSubstitutions := [("id_post", idPost, []), ("id_syn", "idx", [0])]
          initialisers := [(false, "const unsigned int idx = $(_row_start_idx) + j;")]
          contentsStream := "" ++ header ++ scopeOpen } ctx1 Nat.zero_lt_one
        (fun msg hmem => hnothrown msg
          (List.mem_append_left _ (List.mem_append_right _ hmem)))
      rw [hrunB] at hnothrown ⊢
      have hlook : ∃ n ∈ body, ∃ d, sB.varSubstitutions.lookup n = some (d, [0]) := by
        obtain ⟨n, hn, hcase⟩ := hbody
        rcases hcase with rfl | hmem
        · exact ⟨"id_syn", hn, "idx", hkeepB _ _ rfl⟩
        · obtain ⟨v, hv, rfl⟩ := List.mem_map.1 hmem
          obtain ⟨d, hd⟩ := hnewB v hv
          exact ⟨v.1, hn, d, hd⟩
      obtain ⟨sC, ctxC, hrunC, hcontC, htextC, hflagC⟩ := runCalls_body body sB ctx1
        (by rw [hinitB]; exact Nat.zero_lt_one) (Or.inr hlook)
      rw [hrunC]
      have hinit : sC.initialisers
          = [(true, "const unsigned int idx = $(_row_start_idx) + j;")] := by
        rw [hinitB] at htextC
        match hi : sC.initialisers, htextC with
        | [x], htextC =>
          simp only [List.map_cons, List.map_nil, List.cons.injEq, and_true] at htextC
          rw [hi] at hflagC
          simp only [isRequired, List.getElem?_cons_zero] at hflagC
          obtain ⟨f, t⟩ := x
          simp only at hflagC htextC
          rw [hflagC, htextC]
        | [], htextC => simp at htextC
        | _ :: _ :: _, htextC => simp at htextC
      have hcont : ((sC.write bodyText).write scopeClose).contentsStream
          = "for(int j = 0; j < " ++ loopHeader ++ scopeOpen ++ bodyText ++ scopeClose := by
        simp only [EnvironmentSubstitute.write]
        rw [hcontC, hcontB, hheader, String.empty_append]
      refine ⟨loopHeader, (sC.write bodyText).write scopeClose, ctxC, by rw [hheader], rfl,
        hinit, hcont, ?_⟩
      intro os
      rw [destructor_eq, hcont]
      have hi2 : ((sC.write bodyText).write scopeClose).initialisers
          = [(true, "const unsigned int idx = $(_row_start_idx) + j;")] := hinit
      rw [hi2]
      have hw : concatText ((writtenIndices
          [(true, "const unsigned int idx = $(_row_start_idx) + j;")]).map
            (initialiserLine [(true, "const unsigned int idx = $(_row_start_idx) + j;")]))
          = "const unsigned int idx = $(_row_start_idx) + j;\n" := by decide
      rw [hw]

/-- Witness for C7: the loop body `if(g < 0.0f) remove_synapse();` looks up the
per-synapse variable `g` and `remove_synapse`.  The handler returns, and the
destructor of `bodyEnv` writes the declaration of `idx`, which reads `j`,
and after it the loop header that declares `j`, the scope and the body text
with its copies to `[idx]`. -/
theorem forEachSynapse_idx_declared_before_loop_witness :
    (forEachSynapseHandler "\x7b\n" "\x7d\n" "group->ind[rowStartIdx + j]"
        [("g", "group->g[idx]")] ["g", "remove_synapse"] exampleLoopBody
        [(Environment.substitute exampleVarUpdateEnv : Environment Unit),
          Environment.external exampleGroupEnv]).result = .ok ()
    ∧ (∃ n ∈ ["g", "remove_synapse"],
        n = "id_syn" ∨ n ∈ [("g", "group->g[idx]")].map Prod.fst)
    ∧ ∃ s ctx2,
      (forEachSynapseHandler "\x7b\n" "\x7d\n" "group->ind[rowStartIdx + j]"
          [("g", "group->g[idx]")] ["g", "remove_synapse"] exampleLoopBody
          [(Environment.substitute exampleVarUpdateEnv : Environment Unit),
            Environment.external exampleGroupEnv]).state = Environment.substitute s :: ctx2
      ∧ s.initialisers = [(true, "const unsigned int idx = $(_row_start_idx) + j;")]
      ∧ s.destructor ""
        = "const unsigned int idx = $(_row_start_idx) + j;\n"
          ++ "for(int j = 0; j < group->rowLength[id]; j++)" ++ "\x7b\n"
          ++ exampleLoopBody ++ "\x7d\n" := by
  have h1 : (forEachSynapseHandler "\x7b\n" "\x7d\n" "group->ind[rowStartIdx + j]"
      [("g", "group->g[idx]")] ["g", "remove_synapse"] exampleLoopBody
      [(Environment.substitute exampleVarUpdateEnv : Environment Unit),
        Environment.external exampleGroupEnv]).result = .ok () := rfl
  have h2 : ∃ n ∈ ["g", "remove_synapse"],
      n = "id_syn" ∨ n ∈ [("g", "group->g[idx]")].map Prod.fst :=
    ⟨"g", by decide, Or.inr (by decide)⟩
  obtain ⟨loopHeader, s, ctx2, hprint, hstate, hinit, _, hdes⟩ :=
    forEachSynapse_idx_declared_before_loop "\x7b\n" "\x7d\n" "group->ind[rowStartIdx + j]"
      [("g", "group->g[idx]")] ["g", "remove_synapse"] exampleLoopBody
      [(Environment.substitute exampleVarUpdateEnv : Environment Unit),
        Environment.external exampleGroupEnv] h1 h2
  have hp : (printSubs forEachSynapseHeader
      [(Environment.substitute EnvironmentSubstitute.new : Environment Unit),
        Environment.substitute exampleVarUpdateEnv, Environment.external exampleGroupEnv]).result
      = .ok "for(int j = 0; j < group->rowLength[id]; j++)" := rfl
  rw [hp] at hprint
  injection hprint with hh
  refine ⟨h1, h2, s, ctx2, hstate, hinit, ?_⟩
  rw [hdes, ← hh]
  simp only [String.append_assoc, String.empty_append]

end ForEachSynapse

/-! ## Type checking of explicit casts -/

/-- C24: an explicit cast type-checks exactly when operand and target are both
numeric, or both pointers to the same type, and the target keeps the
`const` of the value and the `const` of the pointer where the operand has
them; the resolved type is then the target as written in the cast, and every
other cast raises `TypeCheckError`.  The ten cases of the unit test
`TEST(TypeChecker, Cast)` come out as the test expects. -/
theorem typeCheckCast_rule (target operand : QualifiedType) :
    ((((target.type.isNumeric = true ∧ operand.type.isNumeric = true)
          ∨ (∃ a, target.type = BaseType.pointer a ∧ operand.type = BaseType.pointer a))
        ∧ (operand.constValue = true → target.constValue = true)
        ∧ (operand.constPointer = true → target.constPointer = true)) →
      typeCheckCast target operand = .ok target)
    ∧ (¬ (((target.type.isNumeric = true ∧ operand.type.isNumeric = true)
          ∨ (∃ a, target.type = BaseType.pointer a ∧ operand.type = BaseType.pointer a))
        ∧ (operand.constValue = true → target.constValue = true)
        ∧ (operand.constPointer = true → target.constPointer = true)) →
      typeCheckCast target operand = .error "TypeCheckError")
    -- `(float)intVal`
    ∧ typeCheckCast ⟨BaseType.float, false, false⟩ ⟨BaseType.int32, false, false⟩
        = .ok ⟨BaseType.float, false, false⟩
    -- `(const int)intVal`
    ∧ typeCheckCast ⟨BaseType.int32, true, false⟩ ⟨BaseType.int32, false, false⟩
        = .ok ⟨BaseType.int32, true, false⟩
    -- `(const int*)intArray`
    ∧ typeCheckCast ⟨BaseType.pointer BaseType.int32, true, false⟩
          ⟨BaseType.pointer BaseType.int32, false, false⟩
        = .ok ⟨BaseType.pointer BaseType.int32, true, false⟩
    -- `(int * const)intArray`
    ∧ typeCheckCast ⟨BaseType.pointer BaseType.int32, false, true⟩
          ⟨BaseType.pointer BaseType.int32, false, false⟩
        = .ok ⟨BaseType.pointer BaseType.int32, false, true⟩
    -- `(int)intVal` with `intVal` const
    ∧ typeCheckCast ⟨BaseType.int32, false, false⟩ ⟨BaseType.int32, true, false⟩
        = .error "TypeCheckError"
    -- `(int*)intArray` with `intArray` a pointer to const
    ∧ typeCheckCast ⟨BaseType.pointer BaseType.int32, false, false⟩
          ⟨BaseType.pointer BaseType.int32, true, false⟩
        = .error "TypeCheckError"
    -- `(int*)intArray` with `intArray` a const pointer
    ∧ typeCheckCast ⟨BaseType.pointer BaseType.int32, false, false⟩
          ⟨BaseType.pointer BaseType.int32, false, true⟩
        = .error "TypeCheckError"
    -- `(float*)intArray`
    ∧ typeCheckCast ⟨BaseType.pointer BaseType.float, false, false⟩
          ⟨BaseType.pointer BaseType.int32, false, false⟩
        = .error "TypeCheckError"
    -- `(int)intArray`
    ∧ typeCheckCast ⟨BaseType.int32, false, false⟩
          ⟨BaseType.pointer BaseType.int32, false, false⟩
        = .error "TypeCheckError"
    -- `(int*)intVal`
    ∧ typeCheckCast ⟨BaseType.pointer BaseType.int32, false, false⟩
          ⟨BaseType.int32, false, false⟩
        = .error "TypeCheckError" := by
  refine ⟨?_, ?_, rfl, rfl, rfl, rfl, rfl, rfl, rfl, rfl, rfl, rfl⟩
  · rintro ⟨hshape, hv, hp⟩
    obtain ⟨tt, tv, tp⟩ := target
    obtain ⟨ot, ov, op⟩ := operand
    simp only at hshape hv hp
    have hc : ¬ ((ov = true ∧ tv = false) ∨ (op = true ∧ tp = false)) := by
      rintro (⟨h1, h2⟩ | ⟨h1, h2⟩)
      · rw [hv h1] at h2
        exact Bool.noConfusion h2
      · rw [hp h1] at h2
        exact Bool.noConfusion h2
    unfold typeCheckCast
    rw [if_neg hc]
    rcases hshape with ⟨h1, h2⟩ | ⟨a, h1, h2⟩
    · cases tt with
      | pointer _ => simp [BaseType.isNumeric] at h1
      | numeric tname =>
        cases ot with
        | pointer _ => simp [BaseType.isNumeric] at h2
        | numeric oname => rfl
    · subst h1 h2
      simp
  · intro hnot
    obtain ⟨tt, tv, tp⟩ := target
    obtain ⟨ot, ov, op⟩ := operand
    simp only at hnot
    unfold typeCheckCast
    by_cases hc : (ov = true ∧ tv = false) ∨ (op = true ∧ tp = false)
    · rw [if_pos hc]
    · rw [if_neg hc]
      have hv : ov = true → tv = true := by
        intro h
        cases tv with
        | true => rfl
        | false => exact absurd (Or.inl ⟨h, rfl⟩) hc
      have hp : op = true → tp = true := by
        intro h
        cases tp with
        | true => rfl
        | false => exact absurd (Or.inr ⟨h, rfl⟩) hc
      cases tt with
      | numeric tname =>
        cases ot with
        | numeric oname => exact absurd ⟨Or.inl ⟨rfl, rfl⟩, hv, hp⟩ hnot
        | pointer b => rfl
      | pointer a =>
        cases ot with
        | numeric oname => rfl
        | pointer b =>
          simp only
          by_cases hab : a = b
          · subst hab
            exact absurd ⟨Or.inr ⟨a, rfl, rfl⟩, hv, hp⟩ hnot
          · rw [if_neg hab]

/-! ## Kernel indices -/

theorem foldl_mulU32 (xs : List Nat) :
    ∀ x, (∀ y ∈ xs, 0 < y) → x * xs.prod < 2 ^ 32 → xs.foldl mulU32 x = x * xs.prod := by
  induction xs with
  | nil => intro x _ _; simp
  | cons y ys ih =>
    intro x hpos hlt
    have hy : 0 < y := hpos y (List.mem_cons_self _ _)
    have hys : 0 < ys.prod := List.prod_pos (fun a ha => hpos a (List.mem_cons_of_mem _ ha))
    rw [List.prod_cons] at hlt
    have hxy : x * y < 2 ^ 32 := by
      calc x * y ≤ x * y * ys.prod := Nat.le_mul_of_pos_right _ hys
        _ = x * (y * ys.prod) := Nat.mul_assoc _ _ _
        _ < 2 ^ 32 := hlt
    rw [List.foldl_cons, mulU32_eq _ _ hxy, ih (x * y)
      (fun a ha => hpos a (List.mem_cons_of_mem _ ha)) (by rw [Nat.mul_assoc]; exact hlt),
      List.prod_cons, Nat.mul_assoc]

theorem kernelStride_le (sizes : List Nat) (i : Nat) (hpos : ∀ n ∈ sizes, 0 < n) :
    kernelStride sizes i ≤ sizes.prod := by
  unfold kernelStride
  have h := List.prod_take_mul_prod_drop sizes (i + 1)
  have ht : 0 < (sizes.take (i + 1)).prod :=
    List.prod_pos (fun a ha => hpos a (List.mem_of_mem_take ha))
  calc (sizes.drop (i + 1)).prod ≤ (sizes.take (i + 1)).prod * (sizes.drop (i + 1)).prod :=
        Nat.le_mul_of_pos_left _ ht
    _ = sizes.prod := h

theorem kernelDivisor_eq (sizes : List Nat) (i : Nat) (hpos : ∀ n ∈ sizes, 0 < n)
    (hfit : sizes.prod < 2 ^ 32) : kernelDivisor sizes i = kernelStride sizes i := by
  have hle := kernelStride_le sizes i hpos
  unfold kernelDivisor
  unfold kernelStride at hle ⊢
  rw [← List.prod_reverse]
  rw [← List.prod_reverse] at hle
  have hposr : ∀ n ∈ (sizes.drop (i + 1)).reverse, 0 < n := by
    intro n hn
    exact hpos n (List.mem_of_mem_drop (List.mem_reverse.1 hn))
  cases h : (sizes.drop (i + 1)).reverse with
  | nil => simp
  | cons n rest =>
    rw [h] at hle hposr
    simp only
    rw [foldl_mulU32 rest n (fun y hy => hposr y (List.mem_cons_of_mem _ hy))
      (by rw [List.prod_cons] at hle; omega), List.prod_cons]

theorem kernelStride_cons_succ (n : Nat) (ns : List Nat) (i : Nat) :
    kernelStride (n :: ns) (i + 1) = kernelStride ns i := by
  simp [kernelStride]

theorem kernelStride_cons_zero (n : Nat) (ns : List Nat) :
    kernelStride (n :: ns) 0 = ns.prod := by
  simp [kernelStride]

theorem kernelDigits_eq (sizes : List Nat) (id : Nat) :
    kernelDigits sizes id
      = (List.range sizes.length).map
          (fun i => (id / kernelStride sizes i) % sizes.getD i 0) := by
  induction sizes with
  | nil => rfl
  | cons n ns ih =>
    rw [kernelDigits, ih, List.length_cons, List.range_succ_eq_map, List.map_cons, List.map_map]
    congr 1

theorem kernelID_eq (sizes : List Nat) (i id : Nat) (hpos : ∀ n ∈ sizes, 0 < n)
    (hfit : sizes.prod < 2 ^ 32) (hid : id < sizes.prod) (hi : i < sizes.length) :
    kernelID sizes i id = (id / kernelStride sizes i) % sizes.getD i 0 := by
  unfold kernelID
  simp only
  have hq : (if i < sizes.length - 1 then id / kernelDivisor sizes i else id)
      = id / kernelStride sizes i := by
    by_cases hlast : i < sizes.length - 1
    · rw [if_pos hlast, kernelDivisor_eq sizes i hpos hfit]
    · rw [if_neg hlast]
      have : kernelStride sizes i = 1 := by
        unfold kernelStride
        rw [List.drop_of_length_le (by omega)]
        rfl
      rw [this, Nat.div_one]
  rw [hq]
  by_cases h0 : i > 0
  · rw [if_pos h0]
  · rw [if_neg h0]
    have hi0 : i = 0 := by omega
    subst hi0
    cases sizes with
    | nil => simp at hi
    | cons n ns =>
      rw [kernelStride_cons_zero, List.getD_cons_zero]
      rw [List.prod_cons] at hid
      have hns : 0 < ns.prod := List.prod_pos (fun a ha => hpos a (List.mem_cons_of_mem _ ha))
      have : id / ns.prod < n := by
        rw [Nat.div_lt_iff_lt_mul hns]
        exact hid
      rw [Nat.mod_eq_of_lt this]

theorem kernelIndices_eq_digits (sizes : List Nat) (id : Nat) (hpos : ∀ n ∈ sizes, 0 < n)
    (hfit : sizes.prod < 2 ^ 32) (hid : id < sizes.prod) :
    kernelIndices sizes id = kernelDigits sizes id := by
  rw [kernelDigits_eq]
  unfold kernelIndices
  apply List.map_congr_left
  intro i hi
  exact kernelID_eq sizes i id hpos hfit hid (List.mem_range.1 hi)

theorem kernelDigits_sum (sizes : List Nat) (id : Nat) :
    ((List.range sizes.length).map
        (fun i => ((id / kernelStride sizes i) % sizes.getD i 0) * kernelStride sizes i)).sum
      = id % sizes.prod := by
  induction sizes with
  | nil => simp [Nat.mod_one]
  | cons n ns ih =>
    rw [List.length_cons, List.range_succ_eq_map, List.map_cons, List.map_map, List.sum_cons]
    have hrest : (List.map ((fun i => ((id / kernelStride (n :: ns) i) % (n :: ns).getD i 0)
          * kernelStride (n :: ns) i) ∘ Nat.succ) (List.range ns.length))
        = (List.range ns.length).map
            (fun i => ((id / kernelStride ns i) % ns.getD i 0) * kernelStride ns i) := by
      apply List.map_congr_left
      intro i _
      simp only [Function.comp, kernelStride_cons_succ, List.getD_cons_succ]
    rw [hrest, ih, kernelStride_cons_zero, List.getD_cons_zero, List.prod_cons,
      Nat.mul_comm n ns.prod, Nat.mod_mul, Nat.mul_comm (id / ns.prod % n)]
    omega

theorem kernelDigits_add_mul (ns : List Nat) (hpos : ∀ n ∈ ns, 0 < n) :
    ∀ (id k : Nat), kernelDigits ns (k * ns.prod + id) = kernelDigits ns id := by
  induction ns with
  | nil => intro id k; rfl
  | cons m ms ih =>
    intro id k
    have hms : 0 < ms.prod := List.prod_pos (fun a ha => hpos a (List.mem_cons_of_mem _ ha))
    rw [kernelDigits, kernelDigits, List.prod_cons]
    congr 1
    · rw [show k * (m * ms.prod) + id = id + (k * m) * ms.prod from by ring,
        Nat.add_mul_div_right _ _ hms, Nat.add_mul_mod_self_right]
    · rw [show k * (m * ms.prod) + id = (k * m) * ms.prod + id from by ring]
      exact ih (fun a ha => hpos a (List.mem_cons_of_mem _ ha)) id (k * m)

theorem kernelEncode_spec (sizes t : List Nat) (hpos : ∀ n ∈ sizes, 0 < n)
    (ht : List.Forall₂ (fun x n => x < n) t sizes) :
    kernelEncode sizes t < sizes.prod ∧ kernelDigits sizes (kernelEncode sizes t) = t := by
  induction ht with
  | nil => simp [kernelEncode, kernelDigits]
  | @cons x n xs ns hx _ ih =>
    have hns : 0 < ns.prod := List.prod_pos (fun a ha => hpos a (List.mem_cons_of_mem _ ha))
    obtain ⟨hlt, hdig⟩ := ih (fun a ha => hpos a (List.mem_cons_of_mem _ ha))
    rw [kernelEncode, List.prod_cons]
    constructor
    · calc x * ns.prod + kernelEncode ns xs < x * ns.prod + ns.prod := by omega
        _ = (x + 1) * ns.prod := by ring
        _ ≤ n * ns.prod := Nat.mul_le_mul_right _ hx
    · rw [kernelDigits]
      congr 1
      · rw [Nat.add_comm, Nat.add_mul_div_right _ _ hns, Nat.div_eq_of_lt hlt, Nat.zero_add,
          Nat.mod_eq_of_lt hx]
      · rw [kernelDigits_add_mul ns (fun a ha => hpos a (List.mem_cons_of_mem _ ha)), hdig]

theorem kernelIndices_getD (sizes : List Nat) (id i : Nat) (hi : i < sizes.length) :
    (kernelIndices sizes id).getD i 0 = kernelID sizes i id := by
  unfold kernelIndices
  rw [List.getD_eq_getElem?_getD, List.getElem?_map, List.getElem?_range hi]
  rfl

theorem kernelIndices_sum (sizes : List Nat) (id : Nat) (hpos : ∀ n ∈ sizes, 0 < n)
    (hfit : sizes.prod < 2 ^ 32) (hid : id < sizes.prod) :
    ((List.range sizes.length).map
        (fun i => (kernelIndices sizes id).getD i 0 * kernelStride sizes i)).sum = id := by
  have h : (List.range sizes.length).map
        (fun i => (kernelIndices sizes id).getD i 0 * kernelStride sizes i)
      = (List.range sizes.length).map
        (fun i => ((id / kernelStride sizes i) % sizes.getD i 0) * kernelStride sizes i) := by
    apply List.map_congr_left
    intro i hi
    rw [kernelIndices_getD sizes id i (List.mem_range.1 hi),
      kernelID_eq sizes i id hpos hfit hid (List.mem_range.1 hi)]
  rw [h, kernelDigits_sum, Nat.mod_eq_of_lt hid]

/-- C29: for kernel sizes `n_0 .. n_(D-1)`, all positive, with a product that
fits an `unsigned int`, and an id below the product, the kernel indices
emitted by `genSynapseVarInit` satisfy `kernelID_i < n_i`, and
`id = Σ kernelID_i * (n_(i+1) * ... * n_(D-1))`; two ids below the product
with the same indices are equal, and every tuple with `t_i < n_i` is the
index tuple of an id below the product: the map from id to index tuple is a
bijection onto the index space. -/
theorem kernelID_mixed_radix (sizes : List Nat) (id : Nat) (hD : 1 ≤ sizes.length)
    (hpos : ∀ n ∈ sizes, 0 < n) (hfit : sizes.prod < 2 ^ 32) (hid : id < sizes.prod) :
    (∀ i, i < sizes.length → kernelID sizes i id < sizes.getD i 0)
    ∧ ((List.range sizes.length).map
        (fun i => kernelID sizes i id * kernelStride sizes i)).sum = id
    ∧ (∀ id2, id2 < sizes.prod → kernelIndices sizes id2 = kernelIndices sizes id → id2 = id)
    ∧ (∀ t, List.Forall₂ (fun x n => x < n) t sizes →
        ∃ id2, id2 < sizes.prod ∧ kernelIndices sizes id2 = t) := by
  have _h := hD
  refine ⟨?_, ?_, ?_, ?_⟩
  · intro i hi
    rw [kernelID_eq sizes i id hpos hfit hid hi]
    apply Nat.mod_lt
    rw [List.getD_eq_getElem?_getD, List.getElem?_eq_getElem hi]
    exact hpos _ (List.getElem_mem _)
  · have h := kernelIndices_sum sizes id hpos hfit hid
    have hc : (List.range sizes.length).map
          (fun i => (kernelIndices sizes id).getD i 0 * kernelStride sizes i)
        = (List.range sizes.length).map
          (fun i => kernelID sizes i id * kernelStride sizes i) := by
      apply List.map_congr_left
      intro i hi
      rw [kernelIndices_getD sizes id i (List.mem_range.1 hi)]
    rw [← hc]
    exact h
  · intro id2 hid2 heq
    have h1 := kernelIndices_sum sizes id hpos hfit hid
    have h2 := kernelIndices_sum sizes id2 hpos hfit hid2
    rw [heq] at h2
    omega
  · intro t ht
    obtain ⟨hlt, hdig⟩ := kernelEncode_spec sizes t hpos ht
    exact ⟨kernelEncode sizes t, hlt, by rw [kernelIndices_eq_digits sizes _ hpos hfit hlt, hdig]⟩

/-- Witness for C29: a kernel of sizes 2, 3 and 4; the lane with id 17 has the
kernel indices 1, 1 and 1, for `17 = 1 * 12 + 1 * 4 + 1 * 1`. -/
theorem kernelID_mixed_radix_witness :
    kernelIndices [2, 3, 4] 17 = [1, 1, 1]
    ∧ (∀ i, i < [2, 3, 4].length → kernelID [2, 3, 4] i 17 < [2, 3, 4].getD i 0)
    ∧ ((List.range [2, 3, 4].length).map
        (fun i => kernelID [2, 3, 4] i 17 * kernelStride [2, 3, 4] i)).sum = 17 := by
  have h := kernelID_mixed_radix [2, 3, 4] 17 (by decide) (by decide) (by decide) (by decide)
  exact ⟨by decide, h.1, h.2.1⟩

/-! ## Sparse initialisation -/

theorem numBlocks_eq (numPre blockSize : Nat) (hpre : 1 ≤ numPre) (hB : 1 ≤ blockSize)
    (hfit : numPre + blockSize - 1 < 2 ^ 32) :
    numBlocks numPre blockSize = (numPre - 1) / blockSize + 1 := by
  unfold numBlocks
  have h : subU32 (addU32 numPre blockSize) 1 = numPre - 1 + blockSize := by
    simp only [addU32, subU32, uintSize]
    omega
  rw [h, Nat.add_div_right _ (by omega)]

theorem numRowsInBlock_eq (numPre blockSize r : Nat) (hpre : 1 ≤ numPre) (hB : 1 ≤ blockSize)
    (hfit : numPre + blockSize - 1 < 2 ^ 32) :
    numRowsInBlock numPre blockSize r
      = if r = (numPre - 1) / blockSize then (numPre - 1) % blockSize + 1 else blockSize := by
  unfold numRowsInBlock
  have h2 : subU32 numPre 1 = numPre - 1 := subU32_eq _ _ (by omega) hpre
  rw [numBlocks_eq numPre blockSize hpre hB hfit, h2]
  have hq : (numPre - 1) / blockSize ≤ numPre - 1 := Nat.div_le_self _ _
  have hm : (numPre - 1) % blockSize < blockSize := Nat.mod_lt _ (by omega)
  generalize (numPre - 1) / blockSize = q at hq ⊢
  generalize (numPre - 1) % blockSize = m at hm ⊢
  have h1 : subU32 (q + 1) 1 = q := by
    rw [subU32_eq _ _ (by omega) (by omega)]
    omega
  rw [h1, addU32_eq _ _ (by omega)]

theorem sparseRowLoop_eq (blockSize rowStride r : Nat) (acc : List (Nat × Nat)) (x : Nat)
    (hx : x < 2 ^ 32) :
    ∀ (rows : Nat),
      sparseRowLoop blockSize rowStride r rows (acc, x)
        = (acc ++ (List.range rows).map
              (fun i => (sparseRow blockSize r i, (x + i * rowStride) % 2 ^ 32)),
            (x + rows * rowStride) % 2 ^ 32) := by
  intro rows
  induction rows with
  | zero =>
    simp [sparseRowLoop]
    omega
  | succ n ih =>
    unfold sparseRowLoop at ih ⊢
    rw [List.range_succ, List.foldl_append, ih]
    simp only [List.foldl_cons, List.foldl_nil, List.map_append, List.map_cons, List.map_nil,
      List.append_assoc]
    congr 1
    rw [Nat.succ_mul]
    simp only [addU32, uintSize]
    omega

theorem range_block (k blockSize : Nat) (f : Nat → Nat × Nat) :
    (List.range (k * blockSize)).map f
        ++ (List.range blockSize).map (fun i => f (k * blockSize + i))
      = (List.range ((k + 1) * blockSize)).map f := by
  rw [Nat.succ_mul, List.range_add, List.map_append, List.map_map]
  rfl

theorem sparse_full_blocks (numPre blockSize rowStride id : Nat) (hpre : 1 ≤ numPre)
    (hB : 1 ≤ blockSize) (hfit : numPre + blockSize - 1 < 2 ^ 32) (hid : id < 2 ^ 32) :
    ∀ k, k ≤ (numPre - 1) / blockSize →
      (List.range k).foldl
          (fun st r => sparseRowLoop blockSize rowStride r (numRowsInBlock numPre blockSize r) st)
          ([], id)
        = ((List.range (k * blockSize)).map (fun p => (p, (id + p * rowStride) % 2 ^ 32)),
            (id + k * blockSize * rowStride) % 2 ^ 32) := by
  intro k
  induction k with
  | zero =>
    intro _
    simp
    omega
  | succ k ih =>
    intro hk
    have hqB : (numPre - 1) / blockSize * blockSize ≤ numPre - 1 := Nat.div_mul_le_self _ _
    have hkB : (k + 1) * blockSize ≤ (numPre - 1) / blockSize * blockSize :=
      Nat.mul_le_mul_right _ hk
    rw [List.range_succ, List.foldl_append, ih (by omega)]
    simp only [List.foldl_cons, List.foldl_nil]
    rw [numRowsInBlock_eq numPre blockSize k hpre hB hfit, if_neg (by omega),
      sparseRowLoop_eq _ _ _ _ _ (Nat.mod_lt _ (by decide))]
    congr 1
    · rw [← range_block k blockSize (fun p => (p, (id + p * rowStride) % 2 ^ 32))]
      congr 1
      apply List.map_congr_left
      intro i hi
      have hi2 := List.mem_range.1 hi
      have hrow : sparseRow blockSize k i = k * blockSize + i := by
        unfold sparseRow
        have hlt : k * blockSize + i < (k + 1) * blockSize := by rw [Nat.succ_mul]; omega
        rw [mulU32_eq _ _ (by omega), addU32_eq _ _ (by omega)]
      rw [hrow, Nat.add_mul]
      congr 1
      omega
    · rw [Nat.succ_mul, Nat.add_mul]
      omega

/-- C30: for `num_pre ≥ 1` rows and a block size `B ≥ 1` (with `num_pre + B - 1`
within an `unsigned int`), the loops emitted by `genSparseSynapseVarInit`
visit the rows `(r * B) + i = 0, 1, ..., num_pre - 1`, each once and in
increasing order, and at the visit of row `p` the variable `idx` holds
`id + p * rowStride` (modulo `2 ^ 32`, and exactly when the last index fits);
`numBlocks` is `(num_pre + B - 1) / B`, every `numRowsInBlock` lies in
`[1, B]`, and the index `(r * B) + t` of the row length read while staging by
a thread `t < numRowsInBlock` is below `num_pre`. -/
theorem genSparseSynapseVarInit_rows (numPre blockSize rowStride id : Nat) (hpre : 1 ≤ numPre)
    (hB : 1 ≤ blockSize) (hfit : numPre + blockSize - 1 < 2 ^ 32) (hid : id < 2 ^ 32) :
    (genSparseSynapseVarInit numPre blockSize rowStride id).1
        = (List.range numPre).map (fun p => (p, (id + p * rowStride) % 2 ^ 32))
    ∧ (id + numPre * rowStride < 2 ^ 32 →
        (genSparseSynapseVarInit numPre blockSize rowStride id).1
          = (List.range numPre).map (fun p => (p, id + p * rowStride)))
    ∧ numBlocks numPre blockSize = (numPre + blockSize - 1) / blockSize
    ∧ (∀ r, r < numBlocks numPre blockSize →
        1 ≤ numRowsInBlock numPre blockSize r ∧ numRowsInBlock numPre blockSize r ≤ blockSize)
    ∧ (∀ r t, r < numBlocks numPre blockSize → t < numRowsInBlock numPre blockSize r →
        sparseRow blockSize r t = r * blockSize + t ∧ sparseRow blockSize r t < numPre) := by
  have hnb := numBlocks_eq numPre blockSize hpre hB hfit
  have hdm : blockSize * ((numPre - 1) / blockSize) + (numPre - 1) % blockSize = numPre - 1 :=
    Nat.div_add_mod _ _
  have hm : (numPre - 1) % blockSize < blockSize := Nat.mod_lt _ (by omega)
  have hrows : ∀ r, r < numBlocks numPre blockSize → ∀ t, t < numRowsInBlock numPre blockSize r →
      r * blockSize + t < numPre := by
    intro r hr t ht
    rw [hnb] at hr
    rw [numRowsInBlock_eq numPre blockSize r hpre hB hfit] at ht
    by_cases hrq : r = (numPre - 1) / blockSize
    · rw [if_pos hrq] at ht
      rw [hrq, Nat.mul_comm]
      omega
    · rw [if_neg hrq] at ht
      have h1 : (r + 1) * blockSize ≤ (numPre - 1) / blockSize * blockSize :=
        Nat.mul_le_mul_right _ (by omega)
      rw [Nat.succ_mul] at h1
      rw [Nat.mul_comm ((numPre - 1) / blockSize)] at h1
      omega
  have hmain : (genSparseSynapseVarInit numPre blockSize rowStride id).1
      = (List.range numPre).map (fun p => (p, (id + p * rowStride) % 2 ^ 32)) := by
    unfold genSparseSynapseVarInit
    rw [hnb, List.range_succ, List.foldl_append,
      sparse_full_blocks numPre blockSize rowStride id hpre hB hfit hid _ le_rfl]
    simp only [List.foldl_cons, List.foldl_nil]
    rw [numRowsInBlock_eq numPre blockSize _ hpre hB hfit, if_pos rfl,
      sparseRowLoop_eq _ _ _ _ _ (Nat.mod_lt _ (by decide))]
    simp only
    have hsplit : numPre
        = (numPre - 1) / blockSize * blockSize + ((numPre - 1) % blockSize + 1) := by
      rw [Nat.mul_comm]
      omega
    conv_rhs => rw [hsplit, List.range_add, List.map_append, List.map_map]
    congr 1
    apply List.map_congr_left
    intro i hi
    have hi2 := List.mem_range.1 hi
    have hlt : (numPre - 1) / blockSize * blockSize + i < numPre := by
      rw [Nat.mul_comm]
      omega
    have hrow : sparseRow blockSize ((numPre - 1) / blockSize) i
        = (numPre - 1) / blockSize * blockSize + i := by
      unfold sparseRow
      rw [mulU32_eq _ _ (by omega), addU32_eq _ _ (by omega)]
    simp only [Function.comp, hrow, Nat.add_mul]
    congr 1
    omega
  refine ⟨hmain, ?_, ?_, ?_, ?_⟩
  · intro hno
    rw [hmain]
    apply List.map_congr_left
    intro p hp
    have hp2 := List.mem_range.1 hp
    have : p * rowStride ≤ numPre * rowStride := Nat.mul_le_mul_right _ (by omega)
    rw [Nat.mod_eq_of_lt (by omega)]
  · rw [hnb]
    have : numPre + blockSize - 1 = numPre - 1 + blockSize := by omega
    rw [this, Nat.add_div_right _ (by omega)]
  · intro r _
    rw [numRowsInBlock_eq numPre blockSize r hpre hB hfit]
    split_ifs <;> omega
  · intro r t hr ht
    have h := hrows r hr t ht
    have hrow : sparseRow blockSize r t = r * blockSize + t := by
      unfold sparseRow
      rw [mulU32_eq _ _ (by omega), addU32_eq _ _ (by omega)]
    rw [hrow]
    exact ⟨rfl, h⟩

/-- Witness for C30: 7 rows in blocks of 3 are visited in 3 blocks, the last one
with one row; the lane with id 2 and a row stride of 10 meets row `p` with
`idx = 2 + 10 p`. -/
theorem genSparseSynapseVarInit_rows_witness :
    (genSparseSynapseVarInit 7 3 10 2).1
        = [(0, 2), (1, 12), (2, 22), (3, 32), (4, 42), (5, 52), (6, 62)]
    ∧ numBlocks 7 3 = 3 ∧ numRowsInBlock 7 3 2 = 1
    ∧ (genSparseSynapseVarInit 7 3 10 2).1
        = (List.range 7).map (fun p => (p, (2 + p * 10) % 2 ^ 32)) :=
  ⟨by decide, by decide, by decide,
    (genSparseSynapseVarInit_rows 7 3 10 2 (by decide) (by decide) (by decide) (by decide)).1⟩

end GeNN
